import Mathlib

/-!
# Pixelity: album membership, media deletion, uploads and tags

A shallow embedding of the album service (`album/album.go`), of the media
service (`media/media.go`: upload, deletion, tags) and of the three relations
they work on (`models/models.go`), followed by theorems about them.

Modelling conventions.

* A relation is the list of its rows in insertion order.  The schema
  constraints declared in `models/models.go` (primary key `id` of
  `gorm.Model`, composite primary key `(album_id, media_item_id)` of
  `AlbumMediaItem`) are predicates on a database (`MediaKeyUnique`,
  `AlbumKeyUnique`, `MembershipKeyUnique`); the operations do not assume them,
  and an insert that would break the composite key fails the way the
  database engine makes it fail.
* `gorm.Model.DeletedAt` is kept as a flag: `true` when the column is set.
  Queries issued through a model (`First`, `Delete(&x)`, `Model(&x).Update`)
  see live rows only; queries issued through `Table("media_items")` or raw
  SQL see every row.  The time stamps `CreatedAt`, `UpdatedAt`, `AddedAt` are
  not modelled.
* `uint` identifiers are natural numbers (no arithmetic is done on them);
  Go `int` arithmetic that can leave the 64 bit range is wrapped explicitly.
* `db.Transaction` commits the result of its body, or rolls back to the
  database it started from when the body returns an error.  Failures of the
  database engine itself (I/O errors, lock time-outs) are not modelled: the
  only statement that fails is an insert that violates the primary key.  The
  one exception is the insert of `ProcessUpload`, whose failure is an input.
* Files are a list of existing paths together with a list of paths whose
  removal is refused by the operating system.
* What `ProcessUpload` takes from its surroundings (the generated file name,
  the outcome of opening, creating, copying, decoding and saving) is an
  explicit input, `UploadEnv`.
* `float64` arithmetic in `createThumbnail` is IEEE 754 binary64 arithmetic,
  every operation rounded to the nearest value, ties to even; values are
  kept as sign, mantissa and binary exponent, so that they can be computed.
* `encoding/json` is a parameter (`JSONCodec`) of the operations on metadata;
  a `map[string]interface{}` is an association list read by its first entry
  for a key.
-/

namespace Pixelity

/-! ## Data model (`models/models.go`) -/

/-- Columns of `media_items` (struct `models.MediaItem`); the Go field `Type`
is `MediaType` here, `Type` being a keyword. -/
structure MediaItem where
  ID : Nat
  DeletedAt : Bool
  Filename : String
  Path : String
  ThumbnailPath : String
  Size : Int
  MimeType : String
  MediaType : String
  UserID : Nat
  Metadata : String
deriving DecidableEq, Repr

/-- Columns of `albums` (struct `models.Album`); `MediaCount` is not a column
(`gorm:"-"`) and is computed by `GetAlbum`. -/
structure Album where
  ID : Nat
  DeletedAt : Bool
  Name : String
  Description : String
  UserID : Nat
  Cover : String
deriving DecidableEq, Repr

/-- Columns of the join table `album_media_items` (struct
`models.AlbumMediaItem`), without the `AddedAt` time stamp. -/
structure AlbumMediaItem where
  AlbumID : Nat
  MediaItemID : Nat
  DisplayOrder : Int
deriving DecidableEq, Repr

/-- The three relations behind `*gorm.DB`. -/
structure DB where
  media_items : List MediaItem
  albums : List Album
  album_media_items : List AlbumMediaItem
deriving DecidableEq, Repr

/-- The files of the upload and thumbnail directories: `files` are the paths
that exist, `locked` the paths whose removal fails with an error other than
"file does not exist" (permission denied, busy, ...). -/
structure FileSystem where
  files : List String
  locked : List String
deriving DecidableEq, Repr

/-- The errors the modelled operations return. -/
inductive Error where
  /-- `errors.New("album not found or access denied")` -/
  | albumNotFoundOrDenied
  /-- `errors.New("media item not found or access denied")` -/
  | mediaItemNotFoundOrDenied
  /-- `errors.New("media item not found in album")` -/
  | mediaItemNotFoundInAlbum
  /-- `errors.New("media item is not in the album")` -/
  | mediaItemNotInAlbum
  /-- `errors.New("one or more media items not found in album")` -/
  | mediaItemsNotFoundInAlbum
  /-- `gorm.ErrRecordNotFound` -/
  | recordNotFound
  /-- The engine's error for an insert that repeats a primary key. -/
  | uniqueConstraintFailed
  /-- `fmt.Errorf("error removing file: %v", err)` -/
  | removingFile
  /-- `fmt.Errorf("error removing thumbnail: %v", err)` -/
  | removingThumbnail
  /-- `errors.New("file size exceeds maximum limit")` -/
  | fileSizeExceedsLimit
  /-- `errors.New("unsupported file type")` -/
  | unsupportedFileType
  /-- `fmt.Errorf("error opening uploaded file: %v", err)` -/
  | openingUploadedFile
  /-- `fmt.Errorf("error creating file: %v", err)` -/
  | creatingFile
  /-- `fmt.Errorf("error saving file: %v", err)` -/
  | savingFile
  /-- An error of `imaging.Open` or `imaging.Save`. -/
  | imaging
  /-- `fmt.Errorf("error creating thumbnail: %v", err)` -/
  | creatingThumbnail
  /-- `fmt.Errorf("error saving media record: %v", err)` -/
  | savingMediaRecord
  /-- An error of `json.Unmarshal`. -/
  | invalidJSON
deriving DecidableEq, Repr

/-- The text of an error: for the `%v` errors the fixed part of the text, for
the errors of `imaging` and `encoding/json` a stand-in for the library's text. -/
def Error.message : Error → String
  | .albumNotFoundOrDenied => "album not found or access denied"
  | .mediaItemNotFoundOrDenied => "media item not found or access denied"
  | .mediaItemNotFoundInAlbum => "media item not found in album"
  | .mediaItemNotInAlbum => "media item is not in the album"
  | .mediaItemsNotFoundInAlbum => "one or more media items not found in album"
  | .recordNotFound => "record not found"
  | .uniqueConstraintFailed => "UNIQUE constraint failed"
  | .removingFile => "error removing file"
  | .removingThumbnail => "error removing thumbnail"
  | .fileSizeExceedsLimit => "file size exceeds maximum limit"
  | .unsupportedFileType => "unsupported file type"
  | .openingUploadedFile => "error opening uploaded file"
  | .creatingFile => "error creating file"
  | .savingFile => "error saving file"
  | .imaging => "imaging"
  | .creatingThumbnail => "error creating thumbnail"
  | .savingMediaRecord => "error saving media record"
  | .invalidJSON => "invalid character"

/-! ## Schema constraints -/

/-- Primary key of `media_items`: no two rows share an `id`. -/
def MediaKeyUnique (db : DB) : Prop :=
  (db.media_items.map (fun m => m.ID)).Nodup

/-- Primary key of `albums`: no two rows share an `id`. -/
def AlbumKeyUnique (db : DB) : Prop :=
  (db.albums.map (fun a => a.ID)).Nodup

/-- Composite primary key of `album_media_items`: no two rows share the pair
`(album_id, media_item_id)`. -/
def MembershipKeyUnique (db : DB) : Prop :=
  (db.album_media_items.map (fun r => (r.AlbumID, r.MediaItemID))).Nodup

/-- Every membership row names a row of `media_items` (live or soft-deleted). -/
def MembershipRefsMedia (db : DB) : Prop :=
  ∀ r ∈ db.album_media_items, ∃ m ∈ db.media_items, m.ID = r.MediaItemID

instance (db : DB) : Decidable (MediaKeyUnique db) :=
  inferInstanceAs (Decidable (List.Nodup _))

instance (db : DB) : Decidable (AlbumKeyUnique db) :=
  inferInstanceAs (Decidable (List.Nodup _))

instance (db : DB) : Decidable (MembershipKeyUnique db) :=
  inferInstanceAs (Decidable (List.Nodup _))

instance (db : DB) : Decidable (MembershipRefsMedia db) :=
  inferInstanceAs (Decidable (∀ r ∈ db.album_media_items, ∃ m ∈ db.media_items, m.ID = r.MediaItemID))

/-! ## Query primitives -/

/-- Go `int` is 64 bits wide: the value of an `int` expression after
wrap-around. -/
def wrapInt (x : Int) : Int :=
  (x + 9223372036854775808) % 18446744073709551616 - 9223372036854775808

/-- The query `Where("id = ? AND user_id = ?", id, userID).First(&album)`:
the live album with this id and owner, if any. -/
def firstAlbum (db : DB) (id userID : Nat) : Option Album :=
  db.albums.find? (fun a => a.ID = id ∧ a.UserID = userID ∧ a.DeletedAt = false)

/-- The query `Where("id = ? AND user_id = ?", id, userID).First(&mediaItem)`:
the live media item with this id and owner, if any. -/
def firstMediaItem (db : DB) (id userID : Nat) : Option MediaItem :=
  db.media_items.find? (fun m => m.ID = id ∧ m.UserID = userID ∧ m.DeletedAt = false)

/-- The rows of `album_media_items` with `album_id = albumID`. -/
def albumRows (db : DB) (albumID : Nat) : List AlbumMediaItem :=
  db.album_media_items.filter (fun r => r.AlbumID = albumID)

/-- The query `Model(&AlbumMediaItem{}).Where("album_id = ?", id).Count`. -/
def countAlbumRows (db : DB) (albumID : Nat) : Nat :=
  (albumRows db albumID).length

/-- The query `Select("COALESCE(MAX(display_order), 0)")` over the rows of one
album. -/
def maxDisplayOrder (db : DB) (albumID : Nat) : Int :=
  match (albumRows db albumID).map (fun r => r.DisplayOrder) with
  | [] => 0
  | d :: ds => ds.foldl max d

/-- The query `Table("media_items").Where("id = ? AND user_id = ?").Count`:
issued on the bare table, so soft-deleted rows are counted too. -/
def countMediaItems (db : DB) (mediaID userID : Nat) : Nat :=
  (db.media_items.filter (fun m => m.ID = mediaID ∧ m.UserID = userID)).length

/-- The query `Table("media_items").Select("thumbnail_path").Where("id = ? AND
user_id = ?").Row().Scan(&thumbnailPath)`: the first matching row of the bare
table, `none` standing for `sql.ErrNoRows`. -/
def selectThumbnailPath (db : DB) (mediaID userID : Nat) : Option String :=
  (db.media_items.find? (fun m => m.ID = mediaID ∧ m.UserID = userID)).map
    (fun m => m.ThumbnailPath)

/-- The query `Model(&AlbumMediaItem{}).Where("album_id = ? AND media_item_id
= ?").Count`. -/
def countMembership (db : DB) (albumID mediaID : Nat) : Nat :=
  (db.album_media_items.filter
    (fun r => r.AlbumID = albumID ∧ r.MediaItemID = mediaID)).length

/-- The statement `tx.Create(&item)` on `album_media_items`: refused when a row
with the same composite key exists, appended otherwise. -/
def createAlbumMediaItem (db : DB) (item : AlbumMediaItem) : Except Error DB :=
  if db.album_media_items.any
      (fun r => r.AlbumID = item.AlbumID ∧ r.MediaItemID = item.MediaItemID) then
    .error .uniqueConstraintFailed
  else
    .ok { db with album_media_items := db.album_media_items ++ [item] }

/-- The statement `Delete(&AlbumMediaItem{}, "album_id = ?", id)`. -/
def deleteAlbumRows (db : DB) (albumID : Nat) : DB :=
  { db with album_media_items :=
      db.album_media_items.filter (fun r => ¬ r.AlbumID = albumID) }

/-- The statement `Delete(&AlbumMediaItem{}, "album_id = ? AND media_item_id =
?", albumID, mediaID)`, with its `RowsAffected`. -/
def deleteMembership (db : DB) (albumID mediaID : Nat) : DB × Nat :=
  let rows := db.album_media_items.filter
    (fun r => ¬ (r.AlbumID = albumID ∧ r.MediaItemID = mediaID))
  ({ db with album_media_items := rows }, countMembership db albumID mediaID)

/-- The statement `Exec("DELETE FROM album_media_items WHERE media_item_id =
?", id)`. -/
def deleteMediaRows (db : DB) (mediaID : Nat) : DB :=
  { db with album_media_items :=
      db.album_media_items.filter (fun r => ¬ r.MediaItemID = mediaID) }

/-- The statement `tx.Delete(&album)`: a soft delete of the live row with the
album's primary key. -/
def softDeleteAlbum (db : DB) (album : Album) : DB :=
  { db with albums := db.albums.map (fun a =>
      if a.ID = album.ID ∧ a.DeletedAt = false then { a with DeletedAt := true } else a) }

/-- The statement `tx.Delete(&mediaItem)`: a soft delete of the live row with
the media item's primary key. -/
def softDeleteMediaItem (db : DB) (mediaItem : MediaItem) : DB :=
  { db with media_items := db.media_items.map (fun m =>
      if m.ID = mediaItem.ID ∧ m.DeletedAt = false then { m with DeletedAt := true } else m) }

/-- The statement `tx.Model(&album).Update("cover", thumbnailPath)`. -/
def updateCover (db : DB) (album : Album) (thumbnailPath : String) : DB :=
  { db with albums := db.albums.map (fun a =>
      if a.ID = album.ID ∧ a.DeletedAt = false then { a with Cover := thumbnailPath } else a) }

/-- The statement `Model(&AlbumMediaItem{}).Where("album_id = ? AND
media_item_id = ?").Update("display_order", order)`, with its `RowsAffected`
(the number of rows matched). -/
def updateDisplayOrder (db : DB) (albumID mediaID : Nat) (order : Int) : DB × Nat :=
  let rows := db.album_media_items.map (fun r =>
    if r.AlbumID = albumID ∧ r.MediaItemID = mediaID then
      { r with DisplayOrder := order } else r)
  ({ db with album_media_items := rows }, countMembership db albumID mediaID)

/-- The method `db.Transaction(fc)`: commit on success, roll back on error. -/
def Transaction (db : DB) (fc : DB → Except Error DB) : DB × Option Error :=
  match fc db with
  | .ok db' => (db', none)
  | .error e => (db, some e)

/-- The result of `os.Remove`. -/
inductive RemoveResult where
  | removed (fs : FileSystem)
  | notExist
  | failed
deriving DecidableEq, Repr

/-- The call `os.Remove(path)`. -/
def osRemove (fs : FileSystem) (path : String) : RemoveResult :=
  if path ∈ fs.files then
    if path ∈ fs.locked then .failed
    else .removed { fs with files := fs.files.filter (fun p => ¬ p = path) }
  else .notExist

/-- The test `err != nil && !os.IsNotExist(err)` around `os.Remove(path)`:
`none` when the removal failed for a reason other than a missing file, the
file system after the call otherwise. -/
def removeUnlessMissing (fs : FileSystem) (path : String) : Option FileSystem :=
  match osRemove fs path with
  | .removed fs' => some fs'
  | .notExist => some fs
  | .failed => none

/-- The clause `ORDER BY ami.display_order`: rows in ascending display order.
SQL leaves the order of rows with equal display order to the engine; here they
are kept in table order, and no statement below rests on that choice. -/
def orderByDisplayOrder (rows : List AlbumMediaItem) : List AlbumMediaItem :=
  rows.insertionSort (fun r₁ r₂ => r₁.DisplayOrder ≤ r₂.DisplayOrder)

/-- The clause `FROM media_items m INNER JOIN album_media_items ami ON m.id =
ami.media_item_id` for the given membership rows: raw SQL, so soft-deleted
media rows take part. -/
def joinMediaItems (db : DB) (rows : List AlbumMediaItem) : List MediaItem :=
  rows.flatMap (fun r => db.media_items.filter (fun m => m.ID = r.MediaItemID))

/-! ## `album/album.go` -/

/-- The method `AlbumService.GetAlbum`: the album and its `MediaCount`. -/
def GetAlbum (db : DB) (id userID : Nat) : Except Error (Album × Nat) :=
  match firstAlbum db id userID with
  | none => .error .albumNotFoundOrDenied
  | some album => .ok (album, countAlbumRows db id)

/-- The method `AlbumService.DeleteAlbum`. -/
def DeleteAlbum (db : DB) (id userID : Nat) : DB × Option Error :=
  Transaction db fun tx =>
    match firstAlbum tx id userID with
    | none => .error .albumNotFoundOrDenied
    | some album => .ok (softDeleteAlbum (deleteAlbumRows tx id) album)

/-- The loop `for i, mediaID := range mediaIDs` of `AddMediaToAlbum`, from
index `i` on. -/
def addMediaLoop (albumID userID : Nat) (maxOrder : Int) :
    Nat → List Nat → DB → Except Error DB
  | _, [], tx => .ok tx
  | i, mediaID :: rest, tx =>
    if countMediaItems tx mediaID userID = 0 then
      .error .mediaItemNotFoundOrDenied
    else
      match createAlbumMediaItem tx
          ⟨albumID, mediaID, wrapInt (maxOrder + (i : Int) + 1)⟩ with
      | .error e => .error e
      | .ok tx' => addMediaLoop albumID userID maxOrder (i + 1) rest tx'

/-- The method `AlbumService.AddMediaToAlbum`. -/
def AddMediaToAlbum (db : DB) (albumID : Nat) (mediaIDs : List Nat) (userID : Nat) :
    DB × Option Error :=
  Transaction db fun tx =>
    match firstAlbum tx albumID userID with
    | none => .error .albumNotFoundOrDenied
    | some _ => addMediaLoop albumID userID (maxDisplayOrder tx albumID) 0 mediaIDs tx

/-- The method `AlbumService.RemoveMediaFromAlbum`. -/
def RemoveMediaFromAlbum (db : DB) (albumID mediaID userID : Nat) : DB × Option Error :=
  Transaction db fun tx =>
    match firstAlbum tx albumID userID with
    | none => .error .albumNotFoundOrDenied
    | some _ =>
      let result := deleteMembership tx albumID mediaID
      if result.2 = 0 then .error .mediaItemNotFoundInAlbum else .ok result.1

/-- The method `AlbumService.GetAlbumMedia`. -/
def GetAlbumMedia (db : DB) (albumID userID : Nat) : Except Error (List MediaItem) :=
  match firstAlbum db albumID userID with
  | none => .error .albumNotFoundOrDenied
  | some _ => .ok (joinMediaItems db (orderByDisplayOrder (albumRows db albumID)))

/-- The method `AlbumService.SetAlbumCover`. -/
def SetAlbumCover (db : DB) (albumID mediaID userID : Nat) : DB × Option Error :=
  Transaction db fun tx =>
    match firstAlbum tx albumID userID with
    | none => .error .albumNotFoundOrDenied
    | some album =>
      match selectThumbnailPath tx mediaID userID with
      | none => .error .mediaItemNotFoundOrDenied
      | some thumbnailPath =>
        if countMembership tx albumID mediaID = 0 then .error .mediaItemNotInAlbum
        else .ok (updateCover tx album thumbnailPath)

/-- The loop `for order, mediaID := range mediaOrder` of `ReorderAlbumMedia`,
from index `order` on. -/
def reorderLoop (albumID : Nat) : Nat → List Nat → DB → Except Error DB
  | _, [], tx => .ok tx
  | order, mediaID :: rest, tx =>
    let result := updateDisplayOrder tx albumID mediaID ((order : Int) + 1)
    if result.2 = 0 then .error .mediaItemsNotFoundInAlbum
    else reorderLoop albumID (order + 1) rest result.1

/-- The method `AlbumService.ReorderAlbumMedia`. -/
def ReorderAlbumMedia (db : DB) (albumID : Nat) (mediaOrder : List Nat) (userID : Nat) :
    DB × Option Error :=
  Transaction db fun tx =>
    match firstAlbum tx albumID userID with
    | none => .error .albumNotFoundOrDenied
    | some _ => reorderLoop albumID 0 mediaOrder tx

/-! ## `media/media.go` -/

/-- The method `MediaService.GetMediaItem`. -/
def GetMediaItem (db : DB) (id userID : Nat) : Except Error MediaItem :=
  match firstMediaItem db id userID with
  | none => .error .recordNotFound
  | some mediaItem => .ok mediaItem

/-- The function passed to `db.Transaction` by `DeleteMediaItem`: its effect on
the files, which no rollback undoes, and its result for the transaction. -/
def deleteMediaItemTx (tx : DB) (fs : FileSystem) (id userID : Nat) :
    FileSystem × Except Error DB :=
  match firstMediaItem tx id userID with
  | none => (fs, .error .recordNotFound)
  | some mediaItem =>
    match removeUnlessMissing fs mediaItem.Path with
    | none => (fs, .error .removingFile)
    | some fs₁ =>
      match (if mediaItem.ThumbnailPath ≠ "" then
              removeUnlessMissing fs₁ mediaItem.ThumbnailPath else some fs₁) with
      | none => (fs₁, .error .removingThumbnail)
      | some fs₂ => (fs₂, .ok (softDeleteMediaItem (deleteMediaRows tx id) mediaItem))

/-- The method `MediaService.DeleteMediaItem`. -/
def DeleteMediaItem (db : DB) (fs : FileSystem) (id userID : Nat) :
    DB × FileSystem × Option Error :=
  let run := deleteMediaItemTx db fs id userID
  let result := Transaction db (fun _ => run.2)
  (result.1, run.1, result.2)

/-! ## Vocabulary of the statements -/

/-- User `userID` owns album `albumID`: a live row of `albums` has this id and
this owner. -/
def OwnsAlbum (db : DB) (userID albumID : Nat) : Prop :=
  ∃ a ∈ db.albums, a.ID = albumID ∧ a.UserID = userID ∧ a.DeletedAt = false

/-- A row of `media_items`, live or soft-deleted, has id `mediaID` and owner
`userID`. -/
def OwnsMediaRow (db : DB) (userID mediaID : Nat) : Prop :=
  ∃ m ∈ db.media_items, m.ID = mediaID ∧ m.UserID = userID

/-- Album `albumID` has a membership row for media item `mediaID`. -/
def InAlbum (db : DB) (albumID mediaID : Nat) : Prop :=
  ∃ r ∈ db.album_media_items, r.AlbumID = albumID ∧ r.MediaItemID = mediaID

instance (db : DB) (u a : Nat) : Decidable (OwnsAlbum db u a) :=
  inferInstanceAs (Decidable (∃ x ∈ db.albums, x.ID = a ∧ x.UserID = u ∧ x.DeletedAt = false))

instance (db : DB) (u m : Nat) : Decidable (OwnsMediaRow db u m) :=
  inferInstanceAs (Decidable (∃ x ∈ db.media_items, x.ID = m ∧ x.UserID = u))

instance (db : DB) (a m : Nat) : Decidable (InAlbum db a m) :=
  inferInstanceAs (Decidable (∃ r ∈ db.album_media_items, r.AlbumID = a ∧ r.MediaItemID = m))

/-- The membership invariant of the data model: every membership row links a
row of `albums` and a row of `media_items` that have the same owner, and no
two membership rows share the pair `(album_id, media_item_id)`. -/
def MembershipInvariant (db : DB) : Prop :=
  (∀ r ∈ db.album_media_items, ∃ al ∈ db.albums, ∃ m ∈ db.media_items,
    al.ID = r.AlbumID ∧ m.ID = r.MediaItemID ∧ al.UserID = m.UserID) ∧
  MembershipKeyUnique db

instance (db : DB) : Decidable (MembershipInvariant db) :=
  inferInstanceAs (Decidable (_ ∧ _))

/-- The rows `AddMediaToAlbum` inserts for the media ids from index `i` on,
when every insert is accepted. -/
def appendedRows (albumID : Nat) (maxOrder : Int) : Nat → List Nat → List AlbumMediaItem
  | _, [] => []
  | i, mediaID :: rest =>
    ⟨albumID, mediaID, wrapInt (maxOrder + (i : Int) + 1)⟩ ::
      appendedRows albumID maxOrder (i + 1) rest

/-- The display order `ReorderAlbumMedia` leaves in one row after the updates
for the media ids from index `order` on. -/
def reorderedRow (albumID : Nat) : Nat → List Nat → AlbumMediaItem → AlbumMediaItem
  | _, [], r => r
  | order, mediaID :: rest, r =>
    reorderedRow albumID (order + 1) rest
      (if r.AlbumID = albumID ∧ r.MediaItemID = mediaID then
        { r with DisplayOrder := (order : Int) + 1 } else r)

/-- The rows of an album whose members are exactly the given media ids, each
once, numbered by position from `order + 1` on. -/
def numberedRows (albumID : Nat) : Nat → List Nat → List AlbumMediaItem
  | _, [] => []
  | order, mediaID :: rest =>
    ⟨albumID, mediaID, (order : Int) + 1⟩ :: numberedRows albumID (order + 1) rest

/-! ## A sample database -/

/-- A media row of the sample database. -/
def sampleMedia (id userID : Nat) (deleted : Bool) (path thumb : String) : MediaItem :=
  ⟨id, deleted, "cat.jpg", path, thumb, 2097152, "image/jpeg", "image", userID, ""⟩

/-- User 7 has media items 1, 2 and 3 and the albums 10 and 12; user 8 has
media item 4 and album 11.  Album 10 holds 2, 1, 3 in this display order,
album 12 holds 1, album 11 holds 4. -/
def sampleDB : DB where
  media_items := [sampleMedia 1 7 false "u/1" "t/1", sampleMedia 2 7 false "u/2" "t/2",
    sampleMedia 3 7 false "u/3" "t/3", sampleMedia 4 8 false "u/4" ""]
  albums := [⟨10, false, "Pets", "", 7, ""⟩, ⟨11, false, "Trips", "", 8, ""⟩,
    ⟨12, false, "Best", "", 7, "t/1"⟩]
  album_media_items := [⟨10, 2, 1⟩, ⟨10, 1, 2⟩, ⟨11, 4, 1⟩, ⟨10, 3, 3⟩, ⟨12, 1, 1⟩]

/-- The sample database before anything was added to an album. -/
def sampleEmptyAlbums : DB := { sampleDB with album_media_items := [] }

/-- The files of the sample database; the thumbnail of media item 2 cannot be
removed. -/
def sampleFiles : FileSystem where
  files := ["u/1", "t/1", "u/2", "t/2", "u/3", "t/3", "u/4"]
  locked := ["t/2"]

/-! ## Uploads (`media/media.go`) -/

/-- The constant `MaxFileSize = 32 << 20`. -/
def MaxFileSize : Int := 33554432

/-- The constant `ThumbnailWidth`. -/
def ThumbnailWidth : Int := 300

/-- The constant `ThumbnailHeight`. -/
def ThumbnailHeight : Int := 300

/-- The keys of the map `AllowedImageTypes`, every one mapped to `true`. -/
def AllowedImageTypes : List String :=
  ["image/jpeg", "image/png", "image/gif", "image/webp"]

/-- The keys of the map `AllowedVideoTypes`, every one mapped to `true`. -/
def AllowedVideoTypes : List String :=
  ["video/mp4", "video/webm", "video/avi", "video/mpeg"]

/-- The method `MediaService.determineMediaType`; a lookup in a
`map[string]bool` is `true` exactly for the keys of the map. -/
def determineMediaType (mimeType : String) : String :=
  if mimeType ∈ AllowedImageTypes then "image"
  else if mimeType ∈ AllowedVideoTypes then "video"
  else ""

/-- The function `ValidateMimeType`. -/
def ValidateMimeType (mimeType : String) : Bool :=
  decide (mimeType ∈ AllowedImageTypes) || decide (mimeType ∈ AllowedVideoTypes)

/-! ### `float64` (IEEE 754 binary64, round to nearest, ties to even) -/

/-- A value of Go's `float64`: a finite number `± mant * 2 ^ exp` (a zero of
either sign when `mant = 0`), an infinity or a NaN. -/
inductive Float64 where
  | finite (neg : Bool) (mant : Nat) (exp : Int)
  | inf (neg : Bool)
  | nan
deriving DecidableEq, Repr

/-- The position of the highest binary digit of `n`, found in at most `fuel`
halvings. -/
def log2Aux : Nat → Nat → Nat
  | 0, _ => 0
  | fuel + 1, n => if 2 ≤ n then log2Aux fuel (n / 2) + 1 else 0

/-- The position of the highest binary digit of `n`: `2 ^ log2 n ≤ n <
2 ^ (log2 n + 1)` for `n > 0`. -/
def log2 (n : Nat) : Nat := log2Aux n n

/-- The integer `E` with `2 ^ E ≤ n / d < 2 ^ (E + 1)`, for `n, d > 0`. -/
def floorLog2 (n d : Nat) : Int :=
  let k : Int := (log2 n : Int) - (log2 d : Int)
  if d * 2 ^ k.toNat ≤ n * 2 ^ (-k).toNat then k else k - 1

/-- The integer nearest to `n / d`, the even one of two that are equally near. -/
def roundHalfEven (n d : Nat) : Nat :=
  if 2 * (n % d) < d then n / d
  else if d < 2 * (n % d) then n / d + 1
  else if n / d % 2 = 0 then n / d else n / d + 1

/-- The `float64` nearest to the rational `± n / d`, for `d > 0`: 53 binary
digits from the leading one on, or multiples of `2 ^ -1074` for a subnormal
result; a result of `2 ^ 1024` or more is an infinity. -/
def roundFloat64 (neg : Bool) (n d : Nat) : Float64 :=
  if n = 0 then .finite neg 0 0
  else
    let e : Int := max (floorLog2 n d - 52) (-1074)
    let m := roundHalfEven (n * 2 ^ (-e).toNat) (d * 2 ^ e.toNat)
    if 1024 ≤ (log2 m : Int) + e then .inf neg else .finite neg m e

/-- The conversion `float64(i)` of an `int`. -/
def Float64.ofInt (i : Int) : Float64 :=
  roundFloat64 (decide (i < 0)) i.natAbs 1

/-- The quotient `a / b` of two `float64`. -/
def Float64.div : Float64 → Float64 → Float64
  | .nan, _ => .nan
  | _, .nan => .nan
  | .inf _, .inf _ => .nan
  | .inf s, .finite t _ _ => .inf (s != t)
  | .finite s _ _, .inf t => .finite (s != t) 0 0
  | .finite s m e, .finite t m' e' =>
    if m' = 0 then (if m = 0 then .nan else .inf (s != t))
    else roundFloat64 (s != t) (m * 2 ^ (e - e').toNat) (m' * 2 ^ (e' - e).toNat)

/-- The product `a * b` of two `float64`. -/
def Float64.mul : Float64 → Float64 → Float64
  | .nan, _ => .nan
  | _, .nan => .nan
  | .inf s, .inf t => .inf (s != t)
  | .inf s, .finite t m _ => if m = 0 then .nan else .inf (s != t)
  | .finite s m _, .inf t => if m = 0 then .nan else .inf (s != t)
  | .finite s m e, .finite t m' e' =>
    roundFloat64 (s != t) (m * m' * 2 ^ (e + e').toNat) (2 ^ (-(e + e')).toNat)

/-- The integer `± n`. -/
def signed (neg : Bool) (n : Nat) : Int :=
  if neg then -(n : Int) else (n : Int)

/-- The comparison `a > b` of two `float64`; false when one of them is a NaN. -/
def Float64.gt : Float64 → Float64 → Bool
  | .nan, _ => false
  | _, .nan => false
  | .inf s, .inf t => !s && t
  | .inf s, .finite _ _ _ => !s
  | .finite _ _ _, .inf t => t
  | .finite s m e, .finite t m' e' =>
    decide (signed t m' * 2 ^ (e' - e).toNat < signed s m * 2 ^ (e - e').toNat)

/-- Go's conversion `int(f)` of a `float64`: the fractional part is dropped;
`none` for a NaN, an infinity or a value outside the range of `int`, where the
language leaves the result to the implementation. -/
def Float64.toInt : Float64 → Option Int
  | .finite s m e =>
    let t : Int := signed s (m * 2 ^ e.toNat / 2 ^ (-e).toNat)
    if -9223372036854775808 ≤ t ∧ t ≤ 9223372036854775807 then some t else none
  | _ => none

/-- The dimensions `(width, height)` computed by `createThumbnail` for a source
image whose bounds are `dx` by `dy` pixels; `none` when a conversion to `int`
is one that the language leaves to the implementation. -/
def thumbnailSize (dx dy : Int) : Option (Int × Int) :=
  let ratio := Float64.div (Float64.ofInt dx) (Float64.ofInt dy)
  if Float64.gt ratio (Float64.ofInt 1) then
    (Float64.toInt (Float64.div (Float64.ofInt ThumbnailWidth) ratio)).map
      (fun height => (ThumbnailWidth, height))
  else
    (Float64.toInt (Float64.mul (Float64.ofInt ThumbnailHeight) ratio)).map
      (fun width => (width, ThumbnailHeight))

/-- The float `f` is a positive finite one, `m / 2 ^ c`, in the binade of the
rational `x` and at most half a unit in the last place away from `x`. -/
def RoundsTo (f : Float64) (x : ℚ) : Prop :=
  ∃ m c : ℕ, f = .finite false m (-(c : ℤ)) ∧ 0 < c ∧
    (2 : ℚ) ^ 52 ≤ x * 2 ^ c ∧ x * 2 ^ c < 2 ^ 53 ∧ |(m : ℚ) - x * 2 ^ c| ≤ 1 / 2

/-- The truncation of a rational number, the fractional part dropped. -/
def truncate (x : ℚ) : Int :=
  if 0 ≤ x then ⌊x⌋ else -⌊-x⌋

/-- The dimensions that the computation of `createThumbnail` would give if the
division and the product were exact, followed by truncation: not the code, but
the arithmetic it is compared with. -/
def thumbnailSizeExact (dx dy : Int) : Int × Int :=
  let ratio : ℚ := (dx : ℚ) / (dy : ℚ)
  if ratio > 1 then
    (ThumbnailWidth, truncate ((ThumbnailWidth : ℚ) / ratio))
  else
    (truncate ((ThumbnailHeight : ℚ) * ratio), ThumbnailHeight)

/-- What `ProcessUpload` reads of a `multipart.FileHeader`: the file name, the
size and the header `Content-Type`. -/
structure FileHeader where
  Filename : String
  Size : Int
  ContentType : String
deriving DecidableEq, Repr

/-- What one run of `ProcessUpload` takes from its surroundings. -/
structure UploadEnv where
  /-- The name `fmt.Sprintf("%d_%s%s", time.Now().UnixNano(),
  generateRandomString(8), ext)`. -/
  uniqueName : String
  /-- Whether `file.Open()` fails. -/
  openFails : Bool
  /-- Whether `os.Create(filePath)` fails. -/
  createFails : Bool
  /-- Whether `io.Copy(dst, src)` fails. -/
  copyFails : Bool
  /-- The bounds of the image `imaging.Open` decodes, `none` when it fails. -/
  imageBounds : Option (Int × Int)
  /-- Whether `imaging.Save` fails. -/
  saveFails : Bool
  /-- Whether a failed `imaging.Save` leaves a file at the thumbnail path. -/
  saveLeavesFile : Bool
  /-- The text `json.Marshal(metadata)`, which holds the upload time. -/
  metadataJSON : String
  /-- Whether `s.db.Create(mediaItem)` fails. -/
  insertFails : Bool
deriving DecidableEq, Repr

/-- The call `os.Create(path)` when it succeeds: the file exists afterwards. -/
def osCreate (fs : FileSystem) (path : String) : FileSystem :=
  if path ∈ fs.files then fs else { fs with files := fs.files ++ [path] }

/-- The statement `os.Remove(path)` whose result is dropped. -/
def removeIgnoringError (fs : FileSystem) (path : String) : FileSystem :=
  match osRemove fs path with
  | .removed fs' => fs'
  | .notExist => fs
  | .failed => fs

/-- The path `filepath.Join(UploadDir, uniqueName)`. -/
def uploadPath (uniqueName : String) : String :=
  "uploads/" ++ uniqueName

/-- The path `filepath.Join(ThumbnailDir, "thumb_"+filename)`. -/
def thumbnailPathOf (filename : String) : String :=
  "thumbnails/thumb_" ++ filename

/-- The method `MediaService.createThumbnail`, as far as files are concerned:
the raster of `thumbnailSize` is written to the thumbnail path. -/
def createThumbnail (fs : FileSystem) (env : UploadEnv) (filename : String) :
    FileSystem × Except Error String :=
  match env.imageBounds with
  | none => (fs, .error .imaging)
  | some _ =>
    if env.saveFails then
      (if env.saveLeavesFile then osCreate fs (thumbnailPathOf filename) else fs,
        .error .imaging)
    else
      (osCreate fs (thumbnailPathOf filename), .ok (thumbnailPathOf filename))

/-- The primary key the database gives to the next row of `media_items`. -/
def nextMediaID (db : DB) : Nat :=
  (db.media_items.map (fun m => m.ID)).foldl max 0 + 1

/-- The primary key the database gives to the next row of `albums`. -/
def nextAlbumID (db : DB) : Nat :=
  (db.albums.map (fun a => a.ID)).foldl max 0 + 1

/-- The method `MediaService.ProcessUpload`: the database and the files it
leaves, and its result. -/
def ProcessUpload (db : DB) (fs : FileSystem) (env : UploadEnv) (file : FileHeader)
    (userID : Nat) : DB × FileSystem × Except Error MediaItem :=
  if file.Size > MaxFileSize then (db, fs, .error .fileSizeExceedsLimit)
  else
    let mimeType := file.ContentType
    let mediaType := determineMediaType mimeType
    if mediaType = "" then (db, fs, .error .unsupportedFileType)
    else
      let uniqueName := env.uniqueName
      let filePath := uploadPath uniqueName
      if env.openFails then (db, fs, .error .openingUploadedFile)
      else if env.createFails then (db, fs, .error .creatingFile)
      else
        let fs₁ := osCreate fs filePath
        if env.copyFails then (db, removeIgnoringError fs₁ filePath, .error .savingFile)
        else
          let thumbnail : FileSystem × Except Error String :=
            if mediaType = "image" then createThumbnail fs₁ env uniqueName
            else (fs₁, .ok "")
          match thumbnail with
          | (fs₂, .error _) =>
            (db, removeIgnoringError fs₂ filePath, .error .creatingThumbnail)
          | (fs₂, .ok thumbnailPath) =>
            let mediaItem : MediaItem :=
              ⟨nextMediaID db, false, uniqueName, filePath, thumbnailPath, file.Size,
                mimeType, mediaType, userID, env.metadataJSON⟩
            if env.insertFails then
              let fs₃ := removeIgnoringError fs₂ filePath
              (db, if thumbnailPath ≠ "" then removeIgnoringError fs₃ thumbnailPath else fs₃,
                .error .savingMediaRecord)
            else
              ({ db with media_items := db.media_items ++ [mediaItem] }, fs₂, .ok mediaItem)

/-! ## Albums: creation (`album/album.go`) -/

/-- The method `AlbumService.CreateAlbum`: the insert gives the album the next
primary key; no column constraint can refuse it. -/
def CreateAlbum (db : DB) (name description : String) (userID : Nat) :
    DB × Except Error Album :=
  let album : Album := ⟨nextAlbumID db, false, name, description, userID, ""⟩
  ({ db with albums := db.albums ++ [album] }, .ok album)

/-! ## Metadata and tags (`media/media.go`) -/

/-- An element of a JSON array as `json.Unmarshal` hands it over in an
`interface{}`: a `string`, or a value of another type, kept as its text. -/
inductive JSONElem where
  | string (s : String)
  | other (text : String)
deriving DecidableEq, Repr

/-- A value of a metadata key as `json.Unmarshal` hands it over in an
`interface{}`: a `[]interface{}`, or a value of another type, kept as its
text. -/
inductive JSONValue where
  | array (elems : List JSONElem)
  | other (text : String)
deriving DecidableEq, Repr

/-- A non-nil `map[string]interface{}`: the value of a key is that of its first
entry. -/
abbrev GoMap := List (String × JSONValue)

/-- The expression `m[k]` with its `ok`. -/
def GoMap.get (m : GoMap) (k : String) : Option JSONValue :=
  (m.find? (fun kv => kv.1 = k)).map (fun kv => kv.2)

/-- The statement `m[k] = v`. -/
def GoMap.set (m : GoMap) (k : String) (v : JSONValue) : GoMap :=
  (k, v) :: m.filter (fun kv => ¬ kv.1 = k)

/-- The functions of `encoding/json` the media service calls, on
`map[string]interface{}`; `Unmarshal` is `none` when it returns an error.  A
text that unmarshals to the nil map (`null`) is not covered. -/
structure JSONCodec where
  Unmarshal : String → Option GoMap
  Marshal : GoMap → String

/-- The method `MediaService.GetMediaMetadata`. -/
def GetMediaMetadata (json : JSONCodec) (db : DB) (id userID : Nat) : Except Error GoMap :=
  match firstMediaItem db id userID with
  | none => .error .recordNotFound
  | some mediaItem =>
    match json.Unmarshal mediaItem.Metadata with
    | none => .error .invalidJSON
    | some metadata => .ok metadata

/-- The loop `for k, v := range metadata { existingMetadata[k] = v }`.  Go
leaves the order of the iteration open; the entries are taken last to first,
so that the value a key ends with is the one `metadata[k]` reads. -/
def mergeMetadata (existingMetadata metadata : GoMap) : GoMap :=
  metadata.foldr (fun kv acc => GoMap.set acc kv.1 kv.2) existingMetadata

/-- The statement `s.db.Model(&mediaItem).Update("metadata", text)`. -/
def updateMetadata (db : DB) (mediaItem : MediaItem) (text : String) : DB :=
  { db with media_items := db.media_items.map (fun m =>
      if m.ID = mediaItem.ID ∧ m.DeletedAt = false then { m with Metadata := text } else m) }

/-- The method `MediaService.UpdateMediaMetadata`; `json.Marshal` of a map that
came out of `json.Unmarshal` does not fail. -/
def UpdateMediaMetadata (json : JSONCodec) (db : DB) (id userID : Nat) (metadata : GoMap) :
    DB × Option Error :=
  match firstMediaItem db id userID with
  | none => (db, some .recordNotFound)
  | some mediaItem =>
    let existingMetadata : GoMap :=
      match json.Unmarshal mediaItem.Metadata with
      | some m => m
      | none => []
    let merged := mergeMetadata existingMetadata metadata
    (updateMetadata db mediaItem (json.Marshal merged), none)

/-- The assertion `metadata["tags"].([]interface{})`, with the empty slice when
it does not hold. -/
def existingTagsOf (metadata : GoMap) : List JSONElem :=
  match metadata.get "tags" with
  | some (.array elems) => elems
  | _ => []

/-- The keys of `tagMap` after the loop over `existingTags`: the elements that
are strings. -/
def tagMapOf (existingTags : List JSONElem) : List String :=
  existingTags.filterMap (fun tag =>
    match tag with
    | .string tagStr => some tagStr
    | .other _ => none)

/-- The loop `for _, tag := range tags` of `AddMediaTags`: `existingTags` after
it, `tagMap` being the list of the keys set to `true`. -/
def addTagsLoop : List String → List JSONElem → List String → List JSONElem
  | [], existingTags, _ => existingTags
  | tag :: rest, existingTags, tagMap =>
    if tag ∈ tagMap then addTagsLoop rest existingTags tagMap
    else addTagsLoop rest (existingTags ++ [.string tag]) (tagMap ++ [tag])

/-- The method `MediaService.AddMediaTags`. -/
def AddMediaTags (json : JSONCodec) (db : DB) (id userID : Nat) (tags : List String) :
    DB × Option Error :=
  match GetMediaMetadata json db id userID with
  | .error err => (db, some err)
  | .ok metadata =>
    let existingTags := existingTagsOf metadata
    let tagMap := tagMapOf existingTags
    let existingTags := addTagsLoop tags existingTags tagMap
    UpdateMediaMetadata json db id userID (metadata.set "tags" (.array existingTags))

/-- The elements of a list, each at its first occurrence only. -/
def firstOccurrences : List String → List String
  | [] => []
  | a :: l => a :: firstOccurrences (l.filter (fun b => ¬ b = a))
termination_by l => l.length
decreasing_by
  simp_wf
  exact Nat.lt_succ_of_le (List.length_filter_le _ _)

/-- The tag list the specification asks for: the stored tags followed by the
added tags that are not among them, each once, in the order of their first
occurrence. -/
def mergedTags (stored added : List String) : List String :=
  stored ++ firstOccurrences (added.filter (fun t => t ∉ stored))

/-- The map `AddMediaTags` hands to `json.Marshal` when the stored metadata is
`metadata`. -/
def taggedMetadata (metadata : GoMap) (tags : List String) : GoMap :=
  mergeMetadata metadata
    (metadata.set "tags"
      (.array (addTagsLoop tags (existingTagsOf metadata) (tagMapOf (existingTagsOf metadata)))))

/-- The codec reads back what it wrote for the map `m`: the same value under
every key. -/
def ReadsBack (json : JSONCodec) (m : GoMap) : Prop :=
  ∃ m', json.Unmarshal (json.Marshal m) = some m' ∧ ∀ k, GoMap.get m' k = GoMap.get m k

/-! ## Sample uploads -/

/-- An upload of exactly `MaxFileSize` bytes declared as a PNG image. -/
def sampleImage : FileHeader := ⟨"cat.png", 33554432, "image/png"⟩

/-- An upload of one byte more than `MaxFileSize`. -/
def sampleOversize : FileHeader := ⟨"film.mp4", 33554433, "video/mp4"⟩

/-- An upload declared as a PDF document. -/
def sampleDocument : FileHeader := ⟨"notes.pdf", 1024, "application/pdf"⟩

/-- Surroundings in which every step of an upload goes through. -/
def sampleEnv : UploadEnv where
  uniqueName := "1700000000_abcdefgh.png"
  openFails := false
  createFails := false
  copyFails := false
  imageBounds := some (1000, 500)
  saveFails := false
  saveLeavesFile := false
  metadataJSON := "\x7b\"fileType\":\"image\",\"originalName\":\"cat.png\"\x7d"
  insertFails := false

/-- Surroundings in which the image cannot be decoded. -/
def sampleEnvNoDecode : UploadEnv := { sampleEnv with imageBounds := none }

/-- Surroundings in which the insert into `media_items` fails. -/
def sampleEnvNoInsert : UploadEnv := { sampleEnv with insertFails := true }

/-- The sample files, the operating system refusing to remove the file at the
path of the blob of the sample upload. -/
def sampleFilesBlobLocked : FileSystem :=
  { sampleFiles with locked := ["t/2", "uploads/1700000000_abcdefgh.png"] }

/-- The sample files, the operating system refusing to remove the file at the
path of the preview of the sample upload. -/
def sampleFilesPreviewLocked : FileSystem :=
  { sampleFiles with locked := ["t/2", "thumbnails/thumb_1700000000_abcdefgh.png"] }

/-! ## Vocabulary of the statements on display orders -/

/-- The number `M` is the maximum display order of the membership rows of an
album, or 0 when the album has none. -/
def IsMaxDisplayOrder (db : DB) (albumID : Nat) (M : Int) : Prop :=
  (albumRows db albumID = [] ∧ M = 0) ∨
  ((∃ r ∈ albumRows db albumID, r.DisplayOrder = M) ∧
    ∀ r ∈ albumRows db albumID, r.DisplayOrder ≤ M)

instance (db : DB) (a : Nat) (M : Int) : Decidable (IsMaxDisplayOrder db a M) :=
  inferInstanceAs (Decidable (_ ∨ _))

/-- The sample database with one membership row, whose display order is the
largest `int`. -/
def sampleFullOrder : DB :=
  { sampleDB with album_media_items := [⟨10, 2, 9223372036854775807⟩] }

/-! ## A sample of tagged metadata -/

/-- The metadata text of the sample media item 5. -/
def sampleMetadataText : String :=
  "\x7b\"fileType\":\"image\",\"tags\":[\"dog\"]\x7d"

/-- What `json.Unmarshal` makes of `sampleMetadataText`. -/
def sampleMetadata : GoMap :=
  [("fileType", .other "\"image\""), ("tags", .array [.string "dog"])]

/-- The metadata of the sample media item 5 after the tags `Dog`, `pet`, `dog`,
`pet` were added. -/
def sampleTagged : GoMap :=
  [("tags", .array [.string "dog", .string "Dog", .string "pet"]),
    ("fileType", .other "\"image\"")]

/-- The text `json.Marshal` renders `sampleTagged` to. -/
def sampleTaggedText : String :=
  "\x7b\"fileType\":\"image\",\"tags\":[\"dog\",\"Dog\",\"pet\"]\x7d"

/-- The functions `json.Unmarshal` and `json.Marshal` on the two metadata texts
of the sample; on other arguments the table has no entry and does not follow
the library. -/
def sampleJSON : JSONCodec where
  Unmarshal := fun text =>
    if text = sampleMetadataText then some sampleMetadata
    else if text = sampleTaggedText then some sampleTagged
    else none
  Marshal := fun m =>
    if m = sampleTagged then sampleTaggedText
    else if m = sampleMetadata then sampleMetadataText
    else ""

/-- The sample database with media item 5 of user 7, which carries the tag
`dog`. -/
def sampleTaggedDB : DB :=
  { sampleDB with media_items := sampleDB.media_items ++
      [⟨5, false, "dog.jpg", "u/5", "t/5", 1024, "image/jpeg", "image", 7,
        sampleMetadataText⟩] }

/-- No two membership rows of the same album have the same display order. -/
def DisplayOrdersDistinct (db : DB) : Prop :=
  db.album_media_items.Pairwise
    (fun r₁ r₂ => r₁.AlbumID = r₂.AlbumID → r₁.DisplayOrder ≠ r₂.DisplayOrder)

instance (db : DB) : Decidable (DisplayOrdersDistinct db) :=
  inferInstanceAs (Decidable (List.Pairwise _ _))

/-- The sample database with two membership rows in album 10, at the largest and
at the smallest `int` display order. -/
def sampleWrapOrder : DB :=
  { sampleDB with album_media_items :=
      [⟨10, 2, 9223372036854775807⟩, ⟨10, 3, -9223372036854775808⟩] }

/-! # Theorems -/

/-! ## Lemmas on the query primitives -/

theorem firstAlbum_eq_none_iff (db : DB) (a u : Nat) :
    firstAlbum db a u = none ↔ ¬ OwnsAlbum db u a := by
  simp [firstAlbum, OwnsAlbum]

theorem firstAlbum_some_spec {db : DB} {a u : Nat} {al : Album}
    (h : firstAlbum db a u = some al) :
    al ∈ db.albums ∧ al.ID = a ∧ al.UserID = u ∧ al.DeletedAt = false := by
  unfold firstAlbum at h
  have h1 := List.find?_some h
  have h2 := List.mem_of_find?_eq_some h
  simp at h1
  exact ⟨h2, h1⟩

theorem firstAlbum_of_owns {db : DB} {a u : Nat} (h : OwnsAlbum db u a) :
    ∃ al, firstAlbum db a u = some al := by
  cases hf : firstAlbum db a u with
  | none => exact absurd h ((firstAlbum_eq_none_iff db a u).1 hf)
  | some al => exact ⟨al, rfl⟩

theorem countMediaItems_eq_zero_iff (db : DB) (m u : Nat) :
    countMediaItems db m u = 0 ↔ ¬ OwnsMediaRow db u m := by
  simp [countMediaItems, OwnsMediaRow, List.filter_eq_nil_iff]

theorem countMembership_eq_zero_iff (db : DB) (a m : Nat) :
    countMembership db a m = 0 ↔ ¬ InAlbum db a m := by
  simp [countMembership, InAlbum, List.filter_eq_nil_iff]

/-! ## The loop of `AddMediaToAlbum` -/

theorem createAlbumMediaItem_eq (tx : DB) (item : AlbumMediaItem) :
    createAlbumMediaItem tx item =
      if InAlbum tx item.AlbumID item.MediaItemID then .error .uniqueConstraintFailed
      else .ok { tx with album_media_items := tx.album_media_items ++ [item] } := by
  unfold createAlbumMediaItem InAlbum
  by_cases h : ∃ r ∈ tx.album_media_items,
      r.AlbumID = item.AlbumID ∧ r.MediaItemID = item.MediaItemID
  · rw [if_pos h, if_pos]
    simpa using h
  · rw [if_neg h, if_neg]
    simpa using h

theorem inAlbum_append_iff (tx : DB) (rows : List AlbumMediaItem) (a m : Nat) :
    InAlbum { tx with album_media_items := tx.album_media_items ++ rows } a m ↔
      InAlbum tx a m ∨ ∃ r ∈ rows, r.AlbumID = a ∧ r.MediaItemID = m := by
  simp only [InAlbum, List.mem_append]
  constructor
  · rintro ⟨r, hr | hr, h⟩
    · exact Or.inl ⟨r, hr, h⟩
    · exact Or.inr ⟨r, hr, h⟩
  · rintro (⟨r, hr, h⟩ | ⟨r, hr, h⟩)
    · exact ⟨r, Or.inl hr, h⟩
    · exact ⟨r, Or.inr hr, h⟩

theorem inAlbum_append_singleton_iff (tx : DB) (item : AlbumMediaItem) (a m : Nat) :
    InAlbum { tx with album_media_items := tx.album_media_items ++ [item] } a m ↔
      InAlbum tx a m ∨ (item.AlbumID = a ∧ item.MediaItemID = m) := by
  rw [inAlbum_append_iff]
  simp

/-- The loop succeeds exactly when every id names a media row of the user, the
ids are pairwise distinct and none is in the album yet; it then appends one row
per id. -/
theorem addMediaLoop_eq_ok_iff (a u : Nat) (M : Int) (ids : List Nat) :
    ∀ (i : Nat) (tx tx' : DB),
      addMediaLoop a u M i ids tx = .ok tx' ↔
        ((∀ m ∈ ids, OwnsMediaRow tx u m) ∧ ids.Nodup ∧ (∀ m ∈ ids, ¬ InAlbum tx a m)) ∧
        tx' = { tx with
          album_media_items := tx.album_media_items ++ appendedRows a M i ids } := by
  induction ids with
  | nil =>
    intro i tx tx'
    cases tx
    simp [addMediaLoop, appendedRows, eq_comm]
  | cons m rest ih =>
    intro i tx tx'
    unfold addMediaLoop
    by_cases hown : OwnsMediaRow tx u m
    · have hc : ¬ countMediaItems tx m u = 0 := by
        rw [countMediaItems_eq_zero_iff]; exact not_not.mpr hown
      rw [if_neg hc, createAlbumMediaItem_eq]
      by_cases hin : InAlbum tx a m
      · simp [hin]
      · simp only [hin, if_false]
        rw [ih]
        have hmedia : ∀ x, OwnsMediaRow
            { tx with album_media_items := tx.album_media_items ++
              [⟨a, m, wrapInt (M + (i : Int) + 1)⟩] } u x ↔ OwnsMediaRow tx u x := by
          intro x; rfl
        simp only [hmedia, inAlbum_append_singleton_iff,
          List.mem_cons, forall_eq_or_imp, List.nodup_cons, appendedRows,
          List.append_assoc, List.singleton_append, true_and]
        constructor
        · rintro ⟨⟨h1, h2, h3⟩, h4⟩
          refine ⟨⟨⟨hown, h1⟩, ⟨?_, h2⟩, hin, ?_⟩, h4⟩
          · intro hm
            exact h3 m hm (Or.inr rfl)
          · intro x hx hx2
            exact h3 x hx (Or.inl hx2)
        · rintro ⟨⟨⟨_, h1⟩, ⟨h2, h3⟩, _, h4⟩, h5⟩
          refine ⟨⟨h1, h3, ?_⟩, h5⟩
          intro x hx hx2
          rcases hx2 with hx2 | hx2
          · exact h4 x hx hx2
          · exact h2 (hx2 ▸ hx)
    · have hc : countMediaItems tx m u = 0 := by
        rw [countMediaItems_eq_zero_iff]; exact hown
      rw [if_pos hc]
      simp [hown]

theorem Transaction_ok {db db' : DB} {fc : DB → Except Error DB} (h : fc db = .ok db') :
    Transaction db fc = (db', none) := by
  simp [Transaction, h]

theorem Transaction_error {db : DB} {fc : DB → Except Error DB} {e : Error}
    (h : fc db = .error e) : Transaction db fc = (db, some e) := by
  simp [Transaction, h]

theorem wrapInt_eq_self {x : Int} (hlo : -9223372036854775808 ≤ x)
    (hhi : x < 9223372036854775808) : wrapInt x = x := by
  unfold wrapInt
  omega

theorem appendedRows_albumID (a : Nat) (M : Int) (ids : List Nat) :
    ∀ (i : Nat), ∀ r ∈ appendedRows a M i ids, r.AlbumID = a := by
  induction ids with
  | nil => intro i r hr; simp [appendedRows] at hr
  | cons m rest ih =>
    intro i r hr
    simp only [appendedRows, List.mem_cons] at hr
    rcases hr with rfl | hr
    · rfl
    · exact ih (i + 1) r hr

theorem appendedRows_mediaIDs (a : Nat) (M : Int) (ids : List Nat) :
    ∀ (i : Nat), (appendedRows a M i ids).map (fun r => r.MediaItemID) = ids := by
  induction ids with
  | nil => intro i; rfl
  | cons m rest ih => intro i; simp [appendedRows, ih]

/-- Without wrap-around the inserted rows carry strictly increasing display
orders, all above `maxOrder + i`. -/
theorem appendedRows_increasing (a : Nat) (M : Int) (ids : List Nat) :
    ∀ (i : Nat), -9223372036854775808 ≤ M + (i : Int) + 1 →
      M + (i : Int) + (ids.length : Int) < 9223372036854775808 →
      (appendedRows a M i ids).Pairwise (fun r₁ r₂ => r₁.DisplayOrder < r₂.DisplayOrder) ∧
      ∀ r ∈ appendedRows a M i ids, M + (i : Int) < r.DisplayOrder := by
  induction ids with
  | nil => intro i _ _; simp [appendedRows]
  | cons m rest ih =>
    intro i hlo hhi
    simp only [List.length_cons, Nat.cast_add, Nat.cast_one] at hhi
    have hw : wrapInt (M + (i : Int) + 1) = M + (i : Int) + 1 :=
      wrapInt_eq_self hlo (by omega)
    have hrec := ih (i + 1) (by push_cast; omega) (by push_cast; omega)
    simp only [appendedRows, List.pairwise_cons, List.mem_cons, forall_eq_or_imp, hw]
    refine ⟨⟨?_, hrec.1⟩, by omega, ?_⟩
    · intro r hr
      have := hrec.2 r hr
      push_cast at this
      omega
    · intro r hr
      have := hrec.2 r hr
      push_cast at this
      omega

/-! ## The join of `GetAlbumMedia` -/

theorem filter_mediaID_of_unique (m : Nat) :
    ∀ (l : List MediaItem), (l.map (fun x => x.ID)).Nodup → (∃ x ∈ l, x.ID = m) →
      (l.filter (fun x => x.ID = m)).map (fun x => x.ID) = [m] := by
  intro l
  induction l with
  | nil => intro _ h; simp at h
  | cons x xs ih =>
    intro hnd hex
    simp only [List.map_cons, List.nodup_cons] at hnd
    by_cases hx : x.ID = m
    · have hnone : xs.filter (fun y => y.ID = m) = [] := by
        rw [List.filter_eq_nil_iff]
        intro y hy
        simp only [decide_eq_true_eq]
        intro hym
        exact hnd.1 (List.mem_map.2 ⟨y, hy, by rw [hym, hx]⟩)
      simp [List.filter_cons, hx, hnone]
    · have hex' : ∃ y ∈ xs, y.ID = m := by
        rcases hex with ⟨y, hy, hym⟩
        rcases List.mem_cons.1 hy with rfl | hy
        · exact absurd hym hx
        · exact ⟨y, hy, hym⟩
      simp [List.filter_cons, hx, ih hnd.2 hex']

/-- When ids are unique in `media_items` and every row names a media row, the
join returns one item per membership row, in the order of the rows. -/
theorem joinMediaItems_ids (db : DB) (hkey : MediaKeyUnique db) :
    ∀ (rows : List AlbumMediaItem),
      (∀ r ∈ rows, ∃ m ∈ db.media_items, m.ID = r.MediaItemID) →
      (joinMediaItems db rows).map (fun m => m.ID) = rows.map (fun r => r.MediaItemID) := by
  intro rows
  induction rows with
  | nil => intro _; rfl
  | cons r rest ih =>
    intro h
    have h1 := filter_mediaID_of_unique r.MediaItemID db.media_items hkey
      (h r (List.mem_cons_self _ _))
    have h2 := ih (fun x hx => h x (List.mem_cons_of_mem _ hx))
    unfold joinMediaItems at h2 ⊢
    simp only [List.flatMap_cons, List.map_append, List.map_cons, h1, h2]
    rfl

/-! ## `AddMediaToAlbum` -/

theorem AddMediaToAlbum_of_owner {db : DB} {a u : Nat} (ids : List Nat)
    (h : OwnsAlbum db u a) :
    AddMediaToAlbum db a ids u =
      Transaction db (addMediaLoop a u (maxDisplayOrder db a) 0 ids) := by
  obtain ⟨al, hal⟩ := firstAlbum_of_owns h
  simp [AddMediaToAlbum, Transaction, hal]

theorem albumRows_eq_nil_iff (db : DB) (a : Nat) :
    albumRows db a = [] ↔ ∀ r ∈ db.album_media_items, r.AlbumID ≠ a := by
  simp [albumRows, List.filter_eq_nil_iff]

theorem albumRows_append (db : DB) (rows : List AlbumMediaItem) (a : Nat) :
    albumRows { db with album_media_items := db.album_media_items ++ rows } a =
      albumRows db a ++ rows.filter (fun r => r.AlbumID = a) := by
  simp [albumRows, List.filter_append]

theorem filter_appendedRows (a : Nat) (M : Int) (i : Nat) (ids : List Nat) :
    (appendedRows a M i ids).filter (fun r => r.AlbumID = a) = appendedRows a M i ids := by
  rw [List.filter_eq_self]
  intro r hr
  simpa using appendedRows_albumID a M ids i r hr

/-- C1: for every database with unique media ids, every album `a` owned by `u`
that has no membership rows and every list `ids` of pairwise distinct media
ids all owned by `u` (a Go slice, so shorter than `2^63`),
`AddMediaToAlbum(a, ids, u)` succeeds and a following `GetAlbumMedia(a, u)`
returns items whose ids are exactly `ids`, in that order. -/
theorem C1_add_then_get_in_input_order (db : DB) (a u : Nat) (ids : List Nat)
    (hkey : MediaKeyUnique db) (halbum : OwnsAlbum db u a)
    (hempty : ∀ r ∈ db.album_media_items, r.AlbumID ≠ a)
    (hnodup : ids.Nodup) (hown : ∀ m ∈ ids, OwnsMediaRow db u m)
    (hlen : ids.length < 9223372036854775808) :
    (AddMediaToAlbum db a ids u).2 = none ∧
    ∃ items, GetAlbumMedia (AddMediaToAlbum db a ids u).1 a u = .ok items ∧
      items.map (fun m => m.ID) = ids ∧ items.length = ids.length := by
  have hrows : albumRows db a = [] := (albumRows_eq_nil_iff db a).2 hempty
  have hmax : maxDisplayOrder db a = 0 := by simp [maxDisplayOrder, hrows]
  have hnot : ∀ m ∈ ids, ¬ InAlbum db a m := by
    rintro m _ ⟨r, hr, hra, _⟩
    exact hempty r hr hra
  have hloop := (addMediaLoop_eq_ok_iff a u 0 ids 0 db _).2 ⟨⟨hown, hnodup, hnot⟩, rfl⟩
  have hadd : AddMediaToAlbum db a ids u =
      ({ db with album_media_items := db.album_media_items ++ appendedRows a 0 0 ids },
        none) := by
    rw [AddMediaToAlbum_of_owner ids halbum, hmax]
    exact Transaction_ok hloop
  rw [hadd]
  refine ⟨rfl, ?_⟩
  obtain ⟨al, hal⟩ := firstAlbum_of_owns halbum
  have hal' : firstAlbum
      { db with album_media_items := db.album_media_items ++ appendedRows a 0 0 ids }
      a u = some al := hal
  have hsorted : orderByDisplayOrder (appendedRows a 0 0 ids) = appendedRows a 0 0 ids := by
    apply List.Sorted.insertionSort_eq
    have hinc := (appendedRows_increasing a 0 ids 0 (by norm_num) (by push_cast; omega)).1
    exact hinc.imp (fun h => le_of_lt h)
  have hjoin := joinMediaItems_ids
    { db with album_media_items := db.album_media_items ++ appendedRows a 0 0 ids } hkey
    (appendedRows a 0 0 ids) (by
      intro r hr
      have hm : r.MediaItemID ∈ ids := by
        rw [← appendedRows_mediaIDs a 0 ids 0]
        exact List.mem_map.2 ⟨r, hr, rfl⟩
      obtain ⟨x, hx, hxid, _⟩ := hown _ hm
      exact ⟨x, hx, hxid⟩)
  rw [appendedRows_mediaIDs] at hjoin
  refine ⟨_, ?_, hjoin, ?_⟩
  · simp only [GetAlbumMedia, hal', albumRows_append, hrows, List.nil_append,
      filter_appendedRows, hsorted]
  · have := congrArg List.length hjoin
    simpa using this

/-- C1 at the sample database: adding 3, 1, 2 to the empty album 10. -/
theorem C1_add_then_get_in_input_order_witness :
    (AddMediaToAlbum sampleEmptyAlbums 10 [3, 1, 2] 7).2 = none ∧
    ∃ items, GetAlbumMedia (AddMediaToAlbum sampleEmptyAlbums 10 [3, 1, 2] 7).1 10 7
        = .ok items ∧
      items.map (fun m => m.ID) = [3, 1, 2] ∧ items.length = [3, 1, 2].length :=
  C1_add_then_get_in_input_order sampleEmptyAlbums 10 7 [3, 1, 2]
    (by decide) (by decide) (by decide) (by decide) (by decide) (by decide)

/-! ## `ReorderAlbumMedia` -/

theorem reorderedRow_key (a : Nat) (L : List Nat) :
    ∀ (i : Nat) (r : AlbumMediaItem),
      (reorderedRow a i L r).AlbumID = r.AlbumID ∧
      (reorderedRow a i L r).MediaItemID = r.MediaItemID := by
  induction L with
  | nil => intro i r; exact ⟨rfl, rfl⟩
  | cons m rest ih =>
    intro i r
    unfold reorderedRow
    split
    · exact ih (i + 1) _
    · exact ih (i + 1) r

/-- A row of another album, or of a media item that the list does not name,
keeps its display order. -/
theorem reorderedRow_of_not_named (a : Nat) (L : List Nat) :
    ∀ (i : Nat) (r : AlbumMediaItem), (r.AlbumID = a → r.MediaItemID ∉ L) →
      reorderedRow a i L r = r := by
  induction L with
  | nil => intro i r _; rfl
  | cons m rest ih =>
    intro i r h
    unfold reorderedRow
    have hne : ¬ (r.AlbumID = a ∧ r.MediaItemID = m) := by
      rintro ⟨h1, h2⟩
      exact h h1 (h2 ▸ List.mem_cons_self _ _)
    rw [if_neg hne]
    exact ih (i + 1) r (fun h1 hmem => h h1 (List.mem_cons_of_mem _ hmem))

theorem inAlbum_map_of_key (tx : DB) (f : AlbumMediaItem → AlbumMediaItem)
    (hf : ∀ r, (f r).AlbumID = r.AlbumID ∧ (f r).MediaItemID = r.MediaItemID) (a m : Nat) :
    InAlbum { tx with album_media_items := tx.album_media_items.map f } a m ↔
      InAlbum tx a m := by
  simp only [InAlbum, List.mem_map]
  constructor
  · rintro ⟨r, ⟨r0, hr0, rfl⟩, h1, h2⟩
    exact ⟨r0, hr0, (hf r0).1 ▸ h1, (hf r0).2 ▸ h2⟩
  · rintro ⟨r, hr, h1, h2⟩
    exact ⟨f r, ⟨r, hr, rfl⟩, (hf r).1.trans h1, (hf r).2.trans h2⟩

/-- The loop succeeds exactly when every id of the list has a membership row in
the album; it then rewrites display orders only. -/
theorem reorderLoop_eq_ok_iff (a : Nat) (L : List Nat) :
    ∀ (i : Nat) (tx tx' : DB),
      reorderLoop a i L tx = .ok tx' ↔
        (∀ m ∈ L, InAlbum tx a m) ∧
        tx' = { tx with
          album_media_items := tx.album_media_items.map (reorderedRow a i L) } := by
  induction L with
  | nil =>
    intro i tx tx'
    cases tx
    simp [reorderLoop, reorderedRow, eq_comm]
  | cons m rest ih =>
    intro i tx tx'
    unfold reorderLoop
    simp only [updateDisplayOrder]
    by_cases hin : InAlbum tx a m
    · have hc : ¬ countMembership tx a m = 0 := by
        rw [countMembership_eq_zero_iff]; exact not_not.mpr hin
      rw [if_neg hc, ih]
      have hkey : ∀ x, InAlbum
          { tx with album_media_items := tx.album_media_items.map (fun r =>
              if r.AlbumID = a ∧ r.MediaItemID = m then
                { r with DisplayOrder := (i : Int) + 1 } else r) } a x ↔ InAlbum tx a x := by
        intro x
        apply inAlbum_map_of_key
        intro r
        split <;> exact ⟨rfl, rfl⟩
      simp only [hkey, List.mem_cons, forall_eq_or_imp, hin, true_and, List.map_map]
      have hfun : (reorderedRow a (i + 1) rest ∘ fun r =>
          if r.AlbumID = a ∧ r.MediaItemID = m then
            { r with DisplayOrder := (i : Int) + 1 } else r) = reorderedRow a i (m :: rest) := by
        funext r
        simp [reorderedRow]
      rw [hfun]
    · have hc : countMembership tx a m = 0 := by
        rw [countMembership_eq_zero_iff]; exact hin
      rw [if_pos hc]
      simp [hin]

theorem ReorderAlbumMedia_of_owner {db : DB} {a u : Nat} (L : List Nat)
    (h : OwnsAlbum db u a) :
    ReorderAlbumMedia db a L u = Transaction db (reorderLoop a 0 L) := by
  obtain ⟨al, hal⟩ := firstAlbum_of_owns h
  simp [ReorderAlbumMedia, Transaction, hal]

theorem numberedRows_mediaIDs (a : Nat) (L : List Nat) :
    ∀ (i : Nat), (numberedRows a i L).map (fun r => r.MediaItemID) = L := by
  induction L with
  | nil => intro i; rfl
  | cons m rest ih => intro i; simp [numberedRows, ih]

theorem numberedRows_increasing (a : Nat) (L : List Nat) :
    ∀ (i : Nat),
      (numberedRows a i L).Pairwise (fun r₁ r₂ => r₁.DisplayOrder < r₂.DisplayOrder) ∧
      ∀ r ∈ numberedRows a i L, (i : Int) < r.DisplayOrder := by
  induction L with
  | nil => intro i; simp [numberedRows]
  | cons m rest ih =>
    intro i
    have hrec := ih (i + 1)
    simp only [numberedRows, List.pairwise_cons, List.mem_cons, forall_eq_or_imp]
    refine ⟨⟨?_, hrec.1⟩, by omega, ?_⟩
    · intro r hr
      have := hrec.2 r hr
      push_cast at this
      omega
    · intro r hr
      have := hrec.2 r hr
      push_cast at this
      omega

/-- The `j`-th of the numbered rows names the `j`-th media id and carries the
display order `order + j + 1`. -/
theorem numberedRows_mem (a : Nat) (L : List Nat) :
    ∀ (i : Nat), ∀ r ∈ numberedRows a i L,
      ∃ j, ∃ h : j < L.length, r = ⟨a, L[j], (i : Int) + (j : Int) + 1⟩ := by
  induction L with
  | nil => intro i r hr; simp [numberedRows] at hr
  | cons m rest ih =>
    intro i r hr
    simp only [numberedRows, List.mem_cons] at hr
    rcases hr with rfl | hr
    · exact ⟨0, by simp, by simp⟩
    · obtain ⟨j, hj, rfl⟩ := ih (i + 1) r hr
      refine ⟨j + 1, by simpa using hj, ?_⟩
      simp only [List.getElem_cons_succ, AlbumMediaItem.mk.injEq, true_and]
      push_cast
      omega

theorem reorderedRow_mem_numberedRows (a : Nat) (L : List Nat) :
    ∀ (i : Nat) (r : AlbumMediaItem), L.Nodup → r.AlbumID = a → r.MediaItemID ∈ L →
      reorderedRow a i L r ∈ numberedRows a i L := by
  induction L with
  | nil => intro i r _ _ h; simp at h
  | cons m rest ih =>
    intro i r hnd ha hmem
    simp only [List.nodup_cons] at hnd
    unfold reorderedRow numberedRows
    by_cases hm : r.MediaItemID = m
    · rw [if_pos ⟨ha, hm⟩]
      rw [reorderedRow_of_not_named a rest (i + 1) _ (fun _ => by simpa [hm] using hnd.1)]
      cases r
      simp only at ha hm
      simp [ha, hm]
    · rw [if_neg (fun h => hm h.2)]
      apply List.mem_cons_of_mem
      apply ih (i + 1) r hnd.2 ha
      rcases List.mem_cons.1 hmem with h | h
      · exact absurd h hm
      · exact h

theorem map_eq_map_of_injOn {α β : Type} (f : α → β) :
    ∀ (l₁ l₂ : List α), (∀ x ∈ l₁, ∀ y ∈ l₂, f x = f y → x = y) →
      l₁.map f = l₂.map f → l₁ = l₂ := by
  intro l₁
  induction l₁ with
  | nil =>
    intro l₂ _ h
    cases l₂ with
    | nil => rfl
    | cons y ys => simp at h
  | cons x xs ih =>
    intro l₂ hinj h
    cases l₂ with
    | nil => simp at h
    | cons y ys =>
      simp only [List.map_cons, List.cons.injEq] at h
      have hxy := hinj x (List.mem_cons_self _ _) y (List.mem_cons_self _ _) h.1
      have hrest := ih ys (fun x' hx' y' hy' =>
        hinj x' (List.mem_cons_of_mem _ hx') y' (List.mem_cons_of_mem _ hy')) h.2
      rw [hxy, hrest]

/-- Rows that are a rearrangement of a list with strictly increasing display
orders come out of `ORDER BY display_order` as that list. -/
theorem orderByDisplayOrder_of_perm {rows sorted : List AlbumMediaItem}
    (hperm : rows.Perm sorted)
    (hinc : sorted.Pairwise (fun r₁ r₂ => r₁.DisplayOrder < r₂.DisplayOrder)) :
    orderByDisplayOrder rows = sorted := by
  have hS : (orderByDisplayOrder rows).Perm sorted :=
    (List.perm_insertionSort _ rows).trans hperm
  have hsortedS : ((orderByDisplayOrder rows).map (fun r => r.DisplayOrder)).Sorted
      (fun x y : Int => x ≤ y) := by
    haveI : IsTotal AlbumMediaItem (fun r₁ r₂ => r₁.DisplayOrder ≤ r₂.DisplayOrder) :=
      ⟨fun x y => le_total x.DisplayOrder y.DisplayOrder⟩
    haveI : IsTrans AlbumMediaItem (fun r₁ r₂ => r₁.DisplayOrder ≤ r₂.DisplayOrder) :=
      ⟨fun _ _ _ h₁ h₂ => le_trans h₁ h₂⟩
    have := List.sorted_insertionSort
      (fun r₁ r₂ : AlbumMediaItem => r₁.DisplayOrder ≤ r₂.DisplayOrder) rows
    exact List.Pairwise.map _ (fun _ _ h => h) this
  have hsortedC : (sorted.map (fun r => r.DisplayOrder)).Sorted
      (fun x y : Int => x ≤ y) :=
    List.Pairwise.map _ (fun _ _ h => le_of_lt h) hinc
  have hmap := List.eq_of_perm_of_sorted (hS.map (fun r => r.DisplayOrder)) hsortedS hsortedC
  have hne : sorted.Pairwise (fun r₁ r₂ => r₁.DisplayOrder ≠ r₂.DisplayOrder) :=
    hinc.imp (fun h => ne_of_lt h)
  apply map_eq_map_of_injOn (fun r => r.DisplayOrder) _ _ _ hmap
  intro x hx y hy hxy
  by_contra hne'
  exact hne.forall (fun _ _ h => h.symm) (hS.subset hx) hy hne' hxy

theorem numberedRows_length (a : Nat) (L : List Nat) (i : Nat) :
    (numberedRows a i L).length = L.length := by
  have := congrArg List.length (numberedRows_mediaIDs a L i)
  simpa using this

theorem albumRows_map_of_key (db : DB) (f : AlbumMediaItem → AlbumMediaItem)
    (hf : ∀ r, (f r).AlbumID = r.AlbumID) (a : Nat) :
    albumRows { db with album_media_items := db.album_media_items.map f } a =
      (albumRows db a).map f := by
  simp only [albumRows, List.filter_map]
  congr 1
  apply List.filter_congr
  intro r _
  simp [hf r]

theorem albumRows_keys_nodup {db : DB} (h : MembershipKeyUnique db) (a : Nat) :
    ((albumRows db a).map (fun r => (r.AlbumID, r.MediaItemID))).Nodup :=
  List.Nodup.sublist (List.Sublist.map _ (List.filter_sublist _)) h

theorem mem_albumRows {db : DB} {a : Nat} {r : AlbumMediaItem} :
    r ∈ albumRows db a ↔ r ∈ db.album_media_items ∧ r.AlbumID = a := by
  simp [albumRows]

/-- After a reorder by a duplicate-free list that names exactly the members of
the album, the rows of the album in display order are the numbered rows of the
list. -/
theorem orderByDisplayOrder_reordered {db : DB} {a : Nat} {L : List Nat}
    (hmem : MembershipKeyUnique db) (hnodup : L.Nodup)
    (hset : ∀ m, InAlbum db a m ↔ m ∈ L) :
    orderByDisplayOrder ((albumRows db a).map (reorderedRow a 0 L)) = numberedRows a 0 L := by
  have hsub : ∀ r ∈ (albumRows db a).map (reorderedRow a 0 L), r ∈ numberedRows a 0 L := by
    intro r hr
    obtain ⟨r0, hr0, rfl⟩ := List.mem_map.1 hr
    have h0 := mem_albumRows.1 hr0
    exact reorderedRow_mem_numberedRows a L 0 r0 hnodup h0.2
      ((hset _).1 ⟨r0, h0.1, h0.2, rfl⟩)
  have hnd : ((albumRows db a).map (reorderedRow a 0 L)).Nodup := by
    apply List.Nodup.of_map (fun r => (r.AlbumID, r.MediaItemID))
    have hk := albumRows_keys_nodup hmem a
    have hfun : (fun r => (r.AlbumID, r.MediaItemID)) ∘ reorderedRow a 0 L =
        fun r => (r.AlbumID, r.MediaItemID) := by
      funext r
      simp [(reorderedRow_key a L 0 r).1, (reorderedRow_key a L 0 r).2]
    rw [List.map_map, hfun]
    exact hk
  have hlen : (numberedRows a 0 L).length ≤ ((albumRows db a).map (reorderedRow a 0 L)).length := by
    rw [numberedRows_length, List.length_map]
    have hsubL : L ⊆ (albumRows db a).map (fun r => r.MediaItemID) := by
      intro m hm
      obtain ⟨r, hr, hra, hrm⟩ := (hset m).2 hm
      exact List.mem_map.2 ⟨r, mem_albumRows.2 ⟨hr, hra⟩, hrm⟩
    have := (List.subperm_of_subset hnodup hsubL).length_le
    simpa using this
  exact orderByDisplayOrder_of_perm
    ((List.subperm_of_subset hnd hsub).perm_of_length_le hlen)
    (numberedRows_increasing a L 0).1

/-- C2: for every database that satisfies its primary keys and whose membership
rows name media rows, every album `a` owned by `u` and every duplicate-free
list `L` whose elements are exactly the media ids with a membership row in `a`:
`ReorderAlbumMedia(a, L, u)` succeeds, the row of the `i`-th element of `L`
(counted from 0) exists and has display order `i + 1`, and a following
`GetAlbumMedia(a, u)` returns items whose ids are exactly `L`, in the order of
`L`. -/
theorem C2_reorder_then_get_in_list_order (db : DB) (a u : Nat) (L : List Nat)
    (hmedia : MediaKeyUnique db) (hmem : MembershipKeyUnique db)
    (hrefs : MembershipRefsMedia db) (halbum : OwnsAlbum db u a) (hnodup : L.Nodup)
    (hset : ∀ m, InAlbum db a m ↔ m ∈ L) :
    (ReorderAlbumMedia db a L u).2 = none ∧
    (∀ (i : Nat) (h : i < L.length),
      InAlbum (ReorderAlbumMedia db a L u).1 a L[i] ∧
      ∀ r ∈ (ReorderAlbumMedia db a L u).1.album_media_items,
        r.AlbumID = a → r.MediaItemID = L[i] → r.DisplayOrder = (i : Int) + 1) ∧
    ∃ items, GetAlbumMedia (ReorderAlbumMedia db a L u).1 a u = .ok items ∧
      items.map (fun m => m.ID) = L := by
  have hloop := (reorderLoop_eq_ok_iff a L 0 db _).2
    ⟨fun m hm => (hset m).2 hm, rfl⟩
  have hre : ReorderAlbumMedia db a L u =
      ({ db with album_media_items := db.album_media_items.map (reorderedRow a 0 L) },
        none) := by
    rw [ReorderAlbumMedia_of_owner L halbum]
    exact Transaction_ok hloop
  rw [hre]
  have hkey : ∀ r, (reorderedRow a 0 L r).AlbumID = r.AlbumID ∧
      (reorderedRow a 0 L r).MediaItemID = r.MediaItemID := reorderedRow_key a L 0
  refine ⟨rfl, ?_, ?_⟩
  · intro i hi
    refine ⟨(inAlbum_map_of_key db _ hkey a L[i]).2 ((hset _).2 (List.getElem_mem _)), ?_⟩
    intro r hr hra hrm
    obtain ⟨r0, hr0, rfl⟩ := List.mem_map.1 hr
    have ha0 : r0.AlbumID = a := (hkey r0).1 ▸ hra
    have hm0 : r0.MediaItemID ∈ L := (hset _).1 ⟨r0, hr0, ha0, rfl⟩
    have hnum := reorderedRow_mem_numberedRows a L 0 r0 hnodup ha0 hm0
    obtain ⟨j, hj, hrj⟩ := numberedRows_mem a L 0 _ hnum
    rw [hrj] at hrm ⊢
    simp only at hrm
    have hji : j = i := (hnodup.getElem_inj_iff).1 hrm
    subst hji
    simp
  · obtain ⟨al, hal⟩ := firstAlbum_of_owns halbum
    have hal' : firstAlbum
        { db with album_media_items := db.album_media_items.map (reorderedRow a 0 L) }
        a u = some al := hal
    have hjoin := joinMediaItems_ids
      { db with album_media_items := db.album_media_items.map (reorderedRow a 0 L) } hmedia
      (numberedRows a 0 L) (by
        intro r hr
        have hm : r.MediaItemID ∈ L := by
          rw [← numberedRows_mediaIDs a L 0]
          exact List.mem_map.2 ⟨r, hr, rfl⟩
        obtain ⟨r0, hr0, _, hr0m⟩ := (hset _).2 hm
        obtain ⟨x, hx, hxid⟩ := hrefs r0 hr0
        exact ⟨x, hx, hxid.trans hr0m⟩)
    rw [numberedRows_mediaIDs] at hjoin
    refine ⟨_, ?_, hjoin⟩
    simp only [GetAlbumMedia, hal', albumRows_map_of_key db _ (fun r => (hkey r).1),
      orderByDisplayOrder_reordered hmem hnodup hset]

/-- C2 at the sample database: album 10 holds 2, 1, 3 and is reordered to
3, 1, 2. -/
theorem C2_reorder_then_get_in_list_order_witness :
    (ReorderAlbumMedia sampleDB 10 [3, 1, 2] 7).2 = none ∧
    (∀ (i : Nat) (h : i < [3, 1, 2].length),
      InAlbum (ReorderAlbumMedia sampleDB 10 [3, 1, 2] 7).1 10 [3, 1, 2][i] ∧
      ∀ r ∈ (ReorderAlbumMedia sampleDB 10 [3, 1, 2] 7).1.album_media_items,
        r.AlbumID = 10 → r.MediaItemID = [3, 1, 2][i] → r.DisplayOrder = (i : Int) + 1) ∧
    ∃ items, GetAlbumMedia (ReorderAlbumMedia sampleDB 10 [3, 1, 2] 7).1 10 7 = .ok items ∧
      items.map (fun m => m.ID) = [3, 1, 2] :=
  C2_reorder_then_get_in_list_order sampleDB 10 7 [3, 1, 2]
    (by decide) (by decide) (by decide) (by decide) (by decide) (by
      intro m
      constructor
      · rintro ⟨r, hr, hra, rfl⟩
        revert hra
        revert r
        decide
      · intro hm
        simp only [List.mem_cons, List.mem_singleton, List.not_mem_nil, or_false] at hm
        rcases hm with rfl | rfl | rfl <;> decide)

theorem reorderLoop_error (a : Nat) (L : List Nat) :
    ∀ (i : Nat) (tx : DB) (e : Error), reorderLoop a i L tx = .error e →
      e = .mediaItemsNotFoundInAlbum := by
  induction L with
  | nil => intro i tx e h; simp [reorderLoop] at h
  | cons m rest ih =>
    intro i tx e h
    unfold reorderLoop at h
    simp only at h
    split at h
    · simpa [eq_comm] using h
    · exact ih _ _ e h

/-- C3: for every album `a` owned by `u` and every list `L` that contains a
media id with no membership row in `a`, `ReorderAlbumMedia(a, L, u)` returns
the error "one or more media items not found in album" and the database after
the call is the database before it: no row keeps an update of this call. -/
theorem C3_reorder_missing_member_rolls_back (db : DB) (a u : Nat) (L : List Nat)
    (halbum : OwnsAlbum db u a) (hmissing : ∃ m ∈ L, ¬ InAlbum db a m) :
    ReorderAlbumMedia db a L u = (db, some .mediaItemsNotFoundInAlbum) := by
  rw [ReorderAlbumMedia_of_owner L halbum]
  cases hloop : reorderLoop a 0 L db with
  | ok tx' =>
    obtain ⟨m, hm, hnot⟩ := hmissing
    exact absurd (((reorderLoop_eq_ok_iff a L 0 db tx').1 hloop).1 m hm) hnot
  | error e =>
    rw [reorderLoop_error a L 0 db e hloop] at hloop
    exact Transaction_error hloop

/-- C3 at the sample database: 2 and 1 are in album 10, 4 is not, and the rows
of 2 and 1 keep the display orders 1 and 2. -/
theorem C3_reorder_missing_member_rolls_back_witness :
    ReorderAlbumMedia sampleDB 10 [1, 2, 4] 7 = (sampleDB, some .mediaItemsNotFoundInAlbum) :=
  C3_reorder_missing_member_rolls_back sampleDB 10 7 [1, 2, 4] (by decide)
    ⟨4, by decide, by decide⟩

/-- C4: for every album `a` owned by `u` and every list of media ids in which
some id names no row of `media_items` with owner `u`, `AddMediaToAlbum(a, ids,
u)` returns an error and the database after the call is the database before
it: no membership row is inserted, not even for the ids before the offending
one. -/
theorem C4_add_foreign_media_inserts_nothing (db : DB) (a u : Nat) (ids : List Nat)
    (halbum : OwnsAlbum db u a) (hforeign : ∃ m ∈ ids, ¬ OwnsMediaRow db u m) :
    ∃ e, AddMediaToAlbum db a ids u = (db, some e) := by
  rw [AddMediaToAlbum_of_owner ids halbum]
  cases hloop : addMediaLoop a u (maxDisplayOrder db a) 0 ids db with
  | ok tx' =>
    obtain ⟨m, hm, hnot⟩ := hforeign
    exact absurd (((addMediaLoop_eq_ok_iff a u _ ids 0 db tx').1 hloop).1.1 m hm) hnot
  | error e => exact ⟨e, Transaction_error hloop⟩

/-- C4 at the sample database: 2 and 3 belong to user 7, 4 belongs to user 8;
nothing is added to the empty album 10. -/
theorem C4_add_foreign_media_inserts_nothing_witness :
    ∃ e, AddMediaToAlbum sampleEmptyAlbums 10 [2, 3, 4] 7 = (sampleEmptyAlbums, some e) :=
  C4_add_foreign_media_inserts_nothing sampleEmptyAlbums 10 7 [2, 3, 4] (by decide)
    ⟨4, by decide, by decide⟩

/-! ## What each operation can leave behind -/

theorem RemoveMediaFromAlbum_cases (db : DB) (a m u : Nat) :
    RemoveMediaFromAlbum db a m u = (db, some .albumNotFoundOrDenied) ∧ ¬ OwnsAlbum db u a ∨
    RemoveMediaFromAlbum db a m u = (db, some .mediaItemNotFoundInAlbum) ∧
      OwnsAlbum db u a ∧ ¬ InAlbum db a m ∨
    RemoveMediaFromAlbum db a m u = ((deleteMembership db a m).1, none) ∧
      OwnsAlbum db u a ∧ InAlbum db a m := by
  by_cases halbum : OwnsAlbum db u a
  · obtain ⟨al, hal⟩ := firstAlbum_of_owns halbum
    by_cases hin : InAlbum db a m
    · have hc : ¬ countMembership db a m = 0 := by
        rw [countMembership_eq_zero_iff]; exact not_not.mpr hin
      right; right
      refine ⟨?_, halbum, hin⟩
      simp [RemoveMediaFromAlbum, Transaction, hal, deleteMembership, hc]
    · have hc : countMembership db a m = 0 := by
        rw [countMembership_eq_zero_iff]; exact hin
      right; left
      refine ⟨?_, halbum, hin⟩
      simp [RemoveMediaFromAlbum, Transaction, hal, deleteMembership, hc]
  · left
    refine ⟨?_, halbum⟩
    simp [RemoveMediaFromAlbum, Transaction, (firstAlbum_eq_none_iff db a u).2 halbum]

theorem selectThumbnailPath_eq_none_iff (db : DB) (m u : Nat) :
    selectThumbnailPath db m u = none ↔ ¬ OwnsMediaRow db u m := by
  simp [selectThumbnailPath, OwnsMediaRow]

theorem SetAlbumCover_cases (db : DB) (a m u : Nat) :
    SetAlbumCover db a m u = (db, some .albumNotFoundOrDenied) ∧ ¬ OwnsAlbum db u a ∨
    SetAlbumCover db a m u = (db, some .mediaItemNotFoundOrDenied) ∧
      OwnsAlbum db u a ∧ ¬ OwnsMediaRow db u m ∨
    SetAlbumCover db a m u = (db, some .mediaItemNotInAlbum) ∧
      OwnsAlbum db u a ∧ OwnsMediaRow db u m ∧ ¬ InAlbum db a m ∨
    ∃ al t, firstAlbum db a u = some al ∧ selectThumbnailPath db m u = some t ∧
      InAlbum db a m ∧ SetAlbumCover db a m u = (updateCover db al t, none) := by
  by_cases halbum : OwnsAlbum db u a
  · obtain ⟨al, hal⟩ := firstAlbum_of_owns halbum
    by_cases hown : OwnsMediaRow db u m
    · cases ht : selectThumbnailPath db m u with
      | none => exact absurd hown ((selectThumbnailPath_eq_none_iff db m u).1 ht)
      | some t =>
        by_cases hin : InAlbum db a m
        · have hc : ¬ countMembership db a m = 0 := by
            rw [countMembership_eq_zero_iff]; exact not_not.mpr hin
          right; right; right
          refine ⟨al, t, hal, rfl, hin, ?_⟩
          simp [SetAlbumCover, Transaction, hal, ht, hc]
        · have hc : countMembership db a m = 0 := by
            rw [countMembership_eq_zero_iff]; exact hin
          right; right; left
          refine ⟨?_, halbum, hown, hin⟩
          simp [SetAlbumCover, Transaction, hal, ht, hc]
    · right; left
      refine ⟨?_, halbum, hown⟩
      simp [SetAlbumCover, Transaction, hal, (selectThumbnailPath_eq_none_iff db m u).2 hown]
  · left
    refine ⟨?_, halbum⟩
    simp [SetAlbumCover, Transaction, (firstAlbum_eq_none_iff db a u).2 halbum]

theorem DeleteAlbum_cases (db : DB) (a u : Nat) :
    DeleteAlbum db a u = (db, some .albumNotFoundOrDenied) ∧ ¬ OwnsAlbum db u a ∨
    ∃ al, firstAlbum db a u = some al ∧
      DeleteAlbum db a u = (softDeleteAlbum (deleteAlbumRows db a) al, none) := by
  cases hal : firstAlbum db a u with
  | none =>
    left
    refine ⟨?_, (firstAlbum_eq_none_iff db a u).1 hal⟩
    simp [DeleteAlbum, Transaction, hal]
  | some al =>
    right
    refine ⟨al, rfl, ?_⟩
    simp [DeleteAlbum, Transaction, hal]

theorem ReorderAlbumMedia_cases (db : DB) (a u : Nat) (L : List Nat) :
    (∃ e, ReorderAlbumMedia db a L u = (db, some e)) ∨
    ReorderAlbumMedia db a L u =
      ({ db with album_media_items := db.album_media_items.map (reorderedRow a 0 L) },
        none) := by
  by_cases halbum : OwnsAlbum db u a
  · rw [ReorderAlbumMedia_of_owner L halbum]
    cases hloop : reorderLoop a 0 L db with
    | ok tx' =>
      right
      rw [Transaction_ok hloop, ((reorderLoop_eq_ok_iff a L 0 db tx').1 hloop).2]
    | error e => exact Or.inl ⟨e, Transaction_error hloop⟩
  · left
    refine ⟨.albumNotFoundOrDenied, ?_⟩
    simp [ReorderAlbumMedia, Transaction, (firstAlbum_eq_none_iff db a u).2 halbum]

theorem AddMediaToAlbum_cases (db : DB) (a u : Nat) (ids : List Nat) :
    (∃ e, AddMediaToAlbum db a ids u = (db, some e)) ∨
    (OwnsAlbum db u a ∧ (∀ m ∈ ids, OwnsMediaRow db u m) ∧ ids.Nodup ∧
      (∀ m ∈ ids, ¬ InAlbum db a m) ∧
      AddMediaToAlbum db a ids u =
        ({ db with album_media_items := db.album_media_items ++
            appendedRows a (maxDisplayOrder db a) 0 ids }, none)) := by
  by_cases halbum : OwnsAlbum db u a
  · rw [AddMediaToAlbum_of_owner ids halbum]
    cases hloop : addMediaLoop a u (maxDisplayOrder db a) 0 ids db with
    | ok tx' =>
      right
      have h := (addMediaLoop_eq_ok_iff a u _ ids 0 db tx').1 hloop
      refine ⟨halbum, h.1.1, h.1.2.1, h.1.2.2, ?_⟩
      rw [Transaction_ok hloop, h.2]
    | error e => exact Or.inl ⟨e, Transaction_error hloop⟩
  · left
    refine ⟨.albumNotFoundOrDenied, ?_⟩
    simp [AddMediaToAlbum, Transaction, (firstAlbum_eq_none_iff db a u).2 halbum]

theorem DeleteMediaItem_cases (db : DB) (fs : FileSystem) (id u : Nat) :
    (DeleteMediaItem db fs id u).1 = db ∧ (DeleteMediaItem db fs id u).2.2 ≠ none ∨
    ∃ x, firstMediaItem db id u = some x ∧
      (DeleteMediaItem db fs id u).1 = softDeleteMediaItem (deleteMediaRows db id) x ∧
      (DeleteMediaItem db fs id u).2.2 = none := by
  unfold DeleteMediaItem deleteMediaItemTx
  cases hx : firstMediaItem db id u with
  | none => left; simp [Transaction]
  | some x =>
    simp only
    cases h1 : removeUnlessMissing fs x.Path with
    | none => left; simp [Transaction]
    | some fs₁ =>
      simp only
      split
      · left; simp [Transaction]
      · right
        exact ⟨x, rfl, by simp [Transaction], by simp [Transaction]⟩

/-! ## The membership invariant -/

/-- The invariant survives every change that drops membership rows or rewrites
fields other than the ids and the owners. -/
theorem MembershipInvariant_of_keys (db db' : DB)
    (hrows : (db'.album_media_items.map (fun r => (r.AlbumID, r.MediaItemID))).Sublist
      (db.album_media_items.map (fun r => (r.AlbumID, r.MediaItemID))))
    (halbums : db'.albums.map (fun al => (al.ID, al.UserID)) =
      db.albums.map (fun al => (al.ID, al.UserID)))
    (hmedia : db'.media_items.map (fun m => (m.ID, m.UserID)) =
      db.media_items.map (fun m => (m.ID, m.UserID)))
    (h : MembershipInvariant db) : MembershipInvariant db' := by
  refine ⟨?_, List.Nodup.sublist hrows h.2⟩
  intro r' hr'
  have hk : (r'.AlbumID, r'.MediaItemID) ∈
      db.album_media_items.map (fun r => (r.AlbumID, r.MediaItemID)) :=
    hrows.subset (List.mem_map.2 ⟨r', hr', rfl⟩)
  obtain ⟨r, hr, hkey⟩ := List.mem_map.1 hk
  simp only [Prod.mk.injEq] at hkey
  obtain ⟨al, hal, m, hm, h1, h2, h3⟩ := h.1 r hr
  have hal' : (al.ID, al.UserID) ∈ db'.albums.map (fun al => (al.ID, al.UserID)) := by
    rw [halbums]; exact List.mem_map.2 ⟨al, hal, rfl⟩
  have hm' : (m.ID, m.UserID) ∈ db'.media_items.map (fun m => (m.ID, m.UserID)) := by
    rw [hmedia]; exact List.mem_map.2 ⟨m, hm, rfl⟩
  obtain ⟨al', hal'mem, hal'eq⟩ := List.mem_map.1 hal'
  obtain ⟨m', hm'mem, hm'eq⟩ := List.mem_map.1 hm'
  simp only [Prod.mk.injEq] at hal'eq hm'eq
  refine ⟨al', hal'mem, m', hm'mem, ?_, ?_, ?_⟩
  · rw [hal'eq.1, h1, hkey.1]
  · rw [hm'eq.1, h2, hkey.2]
  · rw [hal'eq.2, hm'eq.2, h3]

theorem softDeleteAlbum_owners (db : DB) (al : Album) :
    (softDeleteAlbum db al).albums.map (fun x => (x.ID, x.UserID)) =
      db.albums.map (fun x => (x.ID, x.UserID)) := by
  simp only [softDeleteAlbum, List.map_map]
  apply List.map_congr_left
  intro x _
  simp only [Function.comp]
  split <;> rfl

theorem updateCover_owners (db : DB) (al : Album) (t : String) :
    (updateCover db al t).albums.map (fun x => (x.ID, x.UserID)) =
      db.albums.map (fun x => (x.ID, x.UserID)) := by
  simp only [updateCover, List.map_map]
  apply List.map_congr_left
  intro x _
  simp only [Function.comp]
  split <;> rfl

theorem softDeleteMediaItem_owners (db : DB) (m : MediaItem) :
    (softDeleteMediaItem db m).media_items.map (fun x => (x.ID, x.UserID)) =
      db.media_items.map (fun x => (x.ID, x.UserID)) := by
  simp only [softDeleteMediaItem, List.map_map]
  apply List.map_congr_left
  intro x _
  simp only [Function.comp]
  split <;> rfl

theorem reorderedRow_keys (a : Nat) (L : List Nat) (rows : List AlbumMediaItem) :
    (rows.map (reorderedRow a 0 L)).map (fun r => (r.AlbumID, r.MediaItemID)) =
      rows.map (fun r => (r.AlbumID, r.MediaItemID)) := by
  rw [List.map_map]
  apply List.map_congr_left
  intro r _
  simp [(reorderedRow_key a L 0 r).1, (reorderedRow_key a L 0 r).2]

theorem appendedRows_keys (a : Nat) (M : Int) (ids : List Nat) :
    ∀ (i : Nat), (appendedRows a M i ids).map (fun r => (r.AlbumID, r.MediaItemID)) =
      ids.map (fun m => (a, m)) := by
  induction ids with
  | nil => intro i; rfl
  | cons m rest ih => intro i; simp [appendedRows, ih]

/-- The invariant survives a successful `AddMediaToAlbum`. -/
theorem MembershipInvariant_append {db : DB} {a u : Nat} {ids : List Nat} (M : Int)
    (halbum : OwnsAlbum db u a) (hown : ∀ m ∈ ids, OwnsMediaRow db u m) (hnodup : ids.Nodup)
    (hnot : ∀ m ∈ ids, ¬ InAlbum db a m) (h : MembershipInvariant db) :
    MembershipInvariant
      { db with album_media_items := db.album_media_items ++ appendedRows a M 0 ids } := by
  constructor
  · intro r hr
    rcases List.mem_append.1 hr with hr | hr
    · exact h.1 r hr
    · obtain ⟨al, hal, hid, hu, _⟩ := halbum
      have hm : r.MediaItemID ∈ ids := by
        rw [← appendedRows_mediaIDs a M ids 0]
        exact List.mem_map.2 ⟨r, hr, rfl⟩
      obtain ⟨x, hx, hxid, hxu⟩ := hown _ hm
      exact ⟨al, hal, x, hx, hid.trans (appendedRows_albumID a M ids 0 r hr).symm, hxid,
        hu.trans hxu.symm⟩
  · unfold MembershipKeyUnique
    simp only [List.map_append, appendedRows_keys]
    rw [List.nodup_append]
    refine ⟨h.2, hnodup.map (fun x y hxy => by simpa using hxy), ?_⟩
    intro k hk1 hk2
    obtain ⟨r, hr, rfl⟩ := List.mem_map.1 hk1
    obtain ⟨m, hm, hkey⟩ := List.mem_map.1 hk2
    simp only [Prod.mk.injEq] at hkey
    exact hnot m hm ⟨r, hr, hkey.1.symm, hkey.2.symm⟩

/-- C5: if every membership row links an album row and a media row with the
same owner and no two membership rows share the pair (album id, media id),
then the same holds in the database left by `AddMediaToAlbum`,
`RemoveMediaFromAlbum`, `ReorderAlbumMedia`, `SetAlbumCover`, `DeleteAlbum` and
`DeleteMediaItem`, for all arguments and whether the call succeeds or fails. -/
theorem C5_membership_invariant_preserved (db : DB) (fs : FileSystem)
    (a m u : Nat) (ids : List Nat) (h : MembershipInvariant db) :
    MembershipInvariant (AddMediaToAlbum db a ids u).1 ∧
    MembershipInvariant (RemoveMediaFromAlbum db a m u).1 ∧
    MembershipInvariant (ReorderAlbumMedia db a ids u).1 ∧
    MembershipInvariant (SetAlbumCover db a m u).1 ∧
    MembershipInvariant (DeleteAlbum db a u).1 ∧
    MembershipInvariant (DeleteMediaItem db fs m u).1 := by
  refine ⟨?_, ?_, ?_, ?_, ?_, ?_⟩
  · rcases AddMediaToAlbum_cases db a u ids with ⟨e, he⟩ | ⟨h1, h2, h3, h4, h5⟩
    · rw [he]; exact h
    · rw [h5]; exact MembershipInvariant_append _ h1 h2 h3 h4 h
  · rcases RemoveMediaFromAlbum_cases db a m u with ⟨he, _⟩ | ⟨he, _⟩ | ⟨he, _⟩
    · rw [he]; exact h
    · rw [he]; exact h
    · rw [he]
      exact MembershipInvariant_of_keys db _
        (List.Sublist.map _ (List.filter_sublist _)) rfl rfl h
  · rcases ReorderAlbumMedia_cases db a u ids with ⟨e, he⟩ | he
    · rw [he]; exact h
    · rw [he]
      refine MembershipInvariant_of_keys db _ ?_ rfl rfl h
      simp only [reorderedRow_keys]
      exact List.Sublist.refl _
  · rcases SetAlbumCover_cases db a m u with
      ⟨he, _⟩ | ⟨he, _⟩ | ⟨he, _⟩ | ⟨al, t, _, _, _, he⟩
    · rw [he]; exact h
    · rw [he]; exact h
    · rw [he]; exact h
    · rw [he]
      exact MembershipInvariant_of_keys db _ (List.Sublist.refl _) (updateCover_owners db al t)
        rfl h
  · rcases DeleteAlbum_cases db a u with ⟨he, _⟩ | ⟨al, _, he⟩
    · rw [he]; exact h
    · rw [he]
      exact MembershipInvariant_of_keys db _ (List.Sublist.map _ (List.filter_sublist _))
        (softDeleteAlbum_owners _ al) rfl h
  · rcases DeleteMediaItem_cases db fs m u with ⟨he, _⟩ | ⟨x, _, he, _⟩
    · rw [he]; exact h
    · rw [he]
      exact MembershipInvariant_of_keys db _ (List.Sublist.map _ (List.filter_sublist _))
        rfl (softDeleteMediaItem_owners _ x) h

/-- C5 at the sample database, with calls that succeed (remove, reorder, cover,
both deletes) and one that fails (adding 2 to album 10 again). -/
theorem C5_membership_invariant_preserved_witness :
    MembershipInvariant sampleDB ∧
    MembershipInvariant (AddMediaToAlbum sampleDB 10 [2, 3] 7).1 ∧
    MembershipInvariant (RemoveMediaFromAlbum sampleDB 10 1 7).1 ∧
    MembershipInvariant (ReorderAlbumMedia sampleDB 10 [2, 3] 7).1 ∧
    MembershipInvariant (SetAlbumCover sampleDB 10 1 7).1 ∧
    MembershipInvariant (DeleteAlbum sampleDB 10 7).1 ∧
    MembershipInvariant (DeleteMediaItem sampleDB sampleFiles 1 7).1 :=
  ⟨by decide, C5_membership_invariant_preserved sampleDB sampleFiles 10 1 7 [2, 3]
    (by decide)⟩

/-! ## `SetAlbumCover` -/

/-- C6: for every album `a` owned by `u` and every media row `m` of `u` that
has no membership row in `a`, `SetAlbumCover(a, m, u)` returns the error "media
item is not in the album" and leaves the database, hence the cover of the
album, as it was. -/
theorem C6_cover_of_non_member_rejected (db : DB) (a m u : Nat)
    (halbum : OwnsAlbum db u a) (hown : OwnsMediaRow db u m) (hnot : ¬ InAlbum db a m) :
    SetAlbumCover db a m u = (db, some .mediaItemNotInAlbum) ∧
    firstAlbum (SetAlbumCover db a m u).1 a u = firstAlbum db a u := by
  rcases SetAlbumCover_cases db a m u with
    ⟨_, h⟩ | ⟨_, _, h⟩ | ⟨he, _⟩ | ⟨_, _, _, _, h, _⟩
  · exact absurd halbum h
  · exact absurd hown h
  · exact ⟨he, by rw [he]⟩
  · exact absurd h hnot

/-- C6 at the sample database: media item 2 of user 7 is not in album 12 of
user 7. -/
theorem C6_cover_of_non_member_rejected_witness :
    SetAlbumCover sampleDB 12 2 7 = (sampleDB, some .mediaItemNotInAlbum) ∧
    firstAlbum (SetAlbumCover sampleDB 12 2 7).1 12 7 = firstAlbum sampleDB 12 7 :=
  C6_cover_of_non_member_rejected sampleDB 12 2 7 (by decide) (by decide) (by decide)

theorem find?_of_unique_key {α : Type} (k : α → Nat) (p : α → Bool) (x : α) :
    ∀ (l : List α), (l.map k).Nodup → x ∈ l → p x = true →
      (∀ y ∈ l, p y = true → k y = k x) → l.find? p = some x := by
  intro l
  induction l with
  | nil => intro _ h; simp at h
  | cons y ys ih =>
    intro hnd hx hpx hkey
    simp only [List.map_cons, List.nodup_cons] at hnd
    by_cases hpy : p y = true
    · have hk := hkey y (List.mem_cons_self _ _) hpy
      rcases List.mem_cons.1 hx with rfl | hx'
      · simp [List.find?_cons, hpy]
      · exact absurd (List.mem_map.2 ⟨x, hx', hk.symm⟩) hnd.1
    · have hx' : x ∈ ys := by
        rcases List.mem_cons.1 hx with rfl | hx'
        · exact absurd hpx hpy
        · exact hx'
      have hpy' : p y = false := by simpa using hpy
      rw [List.find?_cons, hpy']
      exact ih hnd.2 hx' hpx (fun z hz => hkey z (List.mem_cons_of_mem _ hz))

theorem selectThumbnailPath_of_mem {db : DB} {x : MediaItem} (hmedia : MediaKeyUnique db)
    (hx : x ∈ db.media_items) :
    selectThumbnailPath db x.ID x.UserID = some x.ThumbnailPath := by
  unfold selectThumbnailPath
  rw [find?_of_unique_key (fun m : MediaItem => m.ID) _ x db.media_items hmedia hx (by simp)
    (fun y _ hy => by simp at hy; exact hy.1)]
  rfl

theorem firstAlbum_updateCover {db : DB} {a u : Nat} {al : Album} (t : String)
    (hal : firstAlbum db a u = some al) :
    firstAlbum (updateCover db al t) a u = some { al with Cover := t } := by
  have hspec := firstAlbum_some_spec hal
  unfold firstAlbum at hal ⊢
  unfold updateCover
  simp only [List.find?_map]
  have hfun : ((fun x : Album => decide (x.ID = a ∧ x.UserID = u ∧ x.DeletedAt = false)) ∘
      fun x : Album => if x.ID = al.ID ∧ x.DeletedAt = false then { x with Cover := t } else x) =
      fun x : Album => decide (x.ID = a ∧ x.UserID = u ∧ x.DeletedAt = false) := by
    funext x
    simp only [Function.comp]
    split <;> rfl
  rw [hfun, hal]
  simp [hspec.2.2.2]

theorem albums_updateCover_of_ne (db : DB) (al : Album) (t : String) (b : Nat)
    (hb : b ≠ al.ID) :
    (updateCover db al t).albums.filter (fun x => x.ID = b) =
      db.albums.filter (fun x => x.ID = b) := by
  unfold updateCover
  simp only [List.filter_map]
  have hfun : ((fun x : Album => decide (x.ID = b)) ∘
      fun x : Album => if x.ID = al.ID ∧ x.DeletedAt = false then { x with Cover := t } else x) =
      fun x : Album => decide (x.ID = b) := by
    funext x
    simp only [Function.comp]
    split <;> rfl
  rw [hfun]
  conv_rhs => rw [← List.map_id (db.albums.filter (fun x => x.ID = b))]
  apply List.map_congr_left
  intro x hx
  have hxb : x.ID = b := by simpa using (List.mem_filter.1 hx).2
  have hne : ¬ (x.ID = al.ID ∧ x.DeletedAt = false) := fun h => hb (hxb ▸ h.1)
  simp [hne]

/-- C7: for every album `a` owned by `u` and every media row `x` of `u` with a
membership row in `a` (ids being unique in `media_items`), `SetAlbumCover(a,
x.ID, u)` succeeds; afterwards the album is the album of before with `Cover`
equal to `x.ThumbnailPath`, the albums with another id are as before and so
are the membership rows and the media rows. -/
theorem C7_cover_set_to_member_thumbnail (db : DB) (a u : Nat) (x : MediaItem)
    (hmedia : MediaKeyUnique db) (halbum : OwnsAlbum db u a)
    (hx : x ∈ db.media_items) (hxu : x.UserID = u) (hin : InAlbum db a x.ID) :
    (SetAlbumCover db a x.ID u).2 = none ∧
    (∃ al, firstAlbum db a u = some al ∧
      firstAlbum (SetAlbumCover db a x.ID u).1 a u =
        some { al with Cover := x.ThumbnailPath }) ∧
    (∀ b, b ≠ a → (SetAlbumCover db a x.ID u).1.albums.filter (fun y => y.ID = b) =
      db.albums.filter (fun y => y.ID = b)) ∧
    (SetAlbumCover db a x.ID u).1.albums.length = db.albums.length ∧
    (SetAlbumCover db a x.ID u).1.album_media_items = db.album_media_items ∧
    (SetAlbumCover db a x.ID u).1.media_items = db.media_items := by
  have hown : OwnsMediaRow db u x.ID := ⟨x, hx, rfl, hxu⟩
  rcases SetAlbumCover_cases db a x.ID u with
    ⟨_, h⟩ | ⟨_, _, h⟩ | ⟨_, _, _, h⟩ | ⟨al, t, hal, ht, _, he⟩
  · exact absurd halbum h
  · exact absurd hown h
  · exact absurd hin h
  · have htx : t = x.ThumbnailPath := by
      have := selectThumbnailPath_of_mem hmedia hx
      rw [hxu, ht] at this
      exact Option.some.inj this
    subst htx
    rw [he]
    refine ⟨rfl, ⟨al, hal, firstAlbum_updateCover _ hal⟩, ?_, ?_, rfl, rfl⟩
    · intro b hb
      exact albums_updateCover_of_ne db al _ b
        (by rw [(firstAlbum_some_spec hal).2.1]; exact hb)
    · simp [updateCover]

/-- C7 at the sample database: media item 3 (thumbnail `t/3`) becomes the
cover of album 10. -/
theorem C7_cover_set_to_member_thumbnail_witness :
    (SetAlbumCover sampleDB 10 (sampleMedia 3 7 false "u/3" "t/3").ID 7).2 = none ∧
    (∃ al, firstAlbum sampleDB 10 7 = some al ∧
      firstAlbum (SetAlbumCover sampleDB 10 (sampleMedia 3 7 false "u/3" "t/3").ID 7).1 10 7 =
        some { al with Cover := (sampleMedia 3 7 false "u/3" "t/3").ThumbnailPath }) ∧
    (∀ b, b ≠ 10 →
      (SetAlbumCover sampleDB 10 (sampleMedia 3 7 false "u/3" "t/3").ID 7).1.albums.filter
        (fun y => y.ID = b) = sampleDB.albums.filter (fun y => y.ID = b)) ∧
    (SetAlbumCover sampleDB 10 (sampleMedia 3 7 false "u/3" "t/3").ID 7).1.albums.length =
      sampleDB.albums.length ∧
    (SetAlbumCover sampleDB 10 (sampleMedia 3 7 false "u/3" "t/3").ID 7).1.album_media_items =
      sampleDB.album_media_items ∧
    (SetAlbumCover sampleDB 10 (sampleMedia 3 7 false "u/3" "t/3").ID 7).1.media_items =
      sampleDB.media_items :=
  C7_cover_set_to_member_thumbnail sampleDB 10 7 (sampleMedia 3 7 false "u/3" "t/3")
    (by decide) (by decide) (by decide) (by decide) (by decide)

/-! ## Counting membership rows -/

theorem filter_key_length {α κ : Type} [DecidableEq κ] (k : α → κ) (c : κ) :
    ∀ (l : List α), (l.map k).Nodup → (∃ x ∈ l, k x = c) →
      (l.filter (fun x => k x = c)).length = 1 := by
  intro l
  induction l with
  | nil => intro _ h; simp at h
  | cons x xs ih =>
    intro hnd hex
    simp only [List.map_cons, List.nodup_cons] at hnd
    by_cases hx : k x = c
    · have hnone : xs.filter (fun y => k y = c) = [] := by
        rw [List.filter_eq_nil_iff]
        intro y hy
        simp only [decide_eq_true_eq]
        intro hyc
        exact hnd.1 (List.mem_map.2 ⟨y, hy, by rw [hyc, hx]⟩)
      simp [List.filter_cons, hx, hnone]
    · have hex' : ∃ y ∈ xs, k y = c := by
        rcases hex with ⟨y, hy, hyc⟩
        rcases List.mem_cons.1 hy with rfl | hy
        · exact absurd hyc hx
        · exact ⟨y, hy, hyc⟩
      simp [List.filter_cons, hx, ih hnd.2 hex']

/-- Under the composite primary key a member has exactly one membership row. -/
theorem countMembership_of_inAlbum {db : DB} {a m : Nat} (hmem : MembershipKeyUnique db)
    (hin : InAlbum db a m) : countMembership db a m = 1 := by
  have h := filter_key_length (fun r : AlbumMediaItem => (r.AlbumID, r.MediaItemID)) (a, m)
    db.album_media_items hmem (by
      obtain ⟨r, hr, h1, h2⟩ := hin
      exact ⟨r, hr, by simp [h1, h2]⟩)
  simpa [countMembership] using h

/-- Dropping the row `(a, m)` of a member lowers the row count of album `a` by
one. -/
theorem countAlbumRows_drop_member {db : DB} {a m : Nat} (hmem : MembershipKeyUnique db)
    (hin : InAlbum db a m) (rows : List AlbumMediaItem)
    (hrows : rows.filter (fun r => r.AlbumID = a) =
      db.album_media_items.filter (fun r => r.AlbumID = a ∧ ¬ r.MediaItemID = m)) :
    countAlbumRows db a = countAlbumRows { db with album_media_items := rows } a + 1 := by
  have hsplit := List.length_eq_length_filter_add
    (l := albumRows db a) (fun r => decide (r.MediaItemID = m))
  have h1 : (albumRows db a).filter (fun r => decide (r.MediaItemID = m)) =
      db.album_media_items.filter (fun r => r.AlbumID = a ∧ r.MediaItemID = m) := by
    simp only [albumRows, List.filter_filter]
    apply List.filter_congr
    intro r _
    simp [Bool.and_comm]
  have h2 : (albumRows db a).filter (fun r => ! decide (r.MediaItemID = m)) =
      rows.filter (fun r => r.AlbumID = a) := by
    rw [hrows]
    simp only [albumRows, List.filter_filter]
    apply List.filter_congr
    intro r _
    simp [Bool.and_comm]
  have hone := countMembership_of_inAlbum hmem hin
  unfold countMembership at hone
  rw [h1, h2, hone] at hsplit
  unfold countAlbumRows
  simp only [albumRows] at hsplit ⊢
  omega

/-! ## `RemoveMediaFromAlbum` -/

/-- C9: for every album `a` owned by `u` and every media id `m` (the composite
primary key holding): if `a` has no membership row for `m`,
`RemoveMediaFromAlbum(a, m, u)` returns the error "media item not found in
album" and the database is unchanged; otherwise it succeeds, the database
afterwards is the database before without the row `(a, m)` -- one row fewer,
albums and media rows untouched -- so `GetAlbum` reports a `MediaCount` one
lower and the same album fields, `Cover` included. -/
theorem C9_remove_media_from_album (db : DB) (a m u : Nat)
    (hmem : MembershipKeyUnique db) (halbum : OwnsAlbum db u a) :
    (¬ InAlbum db a m →
      RemoveMediaFromAlbum db a m u = (db, some .mediaItemNotFoundInAlbum) ∧
      Error.message .mediaItemNotFoundInAlbum = "media item not found in album") ∧
    (InAlbum db a m →
      (RemoveMediaFromAlbum db a m u).2 = none ∧
      (RemoveMediaFromAlbum db a m u).1.album_media_items =
        db.album_media_items.filter (fun r => ¬ (r.AlbumID = a ∧ r.MediaItemID = m)) ∧
      (RemoveMediaFromAlbum db a m u).1.album_media_items.length + 1 =
        db.album_media_items.length ∧
      (RemoveMediaFromAlbum db a m u).1.albums = db.albums ∧
      (RemoveMediaFromAlbum db a m u).1.media_items = db.media_items ∧
      ∃ al n, GetAlbum db a u = .ok (al, n + 1) ∧
        GetAlbum (RemoveMediaFromAlbum db a m u).1 a u = .ok (al, n)) := by
  constructor
  · intro hnot
    rcases RemoveMediaFromAlbum_cases db a m u with ⟨_, h⟩ | ⟨he, _⟩ | ⟨_, _, h⟩
    · exact absurd halbum h
    · exact ⟨he, rfl⟩
    · exact absurd h hnot
  · intro hin
    rcases RemoveMediaFromAlbum_cases db a m u with ⟨_, h⟩ | ⟨_, _, h⟩ | ⟨he, _⟩
    · exact absurd halbum h
    · exact absurd hin h
    · rw [he]
      obtain ⟨al, hal⟩ := firstAlbum_of_owns halbum
      have hcount := countAlbumRows_drop_member hmem hin
        (db.album_media_items.filter (fun r => ¬ (r.AlbumID = a ∧ r.MediaItemID = m)))
        (by
          simp only [List.filter_filter]
          apply List.filter_congr
          intro r _
          by_cases h1 : r.AlbumID = a <;> by_cases h2 : r.MediaItemID = m <;> simp [h1, h2])
      have hlen := List.length_eq_length_filter_add (l := db.album_media_items)
        (fun r => decide (r.AlbumID = a ∧ r.MediaItemID = m))
      have hone := countMembership_of_inAlbum hmem hin
      unfold countMembership at hone
      rw [hone] at hlen
      refine ⟨rfl, rfl, ?_, rfl, rfl, al, countAlbumRows
        { db with album_media_items :=
            db.album_media_items.filter (fun r => ¬ (r.AlbumID = a ∧ r.MediaItemID = m)) } a,
        ?_, ?_⟩
      · simp only [deleteMembership]
        have hfun : (fun r : AlbumMediaItem => decide ¬ (r.AlbumID = a ∧ r.MediaItemID = m)) =
            fun r => ! decide (r.AlbumID = a ∧ r.MediaItemID = m) := by
          funext r; simp
        rw [hfun]
        omega
      · simp only [GetAlbum, hal, hcount]
      · have hal' : firstAlbum (deleteMembership db a m).1 a u = some al := hal
        simp only [GetAlbum, hal']
        rfl

/-- C9 at the sample database: media item 1 leaves album 10, whose count goes
from 3 to 2. -/
theorem C9_remove_media_from_album_witness :
    InAlbum sampleDB 10 1 ∧
    (RemoveMediaFromAlbum sampleDB 10 1 7).2 = none ∧
    (RemoveMediaFromAlbum sampleDB 10 1 7).1.album_media_items =
      sampleDB.album_media_items.filter (fun r => ¬ (r.AlbumID = 10 ∧ r.MediaItemID = 1)) ∧
    (RemoveMediaFromAlbum sampleDB 10 1 7).1.album_media_items.length + 1 =
      sampleDB.album_media_items.length ∧
    (RemoveMediaFromAlbum sampleDB 10 1 7).1.albums = sampleDB.albums ∧
    (RemoveMediaFromAlbum sampleDB 10 1 7).1.media_items = sampleDB.media_items ∧
    ∃ al n, GetAlbum sampleDB 10 7 = .ok (al, n + 1) ∧
      GetAlbum (RemoveMediaFromAlbum sampleDB 10 1 7).1 10 7 = .ok (al, n) :=
  ⟨by decide,
    (C9_remove_media_from_album sampleDB 10 1 7 (by decide) (by decide)).2 (by decide)⟩

/-! ## `DeleteAlbum` -/

theorem firstAlbum_softDeleteAlbum (db : DB) (al : Album) (v : Nat) :
    firstAlbum (softDeleteAlbum db al) al.ID v = none := by
  unfold firstAlbum softDeleteAlbum
  rw [List.find?_eq_none]
  intro y hy
  obtain ⟨y0, _, rfl⟩ := List.mem_map.1 hy
  by_cases h : y0.ID = al.ID ∧ y0.DeletedAt = false
  · simp [h]
  · rw [if_neg h]
    simp only [decide_eq_true_eq]
    rintro ⟨h1, _, h3⟩
    exact h ⟨h1, h3⟩

theorem albums_softDeleteAlbum_of_ne (db : DB) (al : Album) (b : Nat) (hb : b ≠ al.ID) :
    (softDeleteAlbum db al).albums.filter (fun x => x.ID = b) =
      db.albums.filter (fun x => x.ID = b) := by
  unfold softDeleteAlbum
  simp only [List.filter_map]
  have hfun : ((fun x : Album => decide (x.ID = b)) ∘
      fun x : Album => if x.ID = al.ID ∧ x.DeletedAt = false then
        { x with DeletedAt := true } else x) =
      fun x : Album => decide (x.ID = b) := by
    funext x
    simp only [Function.comp]
    split <;> rfl
  rw [hfun]
  conv_rhs => rw [← List.map_id (db.albums.filter (fun x => x.ID = b))]
  apply List.map_congr_left
  intro x hx
  have hxb : x.ID = b := by simpa using (List.mem_filter.1 hx).2
  have hne : ¬ (x.ID = al.ID ∧ x.DeletedAt = false) := fun h => hb (hxb ▸ h.1)
  simp [hne]

/-- C10: for every album `a` owned by `u`, `DeleteAlbum(a, u)` succeeds, removes
exactly the membership rows of `a` (the rows of other albums stay, in order),
soft-deletes the album row so that no user can get album `a` any more, and
leaves the albums with another id and every media row unchanged; when `u` owns
no live album `a`, it returns "album not found or access denied" and the
database is unchanged. -/
theorem C10_delete_album (db : DB) (a u : Nat) :
    (OwnsAlbum db u a →
      (DeleteAlbum db a u).2 = none ∧
      (DeleteAlbum db a u).1.album_media_items =
        db.album_media_items.filter (fun r => ¬ r.AlbumID = a) ∧
      (∀ v, GetAlbum (DeleteAlbum db a u).1 a v = .error .albumNotFoundOrDenied) ∧
      (DeleteAlbum db a u).1.albums = db.albums.map (fun y =>
        if y.ID = a ∧ y.DeletedAt = false then { y with DeletedAt := true } else y) ∧
      (∀ b, b ≠ a → (DeleteAlbum db a u).1.albums.filter (fun y => y.ID = b) =
        db.albums.filter (fun y => y.ID = b)) ∧
      (DeleteAlbum db a u).1.media_items = db.media_items) ∧
    (¬ OwnsAlbum db u a →
      DeleteAlbum db a u = (db, some .albumNotFoundOrDenied) ∧
      Error.message .albumNotFoundOrDenied = "album not found or access denied") := by
  constructor
  · intro halbum
    rcases DeleteAlbum_cases db a u with ⟨_, h⟩ | ⟨al, hal, he⟩
    · exact absurd halbum h
    · have hid : al.ID = a := (firstAlbum_some_spec hal).2.1
      rw [he]
      refine ⟨rfl, rfl, ?_, ?_, ?_, rfl⟩
      · intro v
        have := firstAlbum_softDeleteAlbum (deleteAlbumRows db a) al v
        rw [hid] at this
        simp [GetAlbum, this]
      · simp [softDeleteAlbum, deleteAlbumRows, hid]
      · intro b hb
        exact albums_softDeleteAlbum_of_ne (deleteAlbumRows db a) al b (by rw [hid]; exact hb)
  · intro hnot
    rcases DeleteAlbum_cases db a u with ⟨he, _⟩ | ⟨al, hal, _⟩
    · exact ⟨he, rfl⟩
    · exact absurd ⟨al, (firstAlbum_some_spec hal).1, (firstAlbum_some_spec hal).2⟩ hnot

/-- C10 at the sample database: user 7 deletes album 10 (three rows go, the
rows of albums 11 and 12 stay); user 7 cannot delete album 11 of user 8. -/
theorem C10_delete_album_witness :
    (OwnsAlbum sampleDB 7 10 ∧
      (DeleteAlbum sampleDB 10 7).2 = none ∧
      (DeleteAlbum sampleDB 10 7).1.album_media_items =
        sampleDB.album_media_items.filter (fun r => ¬ r.AlbumID = 10) ∧
      (∀ v, GetAlbum (DeleteAlbum sampleDB 10 7).1 10 v = .error .albumNotFoundOrDenied) ∧
      (DeleteAlbum sampleDB 10 7).1.albums = sampleDB.albums.map (fun y =>
        if y.ID = 10 ∧ y.DeletedAt = false then { y with DeletedAt := true } else y) ∧
      (∀ b, b ≠ 10 → (DeleteAlbum sampleDB 10 7).1.albums.filter (fun y => y.ID = b) =
        sampleDB.albums.filter (fun y => y.ID = b)) ∧
      (DeleteAlbum sampleDB 10 7).1.media_items = sampleDB.media_items) ∧
    (¬ OwnsAlbum sampleDB 7 11 ∧
      DeleteAlbum sampleDB 11 7 = (sampleDB, some .albumNotFoundOrDenied) ∧
      Error.message .albumNotFoundOrDenied = "album not found or access denied") :=
  ⟨⟨by decide, (C10_delete_album sampleDB 10 7).1 (by decide)⟩,
    ⟨by decide, (C10_delete_album sampleDB 11 7).2 (by decide)⟩⟩

/-! ## `DeleteMediaItem` -/

theorem firstMediaItem_of_mem {db : DB} {x : MediaItem} (hmedia : MediaKeyUnique db)
    (hx : x ∈ db.media_items) (hlive : x.DeletedAt = false) :
    firstMediaItem db x.ID x.UserID = some x := by
  unfold firstMediaItem
  exact find?_of_unique_key (fun m : MediaItem => m.ID) _ x db.media_items hmedia hx
    (by simp [hlive]) (fun y _ hy => by simp at hy; exact hy.1)

theorem removeUnlessMissing_of_not_locked (fs : FileSystem) (path : String)
    (h : path ∉ fs.locked) :
    ∃ fs', removeUnlessMissing fs path = some fs' ∧ fs'.locked = fs.locked := by
  unfold removeUnlessMissing osRemove
  by_cases hf : path ∈ fs.files
  · simp [hf, h]
  · simp [hf]

/-- When neither file is locked, the delete of a live media row of the user goes
through. -/
theorem DeleteMediaItem_of_removable {db : DB} {x : MediaItem} (fs : FileSystem)
    (hmedia : MediaKeyUnique db) (hx : x ∈ db.media_items) (hlive : x.DeletedAt = false)
    (hfile : x.Path ∉ fs.locked) (hthumb : x.ThumbnailPath ∉ fs.locked) :
    (DeleteMediaItem db fs x.ID x.UserID).1 =
        softDeleteMediaItem (deleteMediaRows db x.ID) x ∧
      (DeleteMediaItem db fs x.ID x.UserID).2.2 = none := by
  obtain ⟨fs₁, h1, hl1⟩ := removeUnlessMissing_of_not_locked fs x.Path hfile
  obtain ⟨fs₂, h2, _⟩ := removeUnlessMissing_of_not_locked fs₁ x.ThumbnailPath
    (by rw [hl1]; exact hthumb)
  unfold DeleteMediaItem deleteMediaItemTx
  rw [firstMediaItem_of_mem hmedia hx hlive]
  simp only [h1]
  by_cases ht : x.ThumbnailPath = ""
  · simp [ht, Transaction]
  · simp [ht, h2, Transaction]

theorem firstMediaItem_softDeleteMediaItem (db : DB) (x : MediaItem) (v : Nat) :
    firstMediaItem (softDeleteMediaItem db x) x.ID v = none := by
  unfold firstMediaItem softDeleteMediaItem
  rw [List.find?_eq_none]
  intro y hy
  obtain ⟨y0, _, rfl⟩ := List.mem_map.1 hy
  by_cases h : y0.ID = x.ID ∧ y0.DeletedAt = false
  · simp [h]
  · rw [if_neg h]
    simp only [decide_eq_true_eq]
    rintro ⟨h1, _, h3⟩
    exact h ⟨h1, h3⟩

theorem media_softDeleteMediaItem_of_ne (db : DB) (x : MediaItem) (i : Nat) (hi : i ≠ x.ID) :
    (softDeleteMediaItem db x).media_items.filter (fun y => y.ID = i) =
      db.media_items.filter (fun y => y.ID = i) := by
  unfold softDeleteMediaItem
  simp only [List.filter_map]
  have hfun : ((fun y : MediaItem => decide (y.ID = i)) ∘
      fun y : MediaItem => if y.ID = x.ID ∧ y.DeletedAt = false then
        { y with DeletedAt := true } else y) =
      fun y : MediaItem => decide (y.ID = i) := by
    funext y
    simp only [Function.comp]
    split <;> rfl
  rw [hfun]
  conv_rhs => rw [← List.map_id (db.media_items.filter (fun y => y.ID = i))]
  apply List.map_congr_left
  intro y hy
  have hyi : y.ID = i := by simpa using (List.mem_filter.1 hy).2
  have hne : ¬ (y.ID = x.ID ∧ y.DeletedAt = false) := fun h => hi (hyi ▸ h.1)
  simp [hne]

/-- An item returned by the join carries the media id of one of the rows. -/
theorem joinMediaItems_mem {db : DB} {rows : List AlbumMediaItem} {y : MediaItem}
    (h : y ∈ joinMediaItems db rows) : ∃ r ∈ rows, y.ID = r.MediaItemID := by
  unfold joinMediaItems at h
  obtain ⟨r, hr, hy⟩ := List.mem_flatMap.1 h
  exact ⟨r, hr, by simpa using (List.mem_filter.1 hy).2⟩

theorem mem_orderByDisplayOrder {rows : List AlbumMediaItem} {r : AlbumMediaItem} :
    r ∈ orderByDisplayOrder rows ↔ r ∈ rows :=
  (List.perm_insertionSort _ rows).mem_iff

/-- Under the composite primary key the rows that name one media item are as
many as the albums the item is a member of. -/
theorem mediaRows_length_eq_albums {db : DB} {m : Nat} {albums : List Nat}
    (hmem : MembershipKeyUnique db) (hnodup : albums.Nodup)
    (hset : ∀ a, a ∈ albums ↔ InAlbum db a m) :
    (db.album_media_items.filter (fun r => r.MediaItemID = m)).length = albums.length := by
  have hkeys : ((db.album_media_items.filter (fun r => r.MediaItemID = m)).map
      (fun r => (r.AlbumID, r.MediaItemID))).Nodup :=
    List.Nodup.sublist (List.Sublist.map _ (List.filter_sublist _)) hmem
  have hids : ((db.album_media_items.filter (fun r => r.MediaItemID = m)).map
      (fun r => r.AlbumID)).Nodup := by
    apply List.Nodup.of_map (fun a => (a, m))
    rw [List.map_map]
    have hcongr : (db.album_media_items.filter (fun r => r.MediaItemID = m)).map
        ((fun a => (a, m)) ∘ fun r => r.AlbumID) =
        (db.album_media_items.filter (fun r => r.MediaItemID = m)).map
          (fun r => (r.AlbumID, r.MediaItemID)) := by
      apply List.map_congr_left
      intro r hr
      have : r.MediaItemID = m := by simpa using (List.mem_filter.1 hr).2
      simp [this]
    rw [hcongr]
    exact hkeys
  have hperm : ((db.album_media_items.filter (fun r => r.MediaItemID = m)).map
      (fun r => r.AlbumID)).Perm albums := by
    rw [List.perm_ext_iff_of_nodup hids hnodup]
    intro a
    rw [hset a]
    simp only [List.mem_map, List.mem_filter, decide_eq_true_eq, InAlbum]
    constructor
    · rintro ⟨r, ⟨hr, hm⟩, ha⟩
      exact ⟨r, hr, ha, hm⟩
    · rintro ⟨r, hr, ha, hm⟩
      exact ⟨r, ⟨hr, hm⟩, ha⟩
  have := hperm.length_eq
  simpa using this

/-- C8: for every live media row `x` that is a member of exactly the albums of
the duplicate-free list `albums` (so `N = albums.length`), in a database that
satisfies its primary keys and with neither file of `x` locked:
`DeleteMediaItem(x.ID, x.UserID)` succeeds; the membership rows afterwards are
the rows of before without those that name `x`, which are `N`; no user can get
`x` any more while media rows with another id and all albums are as before; and
for each of the `N` albums and each user `v` who owns it, `GetAlbumMedia`
succeeds without an item of id `x.ID` and `GetAlbum` reports the same album
with a `MediaCount` exactly one lower. -/
theorem C8_delete_media_item_cascade (db : DB) (fs : FileSystem) (x : MediaItem)
    (albums : List Nat)
    (hmedia : MediaKeyUnique db) (hmem : MembershipKeyUnique db)
    (hx : x ∈ db.media_items) (hlive : x.DeletedAt = false)
    (hnodup : albums.Nodup) (hset : ∀ a, a ∈ albums ↔ InAlbum db a x.ID)
    (hfile : x.Path ∉ fs.locked) (hthumb : x.ThumbnailPath ∉ fs.locked) :
    (DeleteMediaItem db fs x.ID x.UserID).2.2 = none ∧
    (DeleteMediaItem db fs x.ID x.UserID).1.album_media_items =
      db.album_media_items.filter (fun r => ¬ r.MediaItemID = x.ID) ∧
    (DeleteMediaItem db fs x.ID x.UserID).1.album_media_items.length + albums.length =
      db.album_media_items.length ∧
    (∀ v, GetMediaItem (DeleteMediaItem db fs x.ID x.UserID).1 x.ID v =
      .error .recordNotFound) ∧
    (∀ i, i ≠ x.ID →
      (DeleteMediaItem db fs x.ID x.UserID).1.media_items.filter (fun y => y.ID = i) =
        db.media_items.filter (fun y => y.ID = i)) ∧
    (DeleteMediaItem db fs x.ID x.UserID).1.albums = db.albums ∧
    (∀ a ∈ albums, ∀ v, OwnsAlbum db v a →
      (∃ items, GetAlbumMedia (DeleteMediaItem db fs x.ID x.UserID).1 a v = .ok items ∧
        ∀ y ∈ items, y.ID ≠ x.ID) ∧
      ∃ al n, GetAlbum db a v = .ok (al, n + 1) ∧
        GetAlbum (DeleteMediaItem db fs x.ID x.UserID).1 a v = .ok (al, n)) := by
  obtain ⟨hdb, herr⟩ := DeleteMediaItem_of_removable fs hmedia hx hlive hfile hthumb
  rw [hdb]
  refine ⟨herr, rfl, ?_, ?_, ?_, rfl, ?_⟩
  · have hlen := List.length_eq_length_filter_add (l := db.album_media_items)
      (fun r => decide (r.MediaItemID = x.ID))
    rw [mediaRows_length_eq_albums hmem hnodup hset] at hlen
    have hfun : (fun r : AlbumMediaItem => decide ¬ r.MediaItemID = x.ID) =
        fun r => ! decide (r.MediaItemID = x.ID) := by
      funext r; simp
    simp only [softDeleteMediaItem, deleteMediaRows, hfun]
    omega
  · intro v
    simp [GetMediaItem, firstMediaItem_softDeleteMediaItem]
  · intro i hi
    exact media_softDeleteMediaItem_of_ne (deleteMediaRows db x.ID) x i hi
  · intro a ha v halbum
    obtain ⟨al, hal⟩ := firstAlbum_of_owns halbum
    have hal' : firstAlbum (softDeleteMediaItem (deleteMediaRows db x.ID) x) a v = some al :=
      hal
    have hin : InAlbum db a x.ID := (hset a).1 ha
    constructor
    · have hget : GetAlbumMedia (softDeleteMediaItem (deleteMediaRows db x.ID) x) a v =
          .ok (joinMediaItems (softDeleteMediaItem (deleteMediaRows db x.ID) x)
            (orderByDisplayOrder
              (albumRows (softDeleteMediaItem (deleteMediaRows db x.ID) x) a))) := by
        simp only [GetAlbumMedia, hal']
      refine ⟨_, hget, ?_⟩
      intro y hy
      obtain ⟨r, hr, hyr⟩ := joinMediaItems_mem hy
      have hr' := (mem_albumRows.1 (mem_orderByDisplayOrder.1 hr)).1
      have hne : ¬ r.MediaItemID = x.ID := by
        simpa using (List.mem_filter.1 hr').2
      rw [hyr]
      exact hne
    · have hcount := countAlbumRows_drop_member hmem hin
        (db.album_media_items.filter (fun r => ¬ r.MediaItemID = x.ID))
        (by
          simp only [List.filter_filter]
          apply List.filter_congr
          intro r _
          by_cases h1 : r.AlbumID = a <;> by_cases h2 : r.MediaItemID = x.ID <;>
            simp [h1, h2])
      refine ⟨al, countAlbumRows
        { db with album_media_items :=
            db.album_media_items.filter (fun r => ¬ r.MediaItemID = x.ID) } a, ?_, ?_⟩
      · simp only [GetAlbum, hal, hcount]
      · simp only [GetAlbum, hal']
        rfl

/-- C8 at the sample database: media item 1 of user 7 is in the albums 10 and
12; deleting it removes two of the five membership rows. -/
theorem C8_delete_media_item_cascade_witness :
    (DeleteMediaItem sampleDB sampleFiles 1 7).2.2 = none ∧
    (DeleteMediaItem sampleDB sampleFiles 1 7).1.album_media_items =
      sampleDB.album_media_items.filter (fun r => ¬ r.MediaItemID = 1) ∧
    (DeleteMediaItem sampleDB sampleFiles 1 7).1.album_media_items.length + [10, 12].length =
      sampleDB.album_media_items.length ∧
    (∀ v, GetMediaItem (DeleteMediaItem sampleDB sampleFiles 1 7).1 1 v =
      .error .recordNotFound) ∧
    (∀ i, i ≠ 1 →
      (DeleteMediaItem sampleDB sampleFiles 1 7).1.media_items.filter (fun y => y.ID = i) =
        sampleDB.media_items.filter (fun y => y.ID = i)) ∧
    (DeleteMediaItem sampleDB sampleFiles 1 7).1.albums = sampleDB.albums ∧
    (∀ a ∈ [10, 12], ∀ v, OwnsAlbum sampleDB v a →
      (∃ items, GetAlbumMedia (DeleteMediaItem sampleDB sampleFiles 1 7).1 a v = .ok items ∧
        ∀ y ∈ items, y.ID ≠ 1) ∧
      ∃ al n, GetAlbum sampleDB a v = .ok (al, n + 1) ∧
        GetAlbum (DeleteMediaItem sampleDB sampleFiles 1 7).1 a v = .ok (al, n)) :=
  C8_delete_media_item_cascade sampleDB sampleFiles (sampleMedia 1 7 false "u/1" "t/1")
    [10, 12] (by decide) (by decide) (by decide) (by decide) (by decide)
    (by
      intro a
      constructor
      · intro ha
        simp only [List.mem_cons, List.mem_singleton, List.not_mem_nil, or_false] at ha
        rcases ha with rfl | rfl <;> decide
      · rintro ⟨r, hr, rfl, hm⟩
        revert hm
        revert r
        decide)
    (by decide) (by decide)

/-! ## The schema constraints are invariants -/

/-- The membership invariant contains the referential constraint. -/
theorem MembershipInvariant.refsMedia {db : DB} (h : MembershipInvariant db) :
    MembershipRefsMedia db := by
  intro r hr
  obtain ⟨_, _, m, hm, _, hid, _⟩ := h.1 r hr
  exact ⟨m, hm, hid⟩

/-- No operation of the album service changes `media_items`. -/
theorem album_operations_keep_media (db : DB) (a m u : Nat) (ids : List Nat) :
    (AddMediaToAlbum db a ids u).1.media_items = db.media_items ∧
    (RemoveMediaFromAlbum db a m u).1.media_items = db.media_items ∧
    (ReorderAlbumMedia db a ids u).1.media_items = db.media_items ∧
    (SetAlbumCover db a m u).1.media_items = db.media_items ∧
    (DeleteAlbum db a u).1.media_items = db.media_items := by
  refine ⟨?_, ?_, ?_, ?_, ?_⟩
  · rcases AddMediaToAlbum_cases db a u ids with ⟨e, he⟩ | ⟨_, _, _, _, he⟩ <;> rw [he]
  · rcases RemoveMediaFromAlbum_cases db a m u with ⟨he, _⟩ | ⟨he, _⟩ | ⟨he, _⟩ <;> rw [he]
    rfl
  · rcases ReorderAlbumMedia_cases db a u ids with ⟨e, he⟩ | he <;> rw [he]
  · rcases SetAlbumCover_cases db a m u with
      ⟨he, _⟩ | ⟨he, _⟩ | ⟨he, _⟩ | ⟨al, t, _, _, _, he⟩ <;> rw [he]
    rfl
  · rcases DeleteAlbum_cases db a u with ⟨he, _⟩ | ⟨al, _, he⟩ <;> rw [he]
    rfl

/-- The primary key of `media_items` survives every modelled operation. -/
theorem MediaKeyUnique_preserved (db : DB) (fs : FileSystem) (a m u : Nat) (ids : List Nat)
    (h : MediaKeyUnique db) :
    MediaKeyUnique (AddMediaToAlbum db a ids u).1 ∧
    MediaKeyUnique (RemoveMediaFromAlbum db a m u).1 ∧
    MediaKeyUnique (ReorderAlbumMedia db a ids u).1 ∧
    MediaKeyUnique (SetAlbumCover db a m u).1 ∧
    MediaKeyUnique (DeleteAlbum db a u).1 ∧
    MediaKeyUnique (DeleteMediaItem db fs m u).1 := by
  obtain ⟨h1, h2, h3, h4, h5⟩ := album_operations_keep_media db a m u ids
  unfold MediaKeyUnique at h ⊢
  rw [h1, h2, h3, h4, h5]
  refine ⟨h, h, h, h, h, ?_⟩
  rcases DeleteMediaItem_cases db fs m u with ⟨he, _⟩ | ⟨x, _, he, _⟩
  · rw [he]; exact h
  · rw [he]
    have := congrArg (List.map Prod.fst) (softDeleteMediaItem_owners (deleteMediaRows db m) x)
    simp only [List.map_map] at this
    have hfst : (Prod.fst ∘ fun y : MediaItem => (y.ID, y.UserID)) = fun y => y.ID := rfl
    rw [hfst] at this
    rw [this]
    exact h

/-! ## `ProcessUpload`: validation -/

/-- The only place where `ProcessUpload` reports an oversize file is the size
check. -/
theorem ProcessUpload_error_fileSize {db : DB} {fs : FileSystem} {env : UploadEnv}
    {file : FileHeader} {userID : Nat}
    (h : (ProcessUpload db fs env file userID).2.2 = .error .fileSizeExceedsLimit) :
    file.Size > MaxFileSize := by
  by_contra hsize
  unfold ProcessUpload at h
  rw [if_neg hsize] at h
  revert h
  simp only []
  repeat' split
  all_goals simp

/-- C11: `MaxFileSize` is 32 MiB; for every upload whose size is greater,
`ProcessUpload` returns the error "file size exceeds maximum limit" and the
database and the files after the call are those before it; an upload whose
size is exactly `MaxFileSize` does not get this error. -/
theorem C11_oversize_upload_rejected (db : DB) (fs : FileSystem) (env : UploadEnv)
    (file : FileHeader) (userID : Nat) :
    MaxFileSize = 32 * 1024 * 1024 ∧
    (file.Size > MaxFileSize →
      ProcessUpload db fs env file userID = (db, fs, .error .fileSizeExceedsLimit)) ∧
    (file.Size = MaxFileSize →
      (ProcessUpload db fs env file userID).2.2 ≠ .error .fileSizeExceedsLimit) := by
  refine ⟨by decide, ?_, ?_⟩
  · intro h
    unfold ProcessUpload
    rw [if_pos h]
  · intro h herr
    have := ProcessUpload_error_fileSize herr
    omega

/-- C11 at the sample uploads: one byte over the limit is rejected with nothing
written, exactly the limit passes the size check. -/
theorem C11_oversize_upload_rejected_witness :
    sampleOversize.Size > MaxFileSize ∧
    ProcessUpload sampleDB sampleFiles sampleEnv sampleOversize 7 =
      (sampleDB, sampleFiles, .error .fileSizeExceedsLimit) ∧
    sampleImage.Size = MaxFileSize ∧
    (ProcessUpload sampleDB sampleFiles sampleEnv sampleImage 7).2.2 ≠
      .error .fileSizeExceedsLimit :=
  ⟨by decide,
    (C11_oversize_upload_rejected sampleDB sampleFiles sampleEnv sampleOversize 7).2.1
      (by decide),
    by decide,
    (C11_oversize_upload_rejected sampleDB sampleFiles sampleEnv sampleImage 7).2.2
      (by decide)⟩

/-- C13: for every declared type `t`, `determineMediaType(t)` is "image" exactly
for the four image types, "video" exactly for the four video types and ""
exactly for every other string; `ValidateMimeType(t)` is true exactly when
`determineMediaType(t)` is not ""; and an upload that declares `t` and passes
the size check fails with "unsupported file type" exactly when
`determineMediaType(t)` is "". -/
theorem C13_media_type_allow_list (t : String) (db : DB) (fs : FileSystem)
    (env : UploadEnv) (file : FileHeader) (userID : Nat)
    (ht : file.ContentType = t) (hsize : file.Size ≤ MaxFileSize) :
    (determineMediaType t = "image" ↔
      t ∈ ["image/jpeg", "image/png", "image/gif", "image/webp"]) ∧
    (determineMediaType t = "video" ↔
      t ∈ ["video/mp4", "video/webm", "video/avi", "video/mpeg"]) ∧
    (determineMediaType t = "" ↔
      t ∉ ["image/jpeg", "image/png", "image/gif", "image/webp"] ∧
      t ∉ ["video/mp4", "video/webm", "video/avi", "video/mpeg"]) ∧
    (ValidateMimeType t = true ↔ determineMediaType t ≠ "") ∧
    ((ProcessUpload db fs env file userID).2.2 = .error .unsupportedFileType ↔
      determineMediaType t = "") := by
  have hdisj : ∀ x ∈ AllowedVideoTypes, x ∉ AllowedImageTypes := by decide
  have himg : t ∈ ["image/jpeg", "image/png", "image/gif", "image/webp"] ↔
      t ∈ AllowedImageTypes := Iff.rfl
  have hvid : t ∈ ["video/mp4", "video/webm", "video/avi", "video/mpeg"] ↔
      t ∈ AllowedVideoTypes := Iff.rfl
  rw [himg, hvid]
  have h1 : ("image" : String) ≠ "video" := by decide
  have h2 : ("image" : String) ≠ "" := by decide
  have h3 : ("video" : String) ≠ "" := by decide
  have hsize' : ¬ file.Size > MaxFileSize := by omega
  refine ⟨?_, ?_, ?_, ?_, ?_⟩
  · unfold determineMediaType
    by_cases hi : t ∈ AllowedImageTypes
    · simp [hi]
    · by_cases hv : t ∈ AllowedVideoTypes
      · simp [hi, hv, h1.symm]
      · simp [hi, hv, h2.symm]
  · unfold determineMediaType
    by_cases hi : t ∈ AllowedImageTypes
    · have hv : t ∉ AllowedVideoTypes := fun hv => hdisj t hv hi
      simp [hi, hv, h1]
    · by_cases hv : t ∈ AllowedVideoTypes
      · simp [hi, hv]
      · simp [hi, hv, h3.symm]
  · unfold determineMediaType
    by_cases hi : t ∈ AllowedImageTypes
    · simp [hi, h2]
    · by_cases hv : t ∈ AllowedVideoTypes
      · simp [hi, hv, h3]
      · simp [hi, hv]
  · unfold ValidateMimeType determineMediaType
    by_cases hi : t ∈ AllowedImageTypes
    · simp [hi, h2]
    · by_cases hv : t ∈ AllowedVideoTypes
      · simp [hi, hv, h3]
      · simp [hi, hv]
  · subst ht
    constructor
    · intro herr
      by_contra htype
      unfold ProcessUpload at herr
      rw [if_neg hsize'] at herr
      simp only [htype, if_false] at herr
      revert herr
      repeat' split
      all_goals simp
    · intro htype
      unfold ProcessUpload
      rw [if_neg hsize']
      simp [htype]

/-- C13 at the sample uploads: a PDF document within the size limit is
refused as unsupported. -/
theorem C13_media_type_allow_list_witness :
    (determineMediaType "application/pdf" = "image" ↔
      "application/pdf" ∈ ["image/jpeg", "image/png", "image/gif", "image/webp"]) ∧
    (determineMediaType "application/pdf" = "video" ↔
      "application/pdf" ∈ ["video/mp4", "video/webm", "video/avi", "video/mpeg"]) ∧
    (determineMediaType "application/pdf" = "" ↔
      "application/pdf" ∉ ["image/jpeg", "image/png", "image/gif", "image/webp"] ∧
      "application/pdf" ∉ ["video/mp4", "video/webm", "video/avi", "video/mpeg"]) ∧
    (ValidateMimeType "application/pdf" = true ↔ determineMediaType "application/pdf" ≠ "") ∧
    ((ProcessUpload sampleDB sampleFiles sampleEnv sampleDocument 7).2.2 =
        .error .unsupportedFileType ↔
      determineMediaType "application/pdf" = "") :=
  C13_media_type_allow_list "application/pdf" sampleDB sampleFiles sampleEnv sampleDocument 7
    (by decide) (by decide)

/-! ## `ProcessUpload`: clean-up -/

theorem removeIgnoringError_locked (fs : FileSystem) (path : String) :
    (removeIgnoringError fs path).locked = fs.locked := by
  unfold removeIgnoringError osRemove
  split_ifs <;> rfl

/-- A removal that the operating system does not refuse leaves no file at the
path. -/
theorem removeIgnoringError_not_mem {fs : FileSystem} {path : String}
    (h : path ∉ fs.locked) : path ∉ (removeIgnoringError fs path).files := by
  unfold removeIgnoringError osRemove
  by_cases hf : path ∈ fs.files
  · simp [hf, h]
  · simp [hf]

/-- A removal creates no file. -/
theorem removeIgnoringError_subset {fs : FileSystem} {path q : String}
    (h : q ∉ fs.files) : q ∉ (removeIgnoringError fs path).files := by
  unfold removeIgnoringError osRemove
  split_ifs
  · exact h
  · intro hq
    exact h (List.mem_filter.1 hq).1
  · exact h

theorem osCreate_locked (fs : FileSystem) (path : String) :
    (osCreate fs path).locked = fs.locked := by
  unfold osCreate
  split_ifs <;> rfl

/-- What `ProcessUpload` does once the blob is written. -/
theorem ProcessUpload_of_blob_written {db : DB} {fs : FileSystem} {env : UploadEnv}
    {file : FileHeader} (userID : Nat)
    (hsize : file.Size ≤ MaxFileSize) (htype : determineMediaType file.ContentType ≠ "")
    (hopen : env.openFails = false) (hcreate : env.createFails = false)
    (hcopy : env.copyFails = false) :
    ProcessUpload db fs env file userID =
      match (if determineMediaType file.ContentType = "image" then
          createThumbnail (osCreate fs (uploadPath env.uniqueName)) env env.uniqueName
        else (osCreate fs (uploadPath env.uniqueName), Except.ok "")) with
      | (fs₂, .error _) =>
        (db, removeIgnoringError fs₂ (uploadPath env.uniqueName), .error .creatingThumbnail)
      | (fs₂, .ok thumbnailPath) =>
        if env.insertFails then
          (db,
            if thumbnailPath ≠ "" then
              removeIgnoringError (removeIgnoringError fs₂ (uploadPath env.uniqueName))
                thumbnailPath
            else removeIgnoringError fs₂ (uploadPath env.uniqueName),
            .error .savingMediaRecord)
        else
          ({ db with media_items := db.media_items ++
              [⟨nextMediaID db, false, env.uniqueName, uploadPath env.uniqueName,
                thumbnailPath, file.Size, file.ContentType,
                determineMediaType file.ContentType, userID, env.metadataJSON⟩] },
            fs₂,
            .ok ⟨nextMediaID db, false, env.uniqueName, uploadPath env.uniqueName,
                thumbnailPath, file.Size, file.ContentType,
                determineMediaType file.ContentType, userID, env.metadataJSON⟩) := by
  have hsize' : ¬ file.Size > MaxFileSize := by omega
  unfold ProcessUpload
  rw [if_neg hsize']
  simp only [htype, hopen, hcreate, hcopy, if_false, Bool.false_eq_true]

/-- The thumbnail step fails exactly when the image is not decoded or the save
fails; its files then have the locks of before and at most one file more, the
one at the thumbnail path. -/
theorem createThumbnail_cases (fs : FileSystem) (env : UploadEnv) (filename : String) :
    ((env.imageBounds = none ∨ env.saveFails = true) ∧
      ∃ fs₂, createThumbnail fs env filename = (fs₂, .error .imaging) ∧
        fs₂.locked = fs.locked) ∨
    ((env.imageBounds ≠ none ∧ env.saveFails = false) ∧
      createThumbnail fs env filename =
        (osCreate fs (thumbnailPathOf filename), .ok (thumbnailPathOf filename))) := by
  unfold createThumbnail
  cases hb : env.imageBounds with
  | none => exact Or.inl ⟨Or.inl rfl, fs, rfl, rfl⟩
  | some b =>
    cases hs : env.saveFails with
    | true =>
      refine Or.inl ⟨Or.inr rfl,
        if env.saveLeavesFile then osCreate fs (thumbnailPathOf filename) else fs, by simp, ?_⟩
      split_ifs
      · exact osCreate_locked _ _
      · rfl
    | false => exact Or.inr ⟨⟨by simp, rfl⟩, by simp⟩

/-- C12, amended: for every upload that passes the size and type validation
and whose blob was written (open, create and copy succeed): if the thumbnail
derivation of an image fails, `ProcessUpload` returns "error creating
thumbnail", the database is the one of before and, unless the operating system
refuses to remove it, no file is left at the blob path; if the thumbnail step
goes through and the insert fails, `ProcessUpload` returns "error saving media
record", the database is the one of before and, unless the operating system
refuses the removal, no file is left at the blob path nor, for an image, at
the thumbnail path. -/
theorem C12_failed_upload_cleans_up (db : DB) (fs : FileSystem) (env : UploadEnv)
    (file : FileHeader) (userID : Nat)
    (hsize : file.Size ≤ MaxFileSize) (htype : determineMediaType file.ContentType ≠ "")
    (hopen : env.openFails = false) (hcreate : env.createFails = false)
    (hcopy : env.copyFails = false) :
    (determineMediaType file.ContentType = "image" →
      (env.imageBounds = none ∨ env.saveFails = true) →
      (ProcessUpload db fs env file userID).2.2 = .error .creatingThumbnail ∧
      (ProcessUpload db fs env file userID).1 = db ∧
      (uploadPath env.uniqueName ∉ fs.locked →
        uploadPath env.uniqueName ∉ (ProcessUpload db fs env file userID).2.1.files)) ∧
    ((determineMediaType file.ContentType = "image" →
        env.imageBounds ≠ none ∧ env.saveFails = false) →
      env.insertFails = true →
      (ProcessUpload db fs env file userID).2.2 = .error .savingMediaRecord ∧
      (ProcessUpload db fs env file userID).1 = db ∧
      (uploadPath env.uniqueName ∉ fs.locked →
        uploadPath env.uniqueName ∉ (ProcessUpload db fs env file userID).2.1.files) ∧
      (determineMediaType file.ContentType = "image" →
        thumbnailPathOf env.uniqueName ∉ fs.locked →
        thumbnailPathOf env.uniqueName ∉ (ProcessUpload db fs env file userID).2.1.files)) := by
  rw [ProcessUpload_of_blob_written userID hsize htype hopen hcreate hcopy]
  have hblob₁ : uploadPath env.uniqueName ∉ fs.locked → uploadPath env.uniqueName ∉
      (osCreate fs (uploadPath env.uniqueName)).locked := by
    intro hblob
    rw [osCreate_locked]; exact hblob
  constructor
  · intro himage hfail
    rw [if_pos himage]
    rcases createThumbnail_cases (osCreate fs (uploadPath env.uniqueName)) env env.uniqueName
      with ⟨_, fs₂, hth, hlock⟩ | ⟨hok, _⟩
    · rw [hth]
      refine ⟨rfl, rfl, fun hblob => ?_⟩
      exact removeIgnoringError_not_mem (by rw [hlock]; exact hblob₁ hblob)
    · rcases hfail with h | h
      · exact absurd h hok.1
      · rw [hok.2] at h; exact absurd h (by simp)
  · intro hthumb hinsert
    by_cases himage : determineMediaType file.ContentType = "image"
    · rw [if_pos himage]
      rcases createThumbnail_cases (osCreate fs (uploadPath env.uniqueName)) env
        env.uniqueName with ⟨hfail, _⟩ | ⟨_, hth⟩
      · rcases hfail with h | h
        · exact absurd h (hthumb himage).1
        · rw [(hthumb himage).2] at h; exact absurd h (by simp)
      · rw [hth]
        have hne : thumbnailPathOf env.uniqueName ≠ "" := by
          unfold thumbnailPathOf
          intro h
          have := congrArg String.length h
          simp at this
          exact absurd this.1 (by decide)
        simp only [hinsert, if_true, hne, ne_eq, not_false_eq_true]
        refine ⟨by trivial, by trivial, fun hblob => ?_, fun _ hpreview => ?_⟩
        · apply removeIgnoringError_subset
          exact removeIgnoringError_not_mem (by rw [osCreate_locked]; exact hblob₁ hblob)
        · exact removeIgnoringError_not_mem (by
            rw [removeIgnoringError_locked, osCreate_locked, osCreate_locked]
            exact hpreview)
    · rw [if_neg himage]
      simp only [hinsert, if_true, ne_eq, not_true_eq_false, if_false]
      exact ⟨by trivial, by trivial, fun hblob => removeIgnoringError_not_mem (hblob₁ hblob),
        fun h => absurd h himage⟩

/-- C12 at the sample upload: once with an image that cannot be decoded, once
with a failing insert; neither leaves a file or a record. -/
theorem C12_failed_upload_cleans_up_witness :
    ((ProcessUpload sampleDB sampleFiles sampleEnvNoDecode sampleImage 7).2.2 =
        .error .creatingThumbnail ∧
      (ProcessUpload sampleDB sampleFiles sampleEnvNoDecode sampleImage 7).1 = sampleDB ∧
      uploadPath sampleEnvNoDecode.uniqueName ∉
        (ProcessUpload sampleDB sampleFiles sampleEnvNoDecode sampleImage 7).2.1.files) ∧
    ((ProcessUpload sampleDB sampleFiles sampleEnvNoInsert sampleImage 7).2.2 =
        .error .savingMediaRecord ∧
      (ProcessUpload sampleDB sampleFiles sampleEnvNoInsert sampleImage 7).1 = sampleDB ∧
      uploadPath sampleEnvNoInsert.uniqueName ∉
        (ProcessUpload sampleDB sampleFiles sampleEnvNoInsert sampleImage 7).2.1.files ∧
      thumbnailPathOf sampleEnvNoInsert.uniqueName ∉
        (ProcessUpload sampleDB sampleFiles sampleEnvNoInsert sampleImage 7).2.1.files) :=
  ⟨⟨((C12_failed_upload_cleans_up sampleDB sampleFiles sampleEnvNoDecode sampleImage 7
        (by decide) (by decide) rfl rfl rfl).1 (by decide) (Or.inl rfl)).1,
      ((C12_failed_upload_cleans_up sampleDB sampleFiles sampleEnvNoDecode sampleImage 7
        (by decide) (by decide) rfl rfl rfl).1 (by decide) (Or.inl rfl)).2.1,
      ((C12_failed_upload_cleans_up sampleDB sampleFiles sampleEnvNoDecode sampleImage 7
        (by decide) (by decide) rfl rfl rfl).1 (by decide) (Or.inl rfl)).2.2 (by decide)⟩,
    ⟨((C12_failed_upload_cleans_up sampleDB sampleFiles sampleEnvNoInsert sampleImage 7
        (by decide) (by decide) rfl rfl rfl).2 (fun _ => ⟨by decide, rfl⟩) rfl).1,
      ((C12_failed_upload_cleans_up sampleDB sampleFiles sampleEnvNoInsert sampleImage 7
        (by decide) (by decide) rfl rfl rfl).2 (fun _ => ⟨by decide, rfl⟩) rfl).2.1,
      ((C12_failed_upload_cleans_up sampleDB sampleFiles sampleEnvNoInsert sampleImage 7
        (by decide) (by decide) rfl rfl rfl).2 (fun _ => ⟨by decide, rfl⟩) rfl).2.2.1
        (by decide),
      ((C12_failed_upload_cleans_up sampleDB sampleFiles sampleEnvNoInsert sampleImage 7
        (by decide) (by decide) rfl rfl rfl).2 (fun _ => ⟨by decide, rfl⟩) rfl).2.2.2
        (by decide) (by decide)⟩⟩

/-- C12, counterexample: `ProcessUpload` drops the result of `os.Remove`.  With
the removal of the blob refused and an image that cannot be decoded, the upload
fails with "error creating thumbnail" and the blob written in this attempt is
still there; with the removal of the preview refused and a failing insert, the
upload fails with "error saving media record" and the preview written in this
attempt is still there. -/
theorem C12_refused_removal_leaves_file_counterexample :
    (ProcessUpload sampleDB sampleFilesBlobLocked sampleEnvNoDecode sampleImage 7).2.2 =
      .error .creatingThumbnail ∧
    uploadPath sampleEnvNoDecode.uniqueName ∉ sampleFilesBlobLocked.files ∧
    uploadPath sampleEnvNoDecode.uniqueName ∈
      (ProcessUpload sampleDB sampleFilesBlobLocked sampleEnvNoDecode sampleImage 7).2.1.files ∧
    (ProcessUpload sampleDB sampleFilesPreviewLocked sampleEnvNoInsert sampleImage 7).2.2 =
      .error .savingMediaRecord ∧
    thumbnailPathOf sampleEnvNoInsert.uniqueName ∉ sampleFilesPreviewLocked.files ∧
    thumbnailPathOf sampleEnvNoInsert.uniqueName ∈
      (ProcessUpload sampleDB sampleFilesPreviewLocked sampleEnvNoInsert sampleImage
        7).2.1.files :=
  ⟨rfl, by decide, by decide, rfl, by decide, by decide⟩

/-! ## `createThumbnail`: dimensions in exact arithmetic -/

theorem thumbnailSizeExact_wide {w h : Int} (hh : 0 < h) (hlt : h < w) :
    thumbnailSizeExact w h = (300, ⌊((300 : ℚ) * (h : ℚ)) / (w : ℚ)⌋) := by
  have hhq : (0 : ℚ) < (h : ℚ) := by exact_mod_cast hh
  have hwq : (0 : ℚ) < (w : ℚ) := by exact_mod_cast (lt_trans hh hlt)
  have hratio : (1 : ℚ) < (w : ℚ) / (h : ℚ) := by
    rw [one_lt_div hhq]; exact_mod_cast hlt
  unfold thumbnailSizeExact
  simp only [gt_iff_lt, hratio, if_true, ThumbnailWidth]
  have hval : ((300 : ℤ) : ℚ) / ((w : ℚ) / (h : ℚ)) = ((300 : ℚ) * (h : ℚ)) / (w : ℚ) := by
    push_cast
    field_simp
  have hnonneg : (0 : ℚ) ≤ ((300 : ℚ) * (h : ℚ)) / (w : ℚ) := by positivity
  rw [hval]
  unfold truncate
  rw [if_pos hnonneg]

theorem thumbnailSizeExact_tall {w h : Int} (hw : 0 < w) (hle : w ≤ h) :
    thumbnailSizeExact w h = (⌊((300 : ℚ) * (w : ℚ)) / (h : ℚ)⌋, 300) := by
  have hwq : (0 : ℚ) < (w : ℚ) := by exact_mod_cast hw
  have hhq : (0 : ℚ) < (h : ℚ) := by exact_mod_cast (lt_of_lt_of_le hw hle)
  have hratio : ¬ (1 : ℚ) < (w : ℚ) / (h : ℚ) := by
    rw [one_lt_div hhq, not_lt]; exact_mod_cast hle
  unfold thumbnailSizeExact
  simp only [gt_iff_lt, hratio, if_false, ThumbnailHeight]
  have hval : ((300 : ℤ) : ℚ) * ((w : ℚ) / (h : ℚ)) = ((300 : ℚ) * (w : ℚ)) / (h : ℚ) := by
    push_cast
    field_simp
  have hnonneg : (0 : ℚ) ≤ ((300 : ℚ) * (w : ℚ)) / (h : ℚ) := by positivity
  rw [hval]
  unfold truncate
  rw [if_pos hnonneg]

/-- The floor of `300 * a / b` for `0 < a ≤ b`: at most 300, and within one unit
of `b` of the exact quotient. -/
theorem floor_scaled {a b : Int} (hb : 0 < b) (hab : a ≤ b) :
    ⌊((300 : ℚ) * (a : ℚ)) / (b : ℚ)⌋ ≤ 300 ∧
    300 * a - b < ⌊((300 : ℚ) * (a : ℚ)) / (b : ℚ)⌋ * b ∧
    ⌊((300 : ℚ) * (a : ℚ)) / (b : ℚ)⌋ * b ≤ 300 * a := by
  have hbq : (0 : ℚ) < (b : ℚ) := by exact_mod_cast hb
  have h1 := Int.floor_le (((300 : ℚ) * (a : ℚ)) / (b : ℚ))
  have h2 := Int.lt_floor_add_one (((300 : ℚ) * (a : ℚ)) / (b : ℚ))
  rw [le_div_iff₀ hbq] at h1
  rw [div_lt_iff₀ hbq] at h2
  have h1' : ⌊((300 : ℚ) * (a : ℚ)) / (b : ℚ)⌋ * b ≤ 300 * a := by exact_mod_cast h1
  have h2' : 300 * a < (⌊((300 : ℚ) * (a : ℚ)) / (b : ℚ)⌋ + 1) * b := by exact_mod_cast h2
  refine ⟨?_, ?_, h1'⟩
  · by_contra hgt
    have : 301 ≤ ⌊((300 : ℚ) * (a : ℚ)) / (b : ℚ)⌋ := by omega
    nlinarith
  · nlinarith

/-- Under exact arithmetic the formula holds: for a source image of width
`w > 0` and height `h > 0` the dimensions are at most 300 each, the side of the
larger source side is 300 and the other side is the floor of
`300 * min(w,h) / max(w,h)`. -/
theorem thumbnailSizeExact_dimensions (w h : Int) (hw : 0 < w) (hh : 0 < h) :
    (thumbnailSizeExact w h).1 ≤ 300 ∧ (thumbnailSizeExact w h).2 ≤ 300 ∧
    (h ≤ w → (thumbnailSizeExact w h).1 = 300 ∧
      (thumbnailSizeExact w h).2 = ⌊((300 : ℚ) * ((min w h : ℤ) : ℚ)) / ((max w h : ℤ) : ℚ)⌋ ∧
      300 * h - w < (thumbnailSizeExact w h).2 * w ∧ (thumbnailSizeExact w h).2 * w ≤ 300 * h) ∧
    (w ≤ h → (thumbnailSizeExact w h).2 = 300 ∧
      (thumbnailSizeExact w h).1 = ⌊((300 : ℚ) * ((min w h : ℤ) : ℚ)) / ((max w h : ℤ) : ℚ)⌋ ∧
      300 * w - h < (thumbnailSizeExact w h).1 * h ∧ (thumbnailSizeExact w h).1 * h ≤ 300 * w) := by
  rcases lt_or_le h w with hlt | hle
  · rw [thumbnailSizeExact_wide hh hlt]
    have hf := floor_scaled hw (le_of_lt hlt)
    refine ⟨le_refl _, hf.1, fun _ => ?_, fun hle => absurd hlt (not_lt.2 hle)⟩
    rw [min_eq_right (le_of_lt hlt), max_eq_left (le_of_lt hlt)]
    exact ⟨rfl, rfl, hf.2.1, hf.2.2⟩
  · rw [thumbnailSizeExact_tall hw hle]
    have hf := floor_scaled hh hle
    refine ⟨hf.1, le_refl _, fun hge => ?_, fun _ => ?_⟩
    · have heq : w = h := le_antisymm hle hge
      subst heq
      have hwq : ((w : ℤ) : ℚ) ≠ 0 := by exact_mod_cast (ne_of_gt hw)
      have hval : ((300 : ℚ) * (w : ℚ)) / (w : ℚ) = ((300 : ℤ) : ℚ) := by
        field_simp
      simp only [min_self, max_self, hval, Int.floor_intCast]
      refine ⟨by trivial, by trivial, ?_, le_refl _⟩
      omega
    · rw [min_eq_left hle, max_eq_right hle]
      exact ⟨rfl, rfl, hf.2.1, hf.2.2⟩

/-! ## `createThumbnail`: dimensions in `float64` -/

theorem log2Aux_spec (fuel : ℕ) : ∀ n : ℕ, 0 < n → n ≤ fuel →
    2 ^ log2Aux fuel n ≤ n ∧ n < 2 ^ (log2Aux fuel n + 1) := by
  induction fuel with
  | zero => intro n hn hle; omega
  | succ fuel ih =>
    intro n hn hle
    unfold log2Aux
    split_ifs with h
    · have := ih (n / 2) (by omega) (by omega)
      have h1 : 2 ^ (log2Aux fuel (n / 2) + 1) = 2 * 2 ^ log2Aux fuel (n / 2) := by ring
      have h2 : 2 ^ (log2Aux fuel (n / 2) + 1 + 1) = 2 * 2 ^ (log2Aux fuel (n / 2) + 1) := by
        ring
      rw [h2, h1]
      rw [h1] at this
      omega
    · have : n = 1 := by omega
      subst this
      simp

theorem log2_spec (n : ℕ) (hn : 0 < n) : 2 ^ log2 n ≤ n ∧ n < 2 ^ (log2 n + 1) :=
  log2Aux_spec n n hn (le_refl n)

theorem two_zpow_eq (k : ℤ) :
    (2 : ℚ) ^ k = ((2 ^ k.toNat : ℕ) : ℚ) / ((2 ^ (-k).toNat : ℕ) : ℚ) := by
  rcases le_total 0 k with h | h
  · obtain ⟨j, rfl⟩ := Int.eq_ofNat_of_zero_le h
    have h2 : (-(j : ℤ)).toNat = 0 := by omega
    simp [h2]
  · obtain ⟨j, hj⟩ := Int.eq_ofNat_of_zero_le (neg_nonneg.2 h)
    have hk : k = -(j : ℤ) := by omega
    subst hk
    have h2 : (-(j : ℤ)).toNat = 0 := by omega
    simp [h2]

theorem roundHalfEven_nat (n d : ℕ) (hd : 0 < d) :
    2 * (roundHalfEven n d * d) ≤ 2 * n + d ∧ 2 * n ≤ 2 * (roundHalfEven n d * d) + d := by
  have hdiv : d * (n / d) + n % d = n := Nat.div_add_mod n d
  have hmod : n % d < d := Nat.mod_lt n hd
  have h1 : n / d * d = d * (n / d) := Nat.mul_comm _ _
  have h2 : (n / d + 1) * d = d * (n / d) + d := by ring
  unfold roundHalfEven
  split_ifs <;> (try rw [h1]) <;> (try rw [h2]) <;> omega

theorem roundHalfEven_spec (n d : ℕ) (hd : 0 < d) :
    |(roundHalfEven n d : ℚ) - (n : ℚ) / (d : ℚ)| ≤ 1 / 2 := by
  have h := roundHalfEven_nat n d hd
  have hdq : (0 : ℚ) < (d : ℚ) := by exact_mod_cast hd
  have h1 : (2 : ℚ) * ((roundHalfEven n d : ℚ) * d) ≤ 2 * n + d := by exact_mod_cast h.1
  have h2 : (2 : ℚ) * n ≤ 2 * ((roundHalfEven n d : ℚ) * d) + d := by exact_mod_cast h.2
  have hle : (n : ℚ) / (d : ℚ) ≤ (roundHalfEven n d : ℚ) + 1 / 2 := by
    rw [div_le_iff₀ hdq]; nlinarith
  have hge : (roundHalfEven n d : ℚ) - 1 / 2 ≤ (n : ℚ) / (d : ℚ) := by
    rw [le_div_iff₀ hdq]; nlinarith
  rw [abs_le]
  constructor <;> linarith

theorem floorLog2_spec (n d : ℕ) (hn : 0 < n) (hd : 0 < d) :
    (2 : ℚ) ^ (floorLog2 n d) ≤ (n : ℚ) / (d : ℚ) ∧
    (n : ℚ) / (d : ℚ) < (2 : ℚ) ^ (floorLog2 n d + 1) := by
  have hdq : (0 : ℚ) < (d : ℚ) := by exact_mod_cast hd
  have hnq : (0 : ℚ) < (n : ℚ) := by exact_mod_cast hn
  have hL1 : ((2 : ℚ) ^ (log2 n : ℤ)) ≤ (n : ℚ) := by
    rw [zpow_natCast]; exact_mod_cast (log2_spec n hn).1
  have hL2 : (n : ℚ) < (2 : ℚ) ^ ((log2 n : ℤ) + 1) := by
    have : n < 2 ^ (log2 n + 1) := (log2_spec n hn).2
    have h : (n : ℚ) < (2 : ℚ) ^ (log2 n + 1) := by exact_mod_cast this
    rw [show ((log2 n : ℤ) + 1) = ((log2 n + 1 : ℕ) : ℤ) by push_cast; rfl, zpow_natCast]
    exact h
  have hM1 : ((2 : ℚ) ^ (log2 d : ℤ)) ≤ (d : ℚ) := by
    rw [zpow_natCast]; exact_mod_cast (log2_spec d hd).1
  have hM2 : (d : ℚ) < (2 : ℚ) ^ ((log2 d : ℤ) + 1) := by
    have : d < 2 ^ (log2 d + 1) := (log2_spec d hd).2
    have h : (d : ℚ) < (2 : ℚ) ^ (log2 d + 1) := by exact_mod_cast this
    rw [show ((log2 d : ℤ) + 1) = ((log2 d + 1 : ℕ) : ℤ) by push_cast; rfl, zpow_natCast]
    exact h
  have h2 : (0 : ℚ) < 2 := by norm_num
  have h2ne : (2 : ℚ) ≠ 0 := by norm_num
  have hpos : ∀ k : ℤ, (0 : ℚ) < (2 : ℚ) ^ k := fun k => zpow_pos h2 k
  -- the quotient lies strictly between 2 ^ (k - 1) and 2 ^ (k + 1)
  have hlow : (2 : ℚ) ^ ((log2 n : ℤ) - (log2 d : ℤ) - 1) < (n : ℚ) / (d : ℚ) := by
    rw [lt_div_iff₀ hdq]
    calc (2 : ℚ) ^ ((log2 n : ℤ) - (log2 d : ℤ) - 1) * (d : ℚ)
        < (2 : ℚ) ^ ((log2 n : ℤ) - (log2 d : ℤ) - 1) * (2 : ℚ) ^ ((log2 d : ℤ) + 1) :=
          mul_lt_mul_of_pos_left hM2 (hpos _)
      _ = (2 : ℚ) ^ (log2 n : ℤ) := by
          rw [← zpow_add₀ h2ne]; congr 1; ring
      _ ≤ (n : ℚ) := hL1
  have hupp : (n : ℚ) / (d : ℚ) < (2 : ℚ) ^ ((log2 n : ℤ) - (log2 d : ℤ) + 1) := by
    rw [div_lt_iff₀ hdq]
    calc (n : ℚ) < (2 : ℚ) ^ ((log2 n : ℤ) + 1) := hL2
      _ = (2 : ℚ) ^ ((log2 n : ℤ) - (log2 d : ℤ) + 1) * (2 : ℚ) ^ (log2 d : ℤ) := by
          rw [← zpow_add₀ h2ne]; congr 1; ring
      _ ≤ (2 : ℚ) ^ ((log2 n : ℤ) - (log2 d : ℤ) + 1) * (d : ℚ) :=
          mul_le_mul_of_nonneg_left hM1 (le_of_lt (hpos _))
  -- the test of the definition
  have htest : ∀ k : ℤ, (d * 2 ^ k.toNat ≤ n * 2 ^ (-k).toNat) ↔
      (2 : ℚ) ^ k ≤ (n : ℚ) / (d : ℚ) := by
    intro k
    have hp : (0 : ℚ) < ((2 ^ (-k).toNat : ℕ) : ℚ) := by positivity
    rw [two_zpow_eq k, div_le_div_iff₀ hp hdq]
    constructor
    · intro h
      have : ((d * 2 ^ k.toNat : ℕ) : ℚ) ≤ ((n * 2 ^ (-k).toNat : ℕ) : ℚ) := by exact_mod_cast h
      push_cast at this ⊢
      linarith
    · intro h
      have : ((d * 2 ^ k.toNat : ℕ) : ℚ) ≤ ((n * 2 ^ (-k).toNat : ℕ) : ℚ) := by
        push_cast at h ⊢
        linarith
      exact_mod_cast this
  unfold floorLog2
  simp only []
  split_ifs with h
  · exact ⟨(htest _).1 h, hupp⟩
  · refine ⟨le_of_lt hlow, ?_⟩
    rw [sub_add_cancel]
    exact lt_of_not_le (fun hle => h ((htest _).2 hle))

theorem log2_le_of_le (m k : ℕ) (h : m ≤ 2 ^ k) : log2 m ≤ k := by
  rcases Nat.eq_zero_or_pos m with h0 | hpos
  · subst h0
    simp [log2, log2Aux]
  · have h1 := (log2_spec m hpos).1
    by_contra hgt
    have hlt : 2 ^ k < 2 ^ log2 m := Nat.pow_lt_pow_right (by norm_num) (by omega)
    omega

theorem roundFloat64_spec (n d : ℕ) (hn : 0 < n) (hd : 0 < d)
    (hlo : (2 : ℚ) ^ (-1022 : ℤ) ≤ (n : ℚ) / (d : ℚ)) (hhi : (n : ℚ) / (d : ℚ) < 2 ^ 52) :
    RoundsTo (roundFloat64 false n d) ((n : ℚ) / (d : ℚ)) := by
  obtain ⟨hE1, hE2⟩ := floorLog2_spec n d hn hd
  have h12 : (1 : ℚ) < 2 := by norm_num
  have h2ne : (2 : ℚ) ≠ 0 := by norm_num
  have hElo : -1022 < floorLog2 n d + 1 :=
    (zpow_lt_zpow_iff_right₀ h12).1 (lt_of_le_of_lt hlo hE2)
  have hEhi : floorLog2 n d < 52 := by
    have : (2 : ℚ) ^ (floorLog2 n d) < (2 : ℚ) ^ (52 : ℤ) := by
      refine lt_of_le_of_lt hE1 ?_
      rw [show ((52 : ℤ)) = ((52 : ℕ) : ℤ) by rfl, zpow_natCast]
      exact hhi
    exact (zpow_lt_zpow_iff_right₀ h12).1 this
  obtain ⟨c, hc⟩ := Int.eq_ofNat_of_zero_le (show 0 ≤ 52 - floorLog2 n d by omega)
  have hcpos : 0 < c := by omega
  have hmax : max (floorLog2 n d - 52) (-1074) = -(c : ℤ) := by
    rw [max_eq_left (by omega)]; omega
  have hpow : (2 : ℚ) ^ c = 2 ^ 52 / (2 : ℚ) ^ (floorLog2 n d) := by
    rw [← zpow_natCast, ← hc, zpow_sub₀ h2ne]
    norm_cast
  have hEpos : (0 : ℚ) < (2 : ℚ) ^ (floorLog2 n d) := zpow_pos (by norm_num) _
  have hb1 : (2 : ℚ) ^ 52 ≤ (n : ℚ) / (d : ℚ) * 2 ^ c := by
    rw [hpow, ← mul_div_assoc, le_div_iff₀ hEpos]
    nlinarith
  have hb2 : (n : ℚ) / (d : ℚ) * 2 ^ c < 2 ^ 53 := by
    rw [hpow, ← mul_div_assoc, div_lt_iff₀ hEpos]
    rw [zpow_add_one₀ h2ne] at hE2
    nlinarith
  have hr := roundHalfEven_spec (n * 2 ^ c) d hd
  have hcast : ((n * 2 ^ c : ℕ) : ℚ) / (d : ℚ) = (n : ℚ) / (d : ℚ) * 2 ^ c := by
    push_cast; ring
  rw [hcast] at hr
  have hm : roundHalfEven (n * 2 ^ c) d ≤ 2 ^ 53 := by
    have h1 := (abs_le.1 hr).2
    have h2 : (roundHalfEven (n * 2 ^ c) d : ℚ) < 2 ^ 53 + 1 := by linarith
    have h3 : roundHalfEven (n * 2 ^ c) d < 2 ^ 53 + 1 := by exact_mod_cast h2
    omega
  have hlog := log2_le_of_le _ 53 hm
  refine ⟨roundHalfEven (n * 2 ^ c) d, c, ?_, hcpos, hb1, hb2, hr⟩
  unfold roundFloat64
  rw [if_neg (Nat.pos_iff_ne_zero.1 hn)]
  simp only [hmax, neg_neg, Int.toNat_ofNat, Int.toNat_neg_nat, pow_zero, mul_one]
  rw [if_neg (by omega)]

theorem ratio_shift (m m' : ℕ) (e e' : ℤ) :
    ((m * 2 ^ (e - e').toNat : ℕ) : ℚ) / ((m' * 2 ^ (e' - e).toNat : ℕ) : ℚ) =
      ((m : ℚ) * (2 : ℚ) ^ e) / ((m' : ℚ) * (2 : ℚ) ^ e') := by
  have h2ne : (2 : ℚ) ≠ 0 := by norm_num
  have h := two_zpow_eq (e - e')
  rw [show -(e - e') = e' - e by ring, zpow_sub₀ h2ne] at h
  have hp1 : ((2 ^ (e' - e).toNat : ℕ) : ℚ) ≠ 0 := by positivity
  have hp2 : (2 : ℚ) ^ e' ≠ 0 := zpow_ne_zero _ h2ne
  rw [div_eq_div_iff hp2 hp1] at h
  push_cast at h ⊢
  rcases Nat.eq_zero_or_pos m' with h0 | hpos
  · subst h0; simp
  · have hm' : (m' : ℚ) ≠ 0 := by exact_mod_cast hpos.ne'
    have hp1' : (2 : ℚ) ^ (e' - e).toNat ≠ 0 := by positivity
    rw [div_eq_div_iff (mul_ne_zero hm' hp1') (mul_ne_zero hm' hp2)]
    linear_combination (-(m : ℚ) * m') * h

theorem prod_shift (n : ℕ) (e : ℤ) :
    ((n * 2 ^ e.toNat : ℕ) : ℚ) / ((2 ^ (-e).toNat : ℕ) : ℚ) = (n : ℚ) * (2 : ℚ) ^ e := by
  rw [two_zpow_eq e]
  push_cast
  ring

theorem float64_ofInt_spec (i : ℕ) (hi : 0 < i) (hi2 : i < 2 ^ 52) :
    ∃ c : ℕ, Float64.ofInt (i : ℤ) = .finite false (i * 2 ^ c) (-(c : ℤ)) := by
  have hiq : (1 : ℚ) ≤ (i : ℚ) := by exact_mod_cast hi
  have hlo : (2 : ℚ) ^ (-1022 : ℤ) ≤ ((i : ℕ) : ℚ) / ((1 : ℕ) : ℚ) := by
    have : (2 : ℚ) ^ (-1022 : ℤ) ≤ 1 := zpow_le_one_of_nonpos₀ (by norm_num) (by norm_num)
    simp only [Nat.cast_one, div_one]
    linarith
  have hhi : ((i : ℕ) : ℚ) / ((1 : ℕ) : ℚ) < 2 ^ 52 := by
    simp only [Nat.cast_one, div_one]
    exact_mod_cast hi2
  obtain ⟨m, c, heq, _, _, _, hr⟩ := roundFloat64_spec i 1 hi Nat.one_pos hlo hhi
  refine ⟨c, ?_⟩
  have hm : m = i * 2 ^ c := by
    simp only [Nat.cast_one, div_one] at hr
    have h1 := abs_le.1 hr
    have h2 : ((m : ℤ) : ℚ) - ((i * 2 ^ c : ℕ) : ℤ) < 1 := by push_cast; linarith [h1.2]
    have h3 : (-1 : ℚ) < ((m : ℤ) : ℚ) - ((i * 2 ^ c : ℕ) : ℤ) := by push_cast; linarith [h1.1]
    have h2' : (m : ℤ) - ((i * 2 ^ c : ℕ) : ℤ) < 1 := by exact_mod_cast h2
    have h3' : -1 < (m : ℤ) - ((i * 2 ^ c : ℕ) : ℤ) := by exact_mod_cast h3
    omega
  unfold Float64.ofInt
  have hneg : decide ((i : ℤ) < 0) = false := by
    simp
  rw [hneg, Int.natAbs_ofNat, heq, hm]

theorem float64_div_spec (m m' c c' : ℕ) (hm : 0 < m) (hm' : 0 < m')
    (hlo : (2 : ℚ) ^ (-1022 : ℤ) ≤ ((m : ℚ) / 2 ^ c) / ((m' : ℚ) / 2 ^ c'))
    (hhi : ((m : ℚ) / 2 ^ c) / ((m' : ℚ) / 2 ^ c') < 2 ^ 52) :
    RoundsTo (Float64.div (.finite false m (-(c : ℤ))) (.finite false m' (-(c' : ℤ))))
      (((m : ℚ) / 2 ^ c) / ((m' : ℚ) / 2 ^ c')) := by
  have hval : ((m * 2 ^ (-(c : ℤ) - -(c' : ℤ)).toNat : ℕ) : ℚ) /
      ((m' * 2 ^ (-(c' : ℤ) - -(c : ℤ)).toNat : ℕ) : ℚ) =
      ((m : ℚ) / 2 ^ c) / ((m' : ℚ) / 2 ^ c') := by
    rw [ratio_shift, zpow_neg, zpow_neg, zpow_natCast, zpow_natCast]
    rfl
  have := roundFloat64_spec (m * 2 ^ (-(c : ℤ) - -(c' : ℤ)).toNat)
    (m' * 2 ^ (-(c' : ℤ) - -(c : ℤ)).toNat) (by positivity) (by positivity)
    (by rw [hval]; exact hlo) (by rw [hval]; exact hhi)
  rw [hval] at this
  have hdiv : Float64.div (.finite false m (-(c : ℤ))) (.finite false m' (-(c' : ℤ))) =
      roundFloat64 false (m * 2 ^ (-(c : ℤ) - -(c' : ℤ)).toNat)
        (m' * 2 ^ (-(c' : ℤ) - -(c : ℤ)).toNat) := by
    simp only [Float64.div]
    rw [if_neg (Nat.pos_iff_ne_zero.1 hm')]
    rfl
  rw [hdiv]
  exact this

theorem float64_mul_spec (m m' c c' : ℕ) (hm : 0 < m) (hm' : 0 < m')
    (hlo : (2 : ℚ) ^ (-1022 : ℤ) ≤ ((m : ℚ) / 2 ^ c) * ((m' : ℚ) / 2 ^ c'))
    (hhi : ((m : ℚ) / 2 ^ c) * ((m' : ℚ) / 2 ^ c') < 2 ^ 52) :
    RoundsTo (Float64.mul (.finite false m (-(c : ℤ))) (.finite false m' (-(c' : ℤ))))
      (((m : ℚ) / 2 ^ c) * ((m' : ℚ) / 2 ^ c')) := by
  have h2ne : (2 : ℚ) ≠ 0 := by norm_num
  have hval : ((m * m' * 2 ^ (-(c : ℤ) + -(c' : ℤ)).toNat : ℕ) : ℚ) /
      ((2 ^ (-(-(c : ℤ) + -(c' : ℤ))).toNat : ℕ) : ℚ) =
      ((m : ℚ) / 2 ^ c) * ((m' : ℚ) / 2 ^ c') := by
    rw [prod_shift, zpow_add₀ h2ne, zpow_neg, zpow_neg, zpow_natCast, zpow_natCast]
    push_cast
    ring
  have := roundFloat64_spec (m * m' * 2 ^ (-(c : ℤ) + -(c' : ℤ)).toNat)
    (2 ^ (-(-(c : ℤ) + -(c' : ℤ))).toNat) (by positivity) (by positivity)
    (by rw [hval]; exact hlo) (by rw [hval]; exact hhi)
  rw [hval] at this
  have hmul : Float64.mul (.finite false m (-(c : ℤ))) (.finite false m' (-(c' : ℤ))) =
      roundFloat64 false (m * m' * 2 ^ (-(c : ℤ) + -(c' : ℤ)).toNat)
        (2 ^ (-(-(c : ℤ) + -(c' : ℤ))).toNat) := by
    simp only [Float64.mul]
    rfl
  rw [hmul]
  exact this

theorem float64_gt_one_iff (m c : ℕ) :
    Float64.gt (.finite false m (-(c : ℤ))) (.finite false 4503599627370496 (-52)) = true ↔
      (2 : ℚ) ^ c < (m : ℚ) := by
  unfold Float64.gt signed
  simp only [Bool.false_eq_true, if_false, decide_eq_true_eq]
  have h52 : ((4503599627370496 : ℕ) : ℤ) = 2 ^ 52 := by norm_num
  rw [h52]
  have key : ((2 : ℤ) ^ 52 * 2 ^ (-52 - -(c : ℤ)).toNat < (m : ℤ) * 2 ^ (-(c : ℤ) - -52).toNat) ↔
      (2 : ℤ) ^ c < (m : ℤ) := by
    rcases le_total c 52 with hle | hle
    · have h1 : (-52 - -(c : ℤ)).toNat = 0 := by omega
      have h2 : (-(c : ℤ) - -52).toNat = 52 - c := by omega
      rw [h1, h2, pow_zero, mul_one]
      have h3 : (2 : ℤ) ^ 52 = 2 ^ c * 2 ^ (52 - c) := by
        rw [← pow_add]; congr 1; omega
      rw [h3]
      exact mul_lt_mul_right (by positivity)
    · have h1 : (-52 - -(c : ℤ)).toNat = c - 52 := by omega
      have h2 : (-(c : ℤ) - -52).toNat = 0 := by omega
      rw [h1, h2, pow_zero, mul_one, ← pow_add]
      rw [show 52 + (c - 52) = c by omega]
  rw [key]
  constructor
  · intro h; exact_mod_cast h
  · intro h; exact_mod_cast h

theorem float64_toInt_spec (m c : ℕ) (hm : m ≤ 2 ^ 53) :
    Float64.toInt (.finite false m (-(c : ℤ))) = some ((m / 2 ^ c : ℕ) : ℤ) := by
  have h1 : m / 2 ^ c ≤ m := Nat.div_le_self _ _
  unfold Float64.toInt signed
  simp only [Bool.false_eq_true, if_false, Int.toNat_neg_nat, neg_neg, Int.toNat_ofNat,
    pow_zero, mul_one]
  rw [if_pos]
  constructor
  · have : (0 : ℤ) ≤ ((m / 2 ^ c : ℕ) : ℤ) := Int.ofNat_nonneg _
    omega
  · have : ((m / 2 ^ c : ℕ) : ℤ) ≤ ((2 ^ 53 : ℕ) : ℤ) := by exact_mod_cast le_trans h1 hm
    norm_num at this ⊢
    omega

theorem mant_le {m c : ℕ} {x : ℚ} (h2 : x * 2 ^ c < 2 ^ 53)
    (h3 : |(m : ℚ) - x * 2 ^ c| ≤ 1 / 2) : m ≤ 2 ^ 53 := by
  have h1 := (abs_le.1 h3).2
  have h4 : (m : ℚ) < 2 ^ 53 + 1 := by linarith
  have h5 : m < 2 ^ 53 + 1 := by exact_mod_cast h4
  omega

theorem mant_pos {m c : ℕ} {x : ℚ} (h1 : (2 : ℚ) ^ 52 ≤ x * 2 ^ c)
    (h3 : |(m : ℚ) - x * 2 ^ c| ≤ 1 / 2) : 0 < m := by
  have h := (abs_le.1 h3).1
  have h4 : (0 : ℚ) < (m : ℚ) := by
    have : (1 : ℚ) ≤ 2 ^ 52 := by norm_num
    linarith
  exact_mod_cast h4

theorem mant_rel {m c : ℕ} {x : ℚ} (h1 : (2 : ℚ) ^ 52 ≤ x * 2 ^ c)
    (h3 : |(m : ℚ) - x * 2 ^ c| ≤ 1 / 2) :
    x * (1 - 1 / 2 ^ 53) ≤ (m : ℚ) / 2 ^ c ∧ (m : ℚ) / 2 ^ c ≤ x * (1 + 1 / 2 ^ 53) := by
  have hP : (0 : ℚ) < 2 ^ c := by positivity
  have h := abs_le.1 h3
  have e1 : x * (1 - 1 / 2 ^ 53) * 2 ^ c = x * 2 ^ c - x * 2 ^ c / 2 ^ 53 := by ring
  have e2 : x * (1 + 1 / 2 ^ 53) * 2 ^ c = x * 2 ^ c + x * 2 ^ c / 2 ^ 53 := by ring
  have h5 : (1 : ℚ) / 2 ≤ x * 2 ^ c / 2 ^ 53 := by
    rw [le_div_iff₀ (by positivity)]
    norm_num at h1 ⊢
    linarith
  constructor
  · rw [le_div_iff₀ hP, e1]; linarith [h.1]
  · rw [div_le_iff₀ hP, e2]; linarith [h.2]

/-- A mantissa within half a unit of the natural number `k * 2 ^ c` is that
number. -/
theorem mant_exact {m c : ℕ} (k : ℕ) (h3 : |(m : ℚ) - (k : ℚ) * 2 ^ c| ≤ 1 / 2) :
    m = k * 2 ^ c := by
  have h1 := abs_le.1 h3
  have h2 : ((m : ℤ) : ℚ) - ((k * 2 ^ c : ℕ) : ℤ) < 1 := by push_cast; linarith [h1.2]
  have h3 : (-1 : ℚ) < ((m : ℤ) : ℚ) - ((k * 2 ^ c : ℕ) : ℤ) := by push_cast; linarith [h1.1]
  have h2' : (m : ℤ) - ((k * 2 ^ c : ℕ) : ℤ) < 1 := by exact_mod_cast h2
  have h3' : -1 < (m : ℤ) - ((k * 2 ^ c : ℕ) : ℤ) := by exact_mod_cast h3
  omega

theorem nat_div_window (m c : ℕ) :
    ((m / 2 ^ c : ℕ) : ℚ) ≤ (m : ℚ) / 2 ^ c ∧ (m : ℚ) / 2 ^ c < ((m / 2 ^ c : ℕ) : ℚ) + 1 := by
  have hP : (0 : ℚ) < 2 ^ c := by positivity
  have hdiv : 2 ^ c * (m / 2 ^ c) + m % 2 ^ c = m := Nat.div_add_mod m (2 ^ c)
  have hmod : m % 2 ^ c < 2 ^ c := Nat.mod_lt m (by positivity)
  have hdivq : (2 : ℚ) ^ c * ((m / 2 ^ c : ℕ) : ℚ) + ((m % 2 ^ c : ℕ) : ℚ) = (m : ℚ) := by
    exact_mod_cast hdiv
  have hmodq : ((m % 2 ^ c : ℕ) : ℚ) < (2 : ℚ) ^ c := by exact_mod_cast hmod
  have hmod0 : (0 : ℚ) ≤ ((m % 2 ^ c : ℕ) : ℚ) := Nat.cast_nonneg _
  constructor
  · rw [le_div_iff₀ hP]; linarith
  · rw [div_lt_iff₀ hP]; linarith

/-- A value `v` within the relative error `3 / 2 ^ 53` of `300 * a / b` has the
integer part `300 * a / b`, or one less when `b` divides `300 * a`. -/
theorem floor_window (a b s : ℕ) (v : ℚ) (hb : 0 < b) (hsmall : 900 * a < 2 ^ 53)
    (hs1 : (s : ℚ) ≤ v) (hs2 : v < (s : ℚ) + 1)
    (hv1 : (300 : ℚ) * a * (1 - 3 / 2 ^ 53) ≤ v * b)
    (hv2 : v * b ≤ (300 : ℚ) * a * (1 + 3 / 2 ^ 53)) :
    s ≤ 300 * a / b ∧ 300 * a / b ≤ s + 1 ∧ (¬ b ∣ 300 * a → s = 300 * a / b) := by
  have hbq : (0 : ℚ) < (b : ℚ) := by exact_mod_cast hb
  have hdiv : b * (300 * a / b) + 300 * a % b = 300 * a := Nat.div_add_mod _ _
  have hmod : 300 * a % b < b := Nat.mod_lt _ hb
  have hdivq : (b : ℚ) * ((300 * a / b : ℕ) : ℚ) + ((300 * a % b : ℕ) : ℚ) = 300 * (a : ℚ) := by
    exact_mod_cast hdiv
  have hmodq : ((300 * a % b : ℕ) : ℚ) + 1 ≤ (b : ℚ) := by exact_mod_cast hmod
  have hmod0 : (0 : ℚ) ≤ ((300 * a % b : ℕ) : ℚ) := Nat.cast_nonneg _
  have hsm : (900 : ℚ) * a / 2 ^ 53 < 1 := by
    rw [div_lt_iff₀ (by positivity)]
    have : ((900 * a : ℕ) : ℚ) < ((2 ^ 53 : ℕ) : ℚ) := by exact_mod_cast hsmall
    push_cast at this
    linarith
  have e1 : (300 : ℚ) * a * (1 - 3 / 2 ^ 53) = 300 * a - 900 * a / 2 ^ 53 := by ring
  have e2 : (300 : ℚ) * a * (1 + 3 / 2 ^ 53) = 300 * a + 900 * a / 2 ^ 53 := by ring
  rw [e1] at hv1
  rw [e2] at hv2
  refine ⟨?_, ?_, ?_⟩
  · by_contra hgt
    have h1 : 300 * a / b + 1 ≤ s := by omega
    have h2 : ((300 * a / b : ℕ) : ℚ) + 1 ≤ (s : ℚ) := by exact_mod_cast h1
    have h3 : (((300 * a / b : ℕ) : ℚ) + 1) * b ≤ v * b :=
      mul_le_mul_of_nonneg_right (le_trans h2 hs1) (le_of_lt hbq)
    nlinarith
  · by_contra hgt
    have h1 : s + 2 ≤ 300 * a / b := by omega
    have h2 : (s : ℚ) + 2 ≤ ((300 * a / b : ℕ) : ℚ) := by exact_mod_cast h1
    have h3 : v * b ≤ (((300 * a / b : ℕ) : ℚ) - 1) * b :=
      mul_le_mul_of_nonneg_right (by linarith) (le_of_lt hbq)
    nlinarith
  · intro hnd
    have hR : 0 < 300 * a % b := by
      rcases Nat.eq_zero_or_pos (300 * a % b) with h0 | hpos
      · exact absurd (Nat.dvd_of_mod_eq_zero h0) hnd
      · exact hpos
    have hRq : (1 : ℚ) ≤ ((300 * a % b : ℕ) : ℚ) := by exact_mod_cast hR
    have hle : s ≤ 300 * a / b := by
      by_contra hgt
      have h1 : 300 * a / b + 1 ≤ s := by omega
      have h2 : ((300 * a / b : ℕ) : ℚ) + 1 ≤ (s : ℚ) := by exact_mod_cast h1
      have h3 : (((300 * a / b : ℕ) : ℚ) + 1) * b ≤ v * b :=
        mul_le_mul_of_nonneg_right (le_trans h2 hs1) (le_of_lt hbq)
      nlinarith
    by_contra hne
    have h1 : s + 1 ≤ 300 * a / b := by omega
    have h2 : (s : ℚ) + 1 ≤ ((300 * a / b : ℕ) : ℚ) := by exact_mod_cast h1
    have h3 : v * b ≤ ((300 * a / b : ℕ) : ℚ) * b :=
      mul_le_mul_of_nonneg_right (by linarith) (le_of_lt hbq)
    nlinarith

/-- The quotient `float64(w) / float64(h)` of two dimensions up to `2 ^ 43`. -/
theorem ratio_spec (w h : ℕ) (hw : 0 < w) (hh : 0 < h) (hwB : w ≤ 2 ^ 43) (hhB : h ≤ 2 ^ 43) :
    ∃ m c : ℕ, Float64.div (Float64.ofInt (w : ℤ)) (Float64.ofInt (h : ℤ)) =
        .finite false m (-(c : ℤ)) ∧
      (2 : ℚ) ^ 52 ≤ (w : ℚ) / h * 2 ^ c ∧ (w : ℚ) / h * 2 ^ c < 2 ^ 53 ∧
      |(m : ℚ) - (w : ℚ) / h * 2 ^ c| ≤ 1 / 2 := by
  obtain ⟨a, ha⟩ := float64_ofInt_spec w hw (lt_of_le_of_lt hwB (by norm_num))
  obtain ⟨b, hb⟩ := float64_ofInt_spec h hh (lt_of_le_of_lt hhB (by norm_num))
  have hwq : (1 : ℚ) ≤ (w : ℚ) := by exact_mod_cast hw
  have hhq : (1 : ℚ) ≤ (h : ℚ) := by exact_mod_cast hh
  have hwBq : (w : ℚ) ≤ 2 ^ 43 := by exact_mod_cast hwB
  have hhBq : (h : ℚ) ≤ 2 ^ 43 := by exact_mod_cast hhB
  have hx : ((w * 2 ^ a : ℕ) : ℚ) / 2 ^ a / (((h * 2 ^ b : ℕ) : ℚ) / 2 ^ b) = (w : ℚ) / h := by
    push_cast
    field_simp
  have hlo : (2 : ℚ) ^ (-1022 : ℤ) ≤ (w : ℚ) / h := by
    have h1 : (2 : ℚ) ^ (-1022 : ℤ) ≤ (2 : ℚ) ^ (-43 : ℤ) :=
      zpow_le_zpow_right₀ (by norm_num) (by norm_num)
    have h2 : (2 : ℚ) ^ (-43 : ℤ) = 1 / 2 ^ 43 := by
      rw [zpow_neg]; norm_num
    rw [h2] at h1
    refine le_trans h1 ?_
    rw [div_le_div_iff₀ (by positivity) (by linarith)]
    nlinarith
  have hhi : (w : ℚ) / h < 2 ^ 52 := by
    rw [div_lt_iff₀ (by linarith)]
    have : (2 : ℚ) ^ 43 < 2 ^ 52 := by norm_num
    nlinarith
  obtain ⟨m, c, heq, _, h1, h2, h3⟩ := float64_div_spec (w * 2 ^ a) (h * 2 ^ b) a b
    (by positivity) (by positivity) (by rw [hx]; exact hlo) (by rw [hx]; exact hhi)
  rw [hx] at h1 h2 h3
  exact ⟨m, c, by rw [ha, hb, heq], h1, h2, h3⟩

theorem window_div (x r v H W u : ℚ) (hH : 0 < H) (hx : x * H = W)
    (hu0 : 0 ≤ u) (hu1 : u ≤ 1 / 3) (hr : 0 < r)
    (hr1 : x * (1 - u) ≤ r) (hr2 : r ≤ x * (1 + u))
    (hv1 : 300 / r * (1 - u) ≤ v) (hv2 : v ≤ 300 / r * (1 + u)) :
    300 * H * (1 - 3 * u) ≤ v * W ∧ v * W ≤ 300 * H * (1 + 3 * u) := by
  have hvr1 : 300 * (1 - u) ≤ v * r := by
    have := mul_le_mul_of_nonneg_right hv1 (le_of_lt hr)
    have e : 300 / r * (1 - u) * r = 300 * (1 - u) := by field_simp
    rw [e] at this; exact this
  have hvr2 : v * r ≤ 300 * (1 + u) := by
    have := mul_le_mul_of_nonneg_right hv2 (le_of_lt hr)
    have e : 300 / r * (1 + u) * r = 300 * (1 + u) := by field_simp
    rw [e] at this; exact this
  have hv0 : 0 ≤ v := by
    have : 0 ≤ 300 / r * (1 - u) := by
      apply mul_nonneg (le_of_lt (div_pos (by norm_num) hr))
      linarith
    linarith
  have ha : v * (x * (1 - u)) ≤ v * r := mul_le_mul_of_nonneg_left hr1 hv0
  have hb : v * r ≤ v * (x * (1 + u)) := mul_le_mul_of_nonneg_left hr2 hv0
  have ha' : v * W * (1 - u) ≤ 300 * H * (1 + u) := by
    have := mul_le_mul_of_nonneg_right (le_trans ha hvr2) (le_of_lt hH)
    rw [← hx]
    nlinarith
  have hb' : 300 * H * (1 - u) ≤ v * W * (1 + u) := by
    have := mul_le_mul_of_nonneg_right (le_trans hvr1 hb) (le_of_lt hH)
    rw [← hx]
    nlinarith
  have hu2 : 0 ≤ u * (1 - 3 * u) := mul_nonneg hu0 (by linarith)
  have hu3 : 0 ≤ u * u := mul_nonneg hu0 hu0
  constructor
  · by_contra hneg
    push_neg at hneg
    have h1 : v * W * (1 + u) < 300 * H * (1 - 3 * u) * (1 + u) :=
      mul_lt_mul_of_pos_right hneg (by linarith)
    nlinarith
  · by_contra hneg
    push_neg at hneg
    have h1 : 300 * H * (1 + 3 * u) * (1 - u) < v * W * (1 - u) :=
      mul_lt_mul_of_pos_right hneg (by linarith)
    nlinarith

theorem window_mul (x r v H W u : ℚ) (hH : 0 < H) (hW : 0 ≤ W) (hx : x * H = W)
    (hu0 : 0 ≤ u) (hu1 : u ≤ 1 / 3)
    (hr1 : x * (1 - u) ≤ r) (hr2 : r ≤ x * (1 + u))
    (hv1 : 300 * r * (1 - u) ≤ v) (hv2 : v ≤ 300 * r * (1 + u)) :
    300 * W * (1 - 3 * u) ≤ v * H ∧ v * H ≤ 300 * W * (1 + 3 * u) := by
  have h1u : 0 ≤ 1 - u := by linarith
  have h1u' : 0 ≤ 1 + u := by linarith
  have ha : 300 * (x * (1 - u)) * (1 - u) ≤ v :=
    le_trans (mul_le_mul_of_nonneg_right (mul_le_mul_of_nonneg_left hr1 (by norm_num)) h1u) hv1
  have hb : v ≤ 300 * (x * (1 + u)) * (1 + u) :=
    le_trans hv2 (mul_le_mul_of_nonneg_right (mul_le_mul_of_nonneg_left hr2 (by norm_num)) h1u')
  have ha' := mul_le_mul_of_nonneg_right ha (le_of_lt hH)
  have hb' := mul_le_mul_of_nonneg_right hb (le_of_lt hH)
  have e1 : 300 * (x * (1 - u)) * (1 - u) * H = 300 * W * ((1 - u) * (1 - u)) := by
    rw [← hx]; ring
  have e2 : 300 * (x * (1 + u)) * (1 + u) * H = 300 * W * ((1 + u) * (1 + u)) := by
    rw [← hx]; ring
  rw [e1] at ha'
  rw [e2] at hb'
  have hu3 : 0 ≤ u * u := mul_nonneg hu0 hu0
  have hW300 : 0 ≤ 300 * W := by linarith
  constructor
  · refine le_trans (mul_le_mul_of_nonneg_left ?_ hW300) ha'
    nlinarith
  · refine le_trans hb' (mul_le_mul_of_nonneg_left ?_ hW300)
    nlinarith

theorem ofInt_one : Float64.ofInt 1 = .finite false 4503599627370496 (-52) := by decide

theorem ofInt_width :
    Float64.ofInt ThumbnailWidth = .finite false 5277655813324800 (-((44 : ℕ) : ℤ)) := by
  decide

theorem ofInt_height :
    Float64.ofInt ThumbnailHeight = .finite false 5277655813324800 (-((44 : ℕ) : ℤ)) := by
  decide

theorem thumbnailSize_wide (w h : ℕ) (hh : 0 < h) (hlt : h < w) (hwB : w ≤ 2 ^ 43) :
    ∃ s : ℕ, thumbnailSize (w : ℤ) (h : ℤ) = some (300, (s : ℤ)) ∧
      s ≤ 300 * h / w ∧ 300 * h / w ≤ s + 1 ∧ (¬ w ∣ 300 * h → s = 300 * h / w) := by
  have hw : 0 < w := by omega
  have hhB : h ≤ 2 ^ 43 := by omega
  obtain ⟨m, c, hratio, h1, h2, h3⟩ := ratio_spec w h hw hh hwB hhB
  have hhq : (0 : ℚ) < (h : ℚ) := by exact_mod_cast hh
  have hwq : (0 : ℚ) < (w : ℚ) := by exact_mod_cast hw
  have hltq : (h : ℚ) + 1 ≤ (w : ℚ) := by exact_mod_cast hlt
  have hwBq : (w : ℚ) ≤ 2 ^ 43 := by exact_mod_cast hwB
  have hhBq : (h : ℚ) ≤ 2 ^ 43 := by exact_mod_cast hhB
  have hP : (0 : ℚ) < 2 ^ c := by positivity
  have hXh : (w : ℚ) / h * 2 ^ c * h = w * 2 ^ c := by field_simp
  have hP512 : 512 * (h : ℚ) ≤ 2 ^ c := by
    have e1 : (2 : ℚ) ^ 52 * h ≤ w * 2 ^ c := by
      rw [← hXh]; exact mul_le_mul_of_nonneg_right h1 (le_of_lt hhq)
    have e2 : (w : ℚ) * 2 ^ c ≤ 2 ^ 43 * 2 ^ c := mul_le_mul_of_nonneg_right hwBq (le_of_lt hP)
    have e3 : (2 : ℚ) ^ 52 = 512 * 2 ^ 43 := by norm_num
    have e4 : (0 : ℚ) < 2 ^ 43 := by norm_num
    rw [e3] at e1
    have e5 : (2 : ℚ) ^ 43 * (512 * h) ≤ 2 ^ 43 * 2 ^ c := by linarith
    exact le_of_mul_le_mul_left e5 e4
  have hX : (2 : ℚ) ^ c + 512 ≤ (w : ℚ) / h * 2 ^ c := by
    have e1 : ((h : ℚ) + 1) * 2 ^ c ≤ w * 2 ^ c := mul_le_mul_of_nonneg_right hltq (le_of_lt hP)
    by_contra hneg
    push_neg at hneg
    have e2 := mul_lt_mul_of_pos_right hneg hhq
    rw [hXh] at e2
    nlinarith
  have hgt : (2 : ℚ) ^ c < (m : ℚ) := by linarith [(abs_le.1 h3).1]
  have hmle := mant_le h2 h3
  have hmpos := mant_pos h1 h3
  have hmq : (0 : ℚ) < (m : ℚ) := by exact_mod_cast hmpos
  have hmleq : (m : ℚ) ≤ 2 ^ 53 := by exact_mod_cast hmle
  have hrel := mant_rel h1 h3
  have hr : (0 : ℚ) < (m : ℚ) / 2 ^ c := div_pos hmq hP
  have hr1 : (1 : ℚ) < (m : ℚ) / 2 ^ c := by rw [lt_div_iff₀ hP]; linarith
  have hrle : (m : ℚ) / 2 ^ c ≤ 2 ^ 53 := by
    rw [div_le_iff₀ hP]
    have : (1 : ℚ) ≤ 2 ^ c := one_le_pow₀ (by norm_num)
    nlinarith
  have h300 : ((5277655813324800 : ℕ) : ℚ) / 2 ^ 44 = 300 := by norm_num
  have hlo2 : (2 : ℚ) ^ (-1022 : ℤ) ≤
      ((5277655813324800 : ℕ) : ℚ) / 2 ^ 44 / ((m : ℚ) / 2 ^ c) := by
    rw [h300]
    have e1 : (2 : ℚ) ^ (-1022 : ℤ) ≤ (2 : ℚ) ^ (-53 : ℤ) :=
      zpow_le_zpow_right₀ (by norm_num) (by norm_num)
    have e2 : (2 : ℚ) ^ (-53 : ℤ) = 1 / 2 ^ 53 := by
      rw [zpow_neg]; norm_num
    rw [e2] at e1
    refine le_trans e1 ?_
    rw [div_le_div_iff₀ (by positivity) hr]
    linarith
  have hhi2 : ((5277655813324800 : ℕ) : ℚ) / 2 ^ 44 / ((m : ℚ) / 2 ^ c) < 2 ^ 52 := by
    rw [h300, div_lt_iff₀ hr]
    have : (300 : ℚ) < 2 ^ 52 := by norm_num
    nlinarith
  obtain ⟨m2, c2, heq2, _, k1, k2, k3⟩ := float64_div_spec 5277655813324800 m 44 c
    (by norm_num) hmpos hlo2 hhi2
  rw [h300] at k1 k2 k3
  have hrel2 := mant_rel k1 k3
  have hwin := nat_div_window m2 c2
  have hm2 := mant_le k2 k3
  have hbounds := window_div ((w : ℚ) / h) ((m : ℚ) / 2 ^ c) ((m2 : ℚ) / 2 ^ c2) h w
    (1 / 2 ^ 53) hhq (by field_simp) (by positivity) (by norm_num) hr hrel.1 hrel.2
    hrel2.1 hrel2.2
  have e3 : (3 : ℚ) * (1 / 2 ^ 53) = 3 / 2 ^ 53 := by ring
  rw [e3] at hbounds
  refine ⟨m2 / 2 ^ c2, ?_, floor_window h w (m2 / 2 ^ c2) ((m2 : ℚ) / 2 ^ c2) hw
    (by omega) hwin.1 hwin.2 hbounds.1 hbounds.2⟩
  unfold thumbnailSize
  simp only [hratio, ofInt_one, (float64_gt_one_iff m c).2 hgt, if_true, ofInt_width, heq2,
    float64_toInt_spec m2 c2 hm2, Option.map_some']
  rfl

/-- For `w ≤ h` the quotient is at most one and the product `300 * ratio` is
rounded. -/
theorem ratio_le_one (w h : ℕ) (hw : 0 < w) (hle : w ≤ h) (hhB : h ≤ 2 ^ 43) :
    ∃ m c m2 c2 : ℕ,
      Float64.div (Float64.ofInt (w : ℤ)) (Float64.ofInt (h : ℤ)) =
        .finite false m (-(c : ℤ)) ∧
      ¬ (2 : ℚ) ^ c < (m : ℚ) ∧
      (2 : ℚ) ^ 52 ≤ (w : ℚ) / h * 2 ^ c ∧ |(m : ℚ) - (w : ℚ) / h * 2 ^ c| ≤ 1 / 2 ∧
      Float64.mul (.finite false 5277655813324800 (-((44 : ℕ) : ℤ)))
        (.finite false m (-(c : ℤ))) = .finite false m2 (-(c2 : ℤ)) ∧
      (2 : ℚ) ^ 52 ≤ 300 * ((m : ℚ) / 2 ^ c) * 2 ^ c2 ∧
      300 * ((m : ℚ) / 2 ^ c) * 2 ^ c2 < 2 ^ 53 ∧
      |(m2 : ℚ) - 300 * ((m : ℚ) / 2 ^ c) * 2 ^ c2| ≤ 1 / 2 := by
  have hh : 0 < h := by omega
  have hwB : w ≤ 2 ^ 43 := by omega
  obtain ⟨m, c, hratio, h1, h2, h3⟩ := ratio_spec w h hw hh hwB hhB
  have hhq : (0 : ℚ) < (h : ℚ) := by exact_mod_cast hh
  have hwq : (1 : ℚ) ≤ (w : ℚ) := by exact_mod_cast hw
  have hleq : (w : ℚ) ≤ (h : ℚ) := by exact_mod_cast hle
  have hhBq : (h : ℚ) ≤ 2 ^ 43 := by exact_mod_cast hhB
  have hP : (0 : ℚ) < 2 ^ c := by positivity
  have hx1 : (w : ℚ) / h ≤ 1 := by rw [div_le_one hhq]; exact hleq
  have hX : (w : ℚ) / h * 2 ^ c ≤ 2 ^ c := by
    have := mul_le_mul_of_nonneg_right hx1 (le_of_lt hP)
    rw [one_mul] at this; exact this
  have hmnat : m ≤ 2 ^ c := by
    have e1 : (m : ℚ) < ((2 ^ c : ℕ) : ℚ) + 1 := by
      push_cast; linarith [(abs_le.1 h3).2]
    have e2 : m < 2 ^ c + 1 := by exact_mod_cast e1
    omega
  have hmP : (m : ℚ) ≤ 2 ^ c := by exact_mod_cast hmnat
  have hmpos := mant_pos h1 h3
  have hmq : (0 : ℚ) < (m : ℚ) := by exact_mod_cast hmpos
  have hrel := mant_rel h1 h3
  have hr : (0 : ℚ) < (m : ℚ) / 2 ^ c := div_pos hmq hP
  have hrle : (m : ℚ) / 2 ^ c ≤ 1 := by rw [div_le_one hP]; exact hmP
  have hrlo : (1 : ℚ) / 2 ^ 44 ≤ (m : ℚ) / 2 ^ c := by
    refine le_trans ?_ hrel.1
    have e1 : (1 : ℚ) / 2 ^ 43 ≤ (w : ℚ) / h := by
      rw [div_le_div_iff₀ (by positivity) hhq]
      nlinarith
    have e2 : (1 : ℚ) / 2 ≤ 1 - 1 / 2 ^ 53 := by norm_num
    have e3 : (1 : ℚ) / 2 ^ 44 = 1 / 2 ^ 43 * (1 / 2) := by norm_num
    rw [e3]
    exact mul_le_mul e1 e2 (by norm_num) (le_trans (by positivity) e1)
  have h300 : ((5277655813324800 : ℕ) : ℚ) / 2 ^ 44 = 300 := by norm_num
  have hlo2 : (2 : ℚ) ^ (-1022 : ℤ) ≤
      ((5277655813324800 : ℕ) : ℚ) / 2 ^ 44 * ((m : ℚ) / 2 ^ c) := by
    rw [h300]
    have e1 : (2 : ℚ) ^ (-1022 : ℤ) ≤ (2 : ℚ) ^ (-44 : ℤ) :=
      zpow_le_zpow_right₀ (by norm_num) (by norm_num)
    have e2 : (2 : ℚ) ^ (-44 : ℤ) = 1 / 2 ^ 44 := by
      rw [zpow_neg]; norm_num
    rw [e2] at e1
    linarith
  have hhi2 : ((5277655813324800 : ℕ) : ℚ) / 2 ^ 44 * ((m : ℚ) / 2 ^ c) < 2 ^ 52 := by
    rw [h300]
    have : (300 : ℚ) < 2 ^ 52 := by norm_num
    linarith
  obtain ⟨m2, c2, heq2, _, k1, k2, k3⟩ := float64_mul_spec 5277655813324800 m 44 c
    (by norm_num) hmpos hlo2 hhi2
  rw [h300] at k1 k2 k3
  exact ⟨m, c, m2, c2, hratio, not_lt.2 hmP, h1, h3, heq2, k1, k2, k3⟩

theorem thumbnailSize_of_le (w h m c m2 c2 : ℕ)
    (hratio : Float64.div (Float64.ofInt (w : ℤ)) (Float64.ofInt (h : ℤ)) =
        .finite false m (-(c : ℤ)))
    (hgt : ¬ (2 : ℚ) ^ c < (m : ℚ))
    (heq2 : Float64.mul (.finite false 5277655813324800 (-((44 : ℕ) : ℤ)))
        (.finite false m (-(c : ℤ))) = .finite false m2 (-(c2 : ℤ)))
    (hm2 : m2 ≤ 2 ^ 53) :
    thumbnailSize (w : ℤ) (h : ℤ) = some (((m2 / 2 ^ c2 : ℕ) : ℤ), 300) := by
  have hgt' : Float64.gt (.finite false m (-(c : ℤ)))
      (.finite false 4503599627370496 (-52)) = false := by
    rw [← Bool.not_eq_true, float64_gt_one_iff]; exact hgt
  unfold thumbnailSize
  simp only [hratio, ofInt_one, hgt', Bool.false_eq_true, if_false, ofInt_height, heq2,
    float64_toInt_spec m2 c2 hm2, Option.map_some']
  rfl

theorem thumbnailSize_tall (w h : ℕ) (hw : 0 < w) (hlt : w < h) (hhB : h ≤ 2 ^ 43) :
    ∃ s : ℕ, thumbnailSize (w : ℤ) (h : ℤ) = some ((s : ℤ), 300) ∧
      s ≤ 300 * w / h ∧ 300 * w / h ≤ s + 1 ∧ (¬ h ∣ 300 * w → s = 300 * w / h) := by
  obtain ⟨m, c, m2, c2, hratio, hgt, h1, h3, heq2, k1, k2, k3⟩ :=
    ratio_le_one w h hw (le_of_lt hlt) hhB
  have hh : 0 < h := by omega
  have hhq : (0 : ℚ) < (h : ℚ) := by exact_mod_cast hh
  have hrel := mant_rel h1 h3
  have hrel2 := mant_rel k1 k3
  have hwin := nat_div_window m2 c2
  have hm2 := mant_le k2 k3
  have hbounds := window_mul ((w : ℚ) / h) ((m : ℚ) / 2 ^ c) ((m2 : ℚ) / 2 ^ c2) h w
    (1 / 2 ^ 53) hhq (Nat.cast_nonneg _) (by field_simp) (by positivity) (by norm_num)
    hrel.1 hrel.2 hrel2.1 hrel2.2
  have e3 : (3 : ℚ) * (1 / 2 ^ 53) = 3 / 2 ^ 53 := by ring
  rw [e3] at hbounds
  exact ⟨m2 / 2 ^ c2, thumbnailSize_of_le w h m c m2 c2 hratio hgt heq2 hm2,
    floor_window w h (m2 / 2 ^ c2) ((m2 : ℚ) / 2 ^ c2) hh (by omega) hwin.1 hwin.2
      hbounds.1 hbounds.2⟩

theorem thumbnailSize_square (w : ℕ) (hw : 0 < w) (hwB : w ≤ 2 ^ 43) :
    thumbnailSize (w : ℤ) (w : ℤ) = some (300, 300) := by
  obtain ⟨m, c, m2, c2, hratio, hgt, h1, h3, heq2, k1, k2, k3⟩ :=
    ratio_le_one w w hw (le_refl w) hwB
  have hwq : (w : ℚ) ≠ 0 := by exact_mod_cast hw.ne'
  have hP : (2 : ℚ) ^ c ≠ 0 := by positivity
  rw [div_self hwq] at h3
  have hm : m = 1 * 2 ^ c := mant_exact 1 (by push_cast; exact h3)
  rw [one_mul] at hm
  have hr : (m : ℚ) / 2 ^ c = 1 := by
    rw [hm]; push_cast; exact div_self hP
  rw [hr, mul_one] at k3 k2
  have hm2 : m2 = 300 * 2 ^ c2 := mant_exact 300 (by push_cast; exact k3)
  have hle := mant_le k2 k3
  have hs : m2 / 2 ^ c2 = 300 := by
    rw [hm2]; exact Nat.mul_div_cancel _ (by positivity)
  have := thumbnailSize_of_le w w m c m2 c2 hratio hgt heq2 hle
  rw [hs] at this
  exact this

theorem window_consequences (a b s : ℕ) (hb : 0 < b) (h1 : s ≤ 300 * a / b)
    (h2 : 300 * a / b ≤ s + 1) (h3 : ¬ b ∣ 300 * a → s = 300 * a / b) :
    300 * a ≤ s * b + b ∧ s * b ≤ 300 * a := by
  have hdiv : b * (300 * a / b) + 300 * a % b = 300 * a := Nat.div_add_mod _ _
  have hmod : 300 * a % b < b := Nat.mod_lt _ hb
  have hle : s * b ≤ 300 * a / b * b := Nat.mul_le_mul_right b h1
  have hcomm : 300 * a / b * b = b * (300 * a / b) := Nat.mul_comm _ _
  refine ⟨?_, by omega⟩
  rcases Nat.eq_zero_or_pos (300 * a % b) with h0 | hpos
  · have hge : 300 * a / b * b ≤ (s + 1) * b := Nat.mul_le_mul_right b h2
    have e : (s + 1) * b = s * b + b := by ring
    omega
  · have hnd : ¬ b ∣ 300 * a := fun hd => by
      have := Nat.mod_eq_zero_of_dvd hd
      omega
    have hs := h3 hnd
    rw [hs]
    omega

set_option maxRecDepth 4000 in
/-- The dimensions at a source image of 11 by 15 pixels. -/
theorem thumbnailSize_at_11_15 : thumbnailSize 11 15 = some (219, 300) := by decide

/-- C14, amended: for every source image of width `w` and height `h` with
`0 < w, h ≤ 2 ^ 43`, `createThumbnail` computes dimensions (no conversion is
left to the implementation) that are at most 300 each; the side of the larger
source side is 300 (both sides for `w = h`); the other side is the integer
quotient `300 * min(w,h) / max(w,h)` or one less, and it is that quotient
whenever `max(w,h)` does not divide `300 * min(w,h)`; so it is at most one
pixel below the exact scaled side and never above it. -/
theorem C14_thumbnail_dimensions (w h : Int) (hw : 0 < w) (hh : 0 < h)
    (hwB : w ≤ 2 ^ 43) (hhB : h ≤ 2 ^ 43) :
    ∃ width height : Int, thumbnailSize w h = some (width, height) ∧
      width ≤ 300 ∧ height ≤ 300 ∧
      (h ≤ w → width = 300 ∧
        height ≤ 300 * h / w ∧ 300 * h / w ≤ height + 1 ∧
        (¬ w ∣ 300 * h → height = 300 * h / w) ∧
        300 * h - w ≤ height * w ∧ height * w ≤ 300 * h) ∧
      (w ≤ h → height = 300 ∧
        width ≤ 300 * w / h ∧ 300 * w / h ≤ width + 1 ∧
        (¬ h ∣ 300 * w → width = 300 * w / h) ∧
        300 * w - h ≤ width * h ∧ width * h ≤ 300 * w) := by
  obtain ⟨w, rfl⟩ := Int.eq_ofNat_of_zero_le (le_of_lt hw)
  obtain ⟨h, rfl⟩ := Int.eq_ofNat_of_zero_le (le_of_lt hh)
  have hw' : 0 < w := by exact_mod_cast hw
  have hh' : 0 < h := by exact_mod_cast hh
  have hwB' : w ≤ 2 ^ 43 := by exact_mod_cast hwB
  have hhB' : h ≤ 2 ^ 43 := by exact_mod_cast hhB
  rcases Nat.lt_trichotomy h w with hlt | heq | hgt
  · obtain ⟨s, hsize, h1, h2, h3⟩ := thumbnailSize_wide w h hh' hlt hwB'
    have hc := window_consequences h w s hw' h1 h2 h3
    have hF : 300 * h / w < 300 := by
      rw [Nat.div_lt_iff_lt_mul hw']; omega
    refine ⟨300, (s : ℤ), hsize, le_refl _, by exact_mod_cast (by omega : s ≤ 300),
      fun _ => ⟨rfl, by exact_mod_cast h1, by exact_mod_cast h2, fun hnd => ?_, ?_, ?_⟩,
      fun hle => absurd hlt (by omega)⟩
    · have hnd' : ¬ w ∣ 300 * h := fun hd => hnd (by exact_mod_cast hd)
      exact_mod_cast h3 hnd'
    · have := hc.1
      have e : ((300 * h : ℕ) : ℤ) ≤ ((s * w + w : ℕ) : ℤ) := by exact_mod_cast this
      push_cast at e
      linarith
    · exact_mod_cast hc.2
  · subst heq
    have hsize := thumbnailSize_square h hh' hhB'
    have hdiv : (300 : ℤ) * (h : ℤ) / (h : ℤ) = 300 :=
      Int.mul_ediv_cancel _ (by exact_mod_cast hh'.ne')
    refine ⟨300, 300, hsize, le_refl _, le_refl _, fun _ => ?_, fun _ => ?_⟩ <;>
    · rw [hdiv]
      refine ⟨rfl, le_refl _, by norm_num, fun _ => rfl, ?_, le_refl _⟩
      linarith
  · obtain ⟨s, hsize, h1, h2, h3⟩ := thumbnailSize_tall w h hw' hgt hhB'
    have hc := window_consequences w h s hh' h1 h2 h3
    have hF : 300 * w / h < 300 := by
      rw [Nat.div_lt_iff_lt_mul hh']; omega
    refine ⟨(s : ℤ), 300, hsize, by exact_mod_cast (by omega : s ≤ 300), le_refl _,
      fun hle => absurd hgt (by omega),
      fun _ => ⟨rfl, by exact_mod_cast h1, by exact_mod_cast h2, fun hnd => ?_, ?_, ?_⟩⟩
    · have hnd' : ¬ h ∣ 300 * w := fun hd => hnd (by exact_mod_cast hd)
      exact_mod_cast h3 hnd'
    · have := hc.1
      have e : ((300 * w : ℕ) : ℤ) ≤ ((s * h + h : ℕ) : ℤ) := by exact_mod_cast this
      push_cast at e
      linarith
    · exact_mod_cast hc.2

/-- C14 at a source image of 1000 by 500 pixels. -/
theorem C14_thumbnail_dimensions_witness :
    ∃ width height : Int, thumbnailSize 1000 500 = some (width, height) ∧
      width ≤ 300 ∧ height ≤ 300 ∧
      ((500 : Int) ≤ 1000 → width = 300 ∧
        height ≤ 300 * 500 / 1000 ∧ 300 * 500 / 1000 ≤ height + 1 ∧
        (¬ (1000 : Int) ∣ 300 * 500 → height = 300 * 500 / 1000) ∧
        300 * 500 - 1000 ≤ height * 1000 ∧ height * 1000 ≤ 300 * 500) ∧
      ((1000 : Int) ≤ 500 → height = 300 ∧
        width ≤ 300 * 1000 / 500 ∧ 300 * 1000 / 500 ≤ width + 1 ∧
        (¬ (500 : Int) ∣ 300 * 1000 → width = 300 * 1000 / 500) ∧
        300 * 1000 - 500 ≤ width * 500 ∧ width * 500 ≤ 300 * 1000) :=
  C14_thumbnail_dimensions 1000 500 (by decide) (by decide) (by decide) (by decide)

/-- C14, counterexample: the quotient and the product are `float64` operations,
each rounded.  At 25 by 17 pixels the code computes the height 203 and at 100
by 17 pixels the height 50, at 11 by 15 pixels the width 219, where the floor
of `300 * min(w,h) / max(w,h)`, which exact arithmetic gives, is 204, 51 and
220. -/
theorem C14_float64_rounding_counterexample :
    thumbnailSize 25 17 = some (300, 203) ∧ (300 * min 25 17 / max 25 17 : Int) = 204 ∧
    thumbnailSizeExact 25 17 = (300, 204) ∧
    thumbnailSize 100 17 = some (300, 50) ∧ (300 * min 100 17 / max 100 17 : Int) = 51 ∧
    thumbnailSize 11 15 = some (219, 300) ∧ (300 * min 11 15 / max 11 15 : Int) = 220 := by
  refine ⟨by decide, by decide, ?_, by decide, by decide, thumbnailSize_at_11_15, by decide⟩
  rw [thumbnailSizeExact_wide (by norm_num) (by norm_num)]
  have hfloor : ⌊((300 : ℚ) * ((17 : ℤ) : ℚ)) / ((25 : ℤ) : ℚ)⌋ = 204 := by
    rw [Int.floor_eq_iff]
    constructor <;> norm_num
  rw [hfloor]

/-! ## `DeleteMediaItem`: a file that cannot be removed -/

/-- At the sample database the thumbnail `t/2` of media item 2 of user 7 exists
and cannot be removed: `DeleteMediaItem(2, 7)` returns "error removing
thumbnail" instead of success, the media item can still be fetched and is
still in album 10. -/
theorem C15_delete_with_locked_file_counterexample :
    GetMediaItem sampleDB 2 7 = .ok (sampleMedia 2 7 false "u/2" "t/2") ∧
    osRemove sampleFiles "t/2" = .failed ∧
    (DeleteMediaItem sampleDB sampleFiles 2 7).2.2 = some .removingThumbnail ∧
    (DeleteMediaItem sampleDB sampleFiles 2 7).1 = sampleDB ∧
    GetMediaItem (DeleteMediaItem sampleDB sampleFiles 2 7).1 2 7 =
      .ok (sampleMedia 2 7 false "u/2" "t/2") ∧
    InAlbum (DeleteMediaItem sampleDB sampleFiles 2 7).1 10 2 :=
  ⟨rfl, rfl, rfl, rfl, rfl, by decide⟩

/-- C15, amended: for every live media row `x` (ids being unique in
`media_items`), when the removal of the blob file fails with an error other
than file-not-found, `DeleteMediaItem` returns "error removing file", and when
the blob is removed or missing and the removal of a preview file fails so, it
returns "error removing thumbnail"; either way the database is the one of
before, the media record and all its membership rows included.  Files that do
not exist are no error: the delete then goes through. -/
theorem C15_delete_aborts_when_removal_fails (db : DB) (fs : FileSystem) (x : MediaItem)
    (hmedia : MediaKeyUnique db) (hx : x ∈ db.media_items) (hlive : x.DeletedAt = false) :
    (osRemove fs x.Path = .failed →
      DeleteMediaItem db fs x.ID x.UserID = (db, fs, some .removingFile)) ∧
    (∀ fs₁, removeUnlessMissing fs x.Path = some fs₁ → x.ThumbnailPath ≠ "" →
      osRemove fs₁ x.ThumbnailPath = .failed →
      DeleteMediaItem db fs x.ID x.UserID = (db, fs₁, some .removingThumbnail)) ∧
    (osRemove fs x.Path = .notExist →
      (x.ThumbnailPath = "" ∨ osRemove fs x.ThumbnailPath = .notExist) →
      DeleteMediaItem db fs x.ID x.UserID =
        (softDeleteMediaItem (deleteMediaRows db x.ID) x, fs, none)) := by
  have hfirst := firstMediaItem_of_mem hmedia hx hlive
  refine ⟨?_, ?_, ?_⟩
  · intro hfail
    have hblob : removeUnlessMissing fs x.Path = none := by
      simp [removeUnlessMissing, hfail]
    unfold DeleteMediaItem deleteMediaItemTx
    simp [hfirst, hblob, Transaction]
  · intro fs₁ hblob hne hfail
    have hthumb : removeUnlessMissing fs₁ x.ThumbnailPath = none := by
      simp [removeUnlessMissing, hfail]
    unfold DeleteMediaItem deleteMediaItemTx
    simp [hfirst, hblob, hne, hthumb, Transaction]
  · intro hblob hthumb
    have hblob' : removeUnlessMissing fs x.Path = some fs := by
      simp [removeUnlessMissing, hblob]
    unfold DeleteMediaItem deleteMediaItemTx
    rcases hthumb with hthumb | hthumb
    · simp [hfirst, hblob', hthumb, Transaction]
    · have hthumb' : removeUnlessMissing fs x.ThumbnailPath = some fs := by
        simp [removeUnlessMissing, hthumb]
      by_cases hne : x.ThumbnailPath = ""
      · simp [hfirst, hblob', hne, Transaction]
      · simp [hfirst, hblob', hne, hthumb', Transaction]

/-- C15, amended, at the sample database: the blob `u/2` is removed, the
thumbnail `t/2` is locked, and the database is left as it was. -/
theorem C15_delete_aborts_when_removal_fails_witness :
    DeleteMediaItem sampleDB sampleFiles 2 7 =
      (sampleDB, { sampleFiles with files := ["u/1", "t/1", "t/2", "u/3", "t/3", "u/4"] },
        some .removingThumbnail) :=
  (C15_delete_aborts_when_removal_fails sampleDB sampleFiles
    (sampleMedia 2 7 false "u/2" "t/2") (by decide) (by decide) (by decide)).2.1
    { sampleFiles with files := ["u/1", "t/1", "t/2", "u/3", "t/3", "u/4"] }
    (by decide) (by decide) (by decide)

/-! ## `CreateAlbum` -/

theorem le_foldl_max (l : List Nat) :
    ∀ (init : Nat), init ≤ l.foldl max init ∧ ∀ x ∈ l, x ≤ l.foldl max init := by
  induction l with
  | nil => intro init; simp
  | cons y ys ih =>
    intro init
    simp only [List.foldl_cons, List.mem_cons, forall_eq_or_imp]
    have h := ih (max init y)
    exact ⟨le_trans (le_max_left _ _) h.1, le_trans (le_max_right _ _) h.1, h.2⟩

/-- The primary key of a new album is above every id in `albums`. -/
theorem lt_nextAlbumID (db : DB) : ∀ a ∈ db.albums, a.ID < nextAlbumID db := by
  intro a ha
  unfold nextAlbumID
  have := (le_foldl_max (db.albums.map (fun a => a.ID)) 0).2 a.ID
    (List.mem_map.2 ⟨a, ha, rfl⟩)
  omega

/-- At the sample database `CreateAlbum("", "no name", 7)` returns no error but
the album 13 with the empty name, and this album is in the database
afterwards. -/
theorem C16_create_album_empty_name_counterexample :
    (CreateAlbum sampleDB "" "no name" 7).2 = .ok ⟨13, false, "", "no name", 7, ""⟩ ∧
    (CreateAlbum sampleDB "" "no name" 7).1.albums =
      sampleDB.albums ++ [⟨13, false, "", "no name", 7, ""⟩] :=
  ⟨rfl, rfl⟩

/-- C16, amended: for every description and owner id, `CreateAlbum("",
description, userID)` returns no error but a live album with the empty name,
the given description and owner, no cover and an id that no row of `albums`
has; afterwards `albums` holds this album after the rows of before, and the
rest of the database is unchanged. -/
theorem C16_create_album_accepts_empty_name (db : DB) (description : String)
    (userID : Nat) :
    ∃ album : Album,
      CreateAlbum db "" description userID =
        ({ db with albums := db.albums ++ [album] }, .ok album) ∧
      album.Name = "" ∧ album.Description = description ∧ album.UserID = userID ∧
      album.DeletedAt = false ∧ album.Cover = "" ∧
      (∀ a ∈ db.albums, a.ID < album.ID) ∧
      OwnsAlbum (CreateAlbum db "" description userID).1 userID album.ID :=
  ⟨⟨nextAlbumID db, false, "", description, userID, ""⟩, rfl, rfl, rfl, rfl, rfl, rfl,
    lt_nextAlbumID db,
    ⟨⟨nextAlbumID db, false, "", description, userID, ""⟩, by simp [CreateAlbum], rfl, rfl,
      rfl⟩⟩

/-! ## `GetMediaItem` and `GetAlbum`: one error for "absent" and "not yours" -/

/-- C17: for every database and user `u`, `GetMediaItem` returns the same error
(`gorm.ErrRecordNotFound`) and no item for an id that no media row has and for
an id whose rows all belong to other users, and `GetAlbum` returns the same
error ("album not found or access denied") and no album for an id that no
album has and for an id whose albums all belong to other users. -/
theorem C17_absent_and_foreign_alike (db : DB) (u mediaAbsent mediaForeign : Nat)
    (albumAbsent albumForeign : Nat)
    (hma : ∀ x ∈ db.media_items, x.ID ≠ mediaAbsent)
    (hmf : ∃ x ∈ db.media_items, x.ID = mediaForeign)
    (hmo : ∀ x ∈ db.media_items, x.ID = mediaForeign → x.UserID ≠ u)
    (haa : ∀ x ∈ db.albums, x.ID ≠ albumAbsent)
    (haf : ∃ x ∈ db.albums, x.ID = albumForeign)
    (hao : ∀ x ∈ db.albums, x.ID = albumForeign → x.UserID ≠ u) :
    GetMediaItem db mediaAbsent u = GetMediaItem db mediaForeign u ∧
    GetMediaItem db mediaForeign u = .error .recordNotFound ∧
    GetAlbum db albumAbsent u = GetAlbum db albumForeign u ∧
    GetAlbum db albumForeign u = .error .albumNotFoundOrDenied ∧
    Error.message .albumNotFoundOrDenied = "album not found or access denied" := by
  have _ := hmf
  have _ := haf
  have h1 : firstMediaItem db mediaAbsent u = none := by
    unfold firstMediaItem
    rw [List.find?_eq_none]
    intro x hx
    simp only [decide_eq_true_eq]
    exact fun h => hma x hx h.1
  have h2 : firstMediaItem db mediaForeign u = none := by
    unfold firstMediaItem
    rw [List.find?_eq_none]
    intro x hx
    simp only [decide_eq_true_eq]
    exact fun h => hmo x hx h.1 h.2.1
  have h3 : firstAlbum db albumAbsent u = none := by
    rw [firstAlbum_eq_none_iff]
    rintro ⟨x, hx, hid, _⟩
    exact haa x hx hid
  have h4 : firstAlbum db albumForeign u = none := by
    rw [firstAlbum_eq_none_iff]
    rintro ⟨x, hx, hid, hu, _⟩
    exact hao x hx hid hu
  simp [GetMediaItem, GetAlbum, h1, h2, h3, h4]
  rfl

/-- C17 at the sample database, for user 7: no media item 99 and no album 99
exist; media item 4 and album 11 belong to user 8. -/
theorem C17_absent_and_foreign_alike_witness :
    GetMediaItem sampleDB 99 7 = GetMediaItem sampleDB 4 7 ∧
    GetMediaItem sampleDB 4 7 = .error .recordNotFound ∧
    GetAlbum sampleDB 99 7 = GetAlbum sampleDB 11 7 ∧
    GetAlbum sampleDB 11 7 = .error .albumNotFoundOrDenied ∧
    Error.message .albumNotFoundOrDenied = "album not found or access denied" :=
  C17_absent_and_foreign_alike sampleDB 7 99 4 99 11
    (by decide) (by decide) (by decide) (by decide) (by decide) (by decide)

/-! ## `ReorderAlbumMedia`: the rows the list does not name -/

/-- C20: for every album `a` owned by `u` and every list `L` (repetitions
allowed) all of whose ids have a membership row in `a`, `ReorderAlbumMedia(a,
L, u)` succeeds and every membership row that is a row of another album, or a
row of `a` whose media id does not occur in `L`, is afterwards the row it was,
display order included, at the place it was; every row keeps its album id and
media id, and albums and media rows are untouched. -/
theorem C20_reorder_keeps_unnamed_rows (db : DB) (a u : Nat) (L : List Nat)
    (halbum : OwnsAlbum db u a) (hL : ∀ m ∈ L, InAlbum db a m) :
    (ReorderAlbumMedia db a L u).2 = none ∧
    (ReorderAlbumMedia db a L u).1.album_media_items.length =
      db.album_media_items.length ∧
    (∀ (i : Nat) (r : AlbumMediaItem), db.album_media_items[i]? = some r →
      (r.AlbumID = a → r.MediaItemID ∉ L) →
      (ReorderAlbumMedia db a L u).1.album_media_items[i]? = some r) ∧
    (∀ (i : Nat) (r : AlbumMediaItem), db.album_media_items[i]? = some r →
      ∃ r', (ReorderAlbumMedia db a L u).1.album_media_items[i]? = some r' ∧
        r'.AlbumID = r.AlbumID ∧ r'.MediaItemID = r.MediaItemID) ∧
    (ReorderAlbumMedia db a L u).1.albums = db.albums ∧
    (ReorderAlbumMedia db a L u).1.media_items = db.media_items := by
  have hloop := (reorderLoop_eq_ok_iff a L 0 db _).2 ⟨hL, rfl⟩
  have hre : ReorderAlbumMedia db a L u =
      ({ db with album_media_items := db.album_media_items.map (reorderedRow a 0 L) },
        none) := by
    rw [ReorderAlbumMedia_of_owner L halbum]
    exact Transaction_ok hloop
  rw [hre]
  refine ⟨rfl, by simp, ?_, ?_, rfl, rfl⟩
  · intro i r hr hframe
    simp only [List.getElem?_map, hr, Option.map_some']
    rw [reorderedRow_of_not_named a L 0 r hframe]
  · intro i r hr
    refine ⟨reorderedRow a 0 L r, ?_, reorderedRow_key a L 0 r⟩
    simp only [List.getElem?_map, hr, Option.map_some']

/-- C20 at the sample database: album 10 holds 2, 1, 3; the list 3, 2, 3 names
3 twice and leaves out 1, whose row keeps display order 2, as do the rows of
the albums 11 and 12. -/
theorem C20_reorder_keeps_unnamed_rows_witness :
    (ReorderAlbumMedia sampleDB 10 [3, 2, 3] 7).2 = none ∧
    (ReorderAlbumMedia sampleDB 10 [3, 2, 3] 7).1.album_media_items.length =
      sampleDB.album_media_items.length ∧
    (∀ (i : Nat) (r : AlbumMediaItem), sampleDB.album_media_items[i]? = some r →
      (r.AlbumID = 10 → r.MediaItemID ∉ [3, 2, 3]) →
      (ReorderAlbumMedia sampleDB 10 [3, 2, 3] 7).1.album_media_items[i]? = some r) ∧
    (∀ (i : Nat) (r : AlbumMediaItem), sampleDB.album_media_items[i]? = some r →
      ∃ r', (ReorderAlbumMedia sampleDB 10 [3, 2, 3] 7).1.album_media_items[i]? = some r' ∧
        r'.AlbumID = r.AlbumID ∧ r'.MediaItemID = r.MediaItemID) ∧
    (ReorderAlbumMedia sampleDB 10 [3, 2, 3] 7).1.albums = sampleDB.albums ∧
    (ReorderAlbumMedia sampleDB 10 [3, 2, 3] 7).1.media_items = sampleDB.media_items :=
  C20_reorder_keeps_unnamed_rows sampleDB 10 7 [3, 2, 3] (by decide) (by decide)

/-! ## `AddMediaToAlbum`: appending after the existing rows -/

theorem foldl_max_spec (ds : List Int) :
    ∀ (d : Int), ds.foldl max d ∈ d :: ds ∧ ∀ x ∈ d :: ds, x ≤ ds.foldl max d := by
  induction ds with
  | nil => intro d; simp
  | cons y ys ih =>
    intro d
    have h := ih (max d y)
    simp only [List.foldl_cons, List.mem_cons, forall_eq_or_imp] at h ⊢
    refine ⟨?_, le_trans (le_max_left _ _) h.2.1, le_trans (le_max_right _ _) h.2.1, h.2.2⟩
    rcases h.1 with h1 | h1
    · rcases max_choice d y with hm | hm
      · exact Or.inl (h1.trans hm)
      · exact Or.inr (Or.inl (h1.trans hm))
    · exact Or.inr (Or.inr h1)

/-- The query `COALESCE(MAX(display_order), 0)` computes the maximum of the
specification. -/
theorem maxDisplayOrder_eq {db : DB} {a : Nat} {M : Int} (h : IsMaxDisplayOrder db a M) :
    maxDisplayOrder db a = M := by
  unfold maxDisplayOrder
  rcases h with ⟨hnil, h0⟩ | ⟨⟨r, hr, hrM⟩, hle⟩
  · simp [hnil, h0]
  · cases hrows : (albumRows db a).map (fun r => r.DisplayOrder) with
    | nil =>
      rw [List.map_eq_nil_iff] at hrows
      rw [hrows] at hr
      simp at hr
    | cons d ds =>
      simp only
      have hspec := foldl_max_spec ds d
      rw [← hrows] at hspec
      obtain ⟨r', _, hr'⟩ := List.mem_map.1 hspec.1
      have h1 : ds.foldl max d ≤ M := by rw [← hr']; exact hle r' (by assumption)
      have h2 : M ≤ ds.foldl max d := hspec.2 M (List.mem_map.2 ⟨r, hr, hrM⟩)
      exact le_antisymm h1 h2

theorem appendedRows_length (a : Nat) (M : Int) (ids : List Nat) (k : Nat) :
    (appendedRows a M k ids).length = ids.length := by
  have := congrArg List.length (appendedRows_mediaIDs a M ids k)
  simpa using this

/-- Without wrap-around the row inserted for the `i`-th id carries the display
order `maxOrder + i + 1`. -/
theorem appendedRows_getElem? (a : Nat) (M : Int) (ids : List Nat) :
    ∀ (k i : Nat) (h : i < ids.length),
      -9223372036854775808 ≤ M + (k : Int) + 1 →
      M + (k : Int) + (ids.length : Int) < 9223372036854775808 →
      (appendedRows a M k ids)[i]? = some ⟨a, ids[i], M + ((k + i : Nat) : Int) + 1⟩ := by
  induction ids with
  | nil => intro k i h; simp at h
  | cons m rest ih =>
    intro k i h hlo hhi
    simp only [List.length_cons, Nat.cast_add, Nat.cast_one] at hhi
    cases i with
    | zero =>
      have hw : wrapInt (M + (k : Int) + 1) = M + (k : Int) + 1 :=
        wrapInt_eq_self hlo (by omega)
      simp [appendedRows, hw]
    | succ j =>
      have hj : j < rest.length := by simpa using h
      have := ih (k + 1) j hj (by push_cast; omega) (by push_cast; omega)
      simp only [appendedRows, List.getElem?_cons_succ, List.getElem_cons_succ, this]
      congr 2
      push_cast
      omega

theorem orderedInsert_append_of_le (x : AlbumMediaItem) (new : List AlbumMediaItem)
    (hx : ∀ n ∈ new, x.DisplayOrder ≤ n.DisplayOrder) :
    ∀ (s : List AlbumMediaItem),
      List.orderedInsert (fun r₁ r₂ : AlbumMediaItem => r₁.DisplayOrder ≤ r₂.DisplayOrder) x
          (s ++ new) =
        List.orderedInsert (fun r₁ r₂ : AlbumMediaItem => r₁.DisplayOrder ≤ r₂.DisplayOrder) x
          s ++ new := by
  intro s
  induction s with
  | nil =>
    cases new with
    | nil => rfl
    | cons n ns =>
      simp [List.orderedInsert, hx n (List.mem_cons_self _ _)]
  | cons b s ih =>
    simp only [List.cons_append, List.orderedInsert, List.append_eq]
    split_ifs
    · rfl
    · rw [ih]; rfl

/-- Rows that are in increasing display order and not below any of the rows
before them stay where they are under `ORDER BY display_order`. -/
theorem orderByDisplayOrder_append (old new : List AlbumMediaItem)
    (hnew : new.Pairwise (fun r₁ r₂ => r₁.DisplayOrder ≤ r₂.DisplayOrder))
    (hle : ∀ o ∈ old, ∀ n ∈ new, o.DisplayOrder ≤ n.DisplayOrder) :
    orderByDisplayOrder (old ++ new) = orderByDisplayOrder old ++ new := by
  unfold orderByDisplayOrder
  induction old with
  | nil => simpa using List.Sorted.insertionSort_eq hnew
  | cons x old ih =>
    simp only [List.cons_append, List.insertionSort, List.append_eq]
    rw [ih (fun o ho => hle o (List.mem_cons_of_mem _ ho))]
    exact orderedInsert_append_of_le x new (hle x (List.mem_cons_self _ _)) _

theorem joinMediaItems_append (db : DB) (rows₁ rows₂ : List AlbumMediaItem) :
    joinMediaItems db (rows₁ ++ rows₂) = joinMediaItems db rows₁ ++ joinMediaItems db rows₂ := by
  simp [joinMediaItems]

/-- In the sample database whose album 10 holds media item 2 at the largest
`int` display order `M = 9223372036854775807`, adding media item 1 succeeds,
but `M + 0 + 1` wraps around: the new row gets display order
`-9223372036854775808`, not `M + 1`, and `GetAlbumMedia` returns the new item
before the one that was there. -/
theorem C19_add_at_largest_order_counterexample :
    OwnsAlbum sampleFullOrder 7 10 ∧
    IsMaxDisplayOrder sampleFullOrder 10 9223372036854775807 ∧
    OwnsMediaRow sampleFullOrder 7 1 ∧ ¬ InAlbum sampleFullOrder 10 1 ∧
    (AddMediaToAlbum sampleFullOrder 10 [1] 7).2 = none ∧
    (AddMediaToAlbum sampleFullOrder 10 [1] 7).1.album_media_items =
      [⟨10, 2, 9223372036854775807⟩, ⟨10, 1, -9223372036854775808⟩] ∧
    (∃ items, GetAlbumMedia sampleFullOrder 10 7 = .ok items ∧
      items.map (fun m => m.ID) = [2]) ∧
    (∃ items, GetAlbumMedia (AddMediaToAlbum sampleFullOrder 10 [1] 7).1 10 7 = .ok items ∧
      items.map (fun m => m.ID) = [1, 2]) :=
  ⟨by decide, by decide, by decide, by decide, by decide, by decide, ⟨_, rfl, by decide⟩,
    ⟨_, rfl, by decide⟩⟩

/-- C19, amended: for every album `a` owned by `u` whose membership rows have
maximum display order `M` (0 when it has none) and every list of pairwise
distinct media ids of `u` that are not yet members of `a`, provided
`M + 1, ..., M + n` are values of a 64 bit `int`: `AddMediaToAlbum` succeeds
and appends to the membership rows, which stay as they are, exactly one row per
id, the row of the `i`-th id (counted from 0) being `(a, ids[i])` with display
order `M + i + 1`; `GetAlbumMedia` afterwards returns the items it returned
before followed by the new items in input order. -/
theorem C19_add_appends_after_existing (db : DB) (a u : Nat) (ids : List Nat) (M : Int)
    (hmedia : MediaKeyUnique db) (halbum : OwnsAlbum db u a)
    (hM : IsMaxDisplayOrder db a M)
    (hnodup : ids.Nodup) (hown : ∀ m ∈ ids, OwnsMediaRow db u m)
    (hnew : ∀ m ∈ ids, ¬ InAlbum db a m)
    (hlo : -9223372036854775808 ≤ M + 1)
    (hhi : M + (ids.length : Int) < 9223372036854775808) :
    (AddMediaToAlbum db a ids u).2 = none ∧
    (∃ rows, (AddMediaToAlbum db a ids u).1.album_media_items =
        db.album_media_items ++ rows ∧
      rows.length = ids.length ∧
      ∀ (i : Nat) (h : i < ids.length), rows[i]? = some ⟨a, ids[i], M + (i : Int) + 1⟩) ∧
    (AddMediaToAlbum db a ids u).1.albums = db.albums ∧
    (AddMediaToAlbum db a ids u).1.media_items = db.media_items ∧
    ∃ old new, GetAlbumMedia db a u = .ok old ∧
      GetAlbumMedia (AddMediaToAlbum db a ids u).1 a u = .ok (old ++ new) ∧
      new.map (fun m => m.ID) = ids := by
  have hmax : maxDisplayOrder db a = M := maxDisplayOrder_eq hM
  have hloop := (addMediaLoop_eq_ok_iff a u M ids 0 db _).2 ⟨⟨hown, hnodup, hnew⟩, rfl⟩
  have hadd : AddMediaToAlbum db a ids u =
      ({ db with album_media_items := db.album_media_items ++ appendedRows a M 0 ids },
        none) := by
    rw [AddMediaToAlbum_of_owner ids halbum, hmax]
    exact Transaction_ok hloop
  rw [hadd]
  have hlo' : -9223372036854775808 ≤ M + ((0 : Nat) : Int) + 1 := by simpa using hlo
  have hhi' : M + ((0 : Nat) : Int) + (ids.length : Int) < 9223372036854775808 := by
    simpa using hhi
  refine ⟨rfl, ⟨appendedRows a M 0 ids, rfl, appendedRows_length a M ids 0, ?_⟩, rfl, rfl, ?_⟩
  · intro i h
    have := appendedRows_getElem? a M ids 0 i h hlo' hhi'
    simpa using this
  · obtain ⟨al, hal⟩ := firstAlbum_of_owns halbum
    have hal' : firstAlbum
        { db with album_media_items := db.album_media_items ++ appendedRows a M 0 ids }
        a u = some al := hal
    have hinc := appendedRows_increasing a M ids 0 hlo' hhi'
    have hold : ∀ o ∈ albumRows db a, o.DisplayOrder ≤ M := by
      rcases hM with ⟨hnil, _⟩ | ⟨_, hle⟩
      · intro o ho; rw [hnil] at ho; simp at ho
      · exact hle
    have hsort : orderByDisplayOrder (albumRows db a ++ appendedRows a M 0 ids) =
        orderByDisplayOrder (albumRows db a) ++ appendedRows a M 0 ids := by
      apply orderByDisplayOrder_append
      · exact hinc.1.imp (fun h => le_of_lt h)
      · intro o ho n hn
        have h1 := hold o ho
        have h2 := hinc.2 n hn
        simp only [Nat.cast_zero, add_zero] at h2
        omega
    have hjoin := joinMediaItems_ids
      { db with album_media_items := db.album_media_items ++ appendedRows a M 0 ids } hmedia
      (appendedRows a M 0 ids) (by
        intro r hr
        have hm : r.MediaItemID ∈ ids := by
          rw [← appendedRows_mediaIDs a M ids 0]
          exact List.mem_map.2 ⟨r, hr, rfl⟩
        obtain ⟨x, hx, hxid, _⟩ := hown _ hm
        exact ⟨x, hx, hxid⟩)
    rw [appendedRows_mediaIDs] at hjoin
    refine ⟨joinMediaItems db (orderByDisplayOrder (albumRows db a)), _, ?_, ?_, hjoin⟩
    · simp only [GetAlbumMedia, hal]
    · simp only [GetAlbumMedia, hal', albumRows_append, filter_appendedRows, hsort,
        joinMediaItems_append]
      rfl

/-- C19, amended, at the sample database: album 10 holds 2, 1, 3 at the display
orders 1, 2, 3; album 12 holds 1 at display order 1 and gets 3 and 2. -/
theorem C19_add_appends_after_existing_witness :
    (AddMediaToAlbum sampleDB 12 [3, 2] 7).2 = none ∧
    (∃ rows, (AddMediaToAlbum sampleDB 12 [3, 2] 7).1.album_media_items =
        sampleDB.album_media_items ++ rows ∧
      rows.length = [3, 2].length ∧
      ∀ (i : Nat) (h : i < [3, 2].length),
        rows[i]? = some ⟨12, [3, 2][i], 1 + (i : Int) + 1⟩) ∧
    (AddMediaToAlbum sampleDB 12 [3, 2] 7).1.albums = sampleDB.albums ∧
    (AddMediaToAlbum sampleDB 12 [3, 2] 7).1.media_items = sampleDB.media_items ∧
    ∃ old new, GetAlbumMedia sampleDB 12 7 = .ok old ∧
      GetAlbumMedia (AddMediaToAlbum sampleDB 12 [3, 2] 7).1 12 7 = .ok (old ++ new) ∧
      new.map (fun m => m.ID) = [3, 2] :=
  C19_add_appends_after_existing sampleDB 12 7 [3, 2] 1
    (by decide) (by decide) (by decide) (by decide) (by decide) (by decide) (by decide)
    (by decide)

/-! ## Metadata maps -/

theorem GoMap.get_set_self (m : GoMap) (k : String) (v : JSONValue) :
    GoMap.get (GoMap.set m k v) k = some v := by
  simp [GoMap.get, GoMap.set]

theorem GoMap.get_set_of_ne (m : GoMap) {k k' : String} (v : JSONValue) (h : k' ≠ k) :
    GoMap.get (GoMap.set m k v) k' = GoMap.get m k' := by
  have hk : ¬ k = k' := fun e => h e.symm
  simp only [GoMap.get, GoMap.set, List.find?_cons, hk, decide_False]
  congr 1
  rw [List.find?_filter]
  congr 1
  funext a
  by_cases h2 : a.1 = k'
  · have h1 : ¬ a.1 = k := fun e => h (h2.symm.trans e)
    simp [h1, h2, h]
  · simp [h2]

/-- After the merge a key has the value of the new map if it has one there, and
the value it had otherwise. -/
theorem get_mergeMetadata (existing : GoMap) (k : String) :
    ∀ (metadata : GoMap), GoMap.get (mergeMetadata existing metadata) k =
      match GoMap.get metadata k with
      | some v => some v
      | none => GoMap.get existing k := by
  intro metadata
  induction metadata with
  | nil => rfl
  | cons kv rest ih =>
    unfold mergeMetadata at ih ⊢
    simp only [List.foldr_cons]
    by_cases h : kv.1 = k
    · subst h
      rw [GoMap.get_set_self]
      simp [GoMap.get]
    · rw [GoMap.get_set_of_ne _ _ (fun e => h e.symm), ih]
      simp [GoMap.get, List.find?_cons, h]

/-! ## The tag loop -/

theorem mem_firstOccurrences_aux (n : Nat) :
    ∀ (l : List String), l.length ≤ n → ∀ (t : String), t ∈ firstOccurrences l ↔ t ∈ l := by
  induction n with
  | zero =>
    intro l hl t
    have : l = [] := List.length_eq_zero.1 (Nat.le_zero.1 hl)
    subst this
    simp [firstOccurrences]
  | succ n ih =>
    intro l hl t
    cases l with
    | nil => simp [firstOccurrences]
    | cons a rest =>
      rw [firstOccurrences]
      have hlen : (rest.filter (fun b => ¬ b = a)).length ≤ n :=
        le_trans (List.length_filter_le _ _) (Nat.le_of_succ_le_succ hl)
      simp only [List.mem_cons, ih _ hlen t, List.mem_filter, decide_eq_true_eq]
      constructor
      · rintro (h | h)
        · exact Or.inl h
        · exact Or.inr h.1
      · rintro (h | h)
        · exact Or.inl h
        · by_cases hta : t = a
          · exact Or.inl hta
          · exact Or.inr ⟨h, hta⟩

theorem mem_firstOccurrences (l : List String) (t : String) :
    t ∈ firstOccurrences l ↔ t ∈ l :=
  mem_firstOccurrences_aux l.length l (le_refl _) t

theorem nodup_firstOccurrences_aux (n : Nat) :
    ∀ (l : List String), l.length ≤ n → (firstOccurrences l).Nodup := by
  induction n with
  | zero =>
    intro l hl
    have : l = [] := List.length_eq_zero.1 (Nat.le_zero.1 hl)
    subst this
    simp [firstOccurrences]
  | succ n ih =>
    intro l hl
    cases l with
    | nil => simp [firstOccurrences]
    | cons a rest =>
      rw [firstOccurrences]
      have hlen : (rest.filter (fun b => ¬ b = a)).length ≤ n :=
        le_trans (List.length_filter_le _ _) (Nat.le_of_succ_le_succ hl)
      rw [List.nodup_cons]
      refine ⟨?_, ih _ hlen⟩
      rw [mem_firstOccurrences]
      simp

theorem nodup_firstOccurrences (l : List String) : (firstOccurrences l).Nodup :=
  nodup_firstOccurrences_aux l.length l (le_refl _)

/-- The loop appends to the existing tags the first occurrences of the tags
that `tagMap` does not hold. -/
theorem addTagsLoop_eq (tags : List String) :
    ∀ (existingTags : List JSONElem) (tagMap : List String),
      addTagsLoop tags existingTags tagMap =
        existingTags ++
          (firstOccurrences (tags.filter (fun t => t ∉ tagMap))).map JSONElem.string := by
  induction tags with
  | nil => intro e s; simp [addTagsLoop, firstOccurrences]
  | cons t rest ih =>
    intro e s
    unfold addTagsLoop
    by_cases hts : t ∈ s
    · rw [if_pos hts, ih]
      simp [List.filter_cons, hts]
    · rw [if_neg hts, ih]
      have hfilter : rest.filter (fun x => x ∉ s ++ [t]) =
          (rest.filter (fun x => x ∉ s)).filter (fun b => ¬ b = t) := by
        rw [List.filter_filter]
        apply List.filter_congr
        intro x _
        simp [not_or, and_comm]
      simp only [List.filter_cons, hts, not_false_eq_true, decide_True, if_true]
      rw [firstOccurrences, hfilter]
      simp

theorem tagMapOf_strings (T : List String) : tagMapOf (T.map JSONElem.string) = T := by
  unfold tagMapOf
  induction T with
  | nil => rfl
  | cons t rest ih => simp [List.filterMap_cons, ih]

theorem nodup_mergedTags {T : List String} (A : List String) (h : T.Nodup) :
    (mergedTags T A).Nodup := by
  unfold mergedTags
  rw [List.nodup_append]
  refine ⟨h, nodup_firstOccurrences _, ?_⟩
  intro t ht hocc
  rw [mem_firstOccurrences] at hocc
  have := (List.mem_filter.1 hocc).2
  simp only [decide_eq_true_eq] at this
  exact this ht

theorem mem_mergedTags (T A : List String) (t : String) :
    t ∈ mergedTags T A ↔ t ∈ T ∨ t ∈ A := by
  unfold mergedTags
  simp only [List.mem_append, mem_firstOccurrences, List.mem_filter, decide_eq_true_eq]
  constructor
  · rintro (h | h)
    · exact Or.inl h
    · exact Or.inr h.1
  · rintro (h | h)
    · exact Or.inl h
    · by_cases hT : t ∈ T
      · exact Or.inl hT
      · exact Or.inr ⟨h, hT⟩

/-! ## `AddMediaTags` -/

theorem firstMediaItem_updateMetadata {db : DB} {id u : Nat} {x : MediaItem} (text : String)
    (hx : firstMediaItem db id u = some x) :
    firstMediaItem (updateMetadata db x text) id u = some { x with Metadata := text } := by
  have h1 := List.find?_some hx
  simp only [decide_eq_true_eq] at h1
  unfold firstMediaItem at hx ⊢
  unfold updateMetadata
  simp only [List.find?_map]
  have hfun : ((fun m : MediaItem => decide (m.ID = id ∧ m.UserID = u ∧ m.DeletedAt = false)) ∘
      fun m : MediaItem =>
        if m.ID = x.ID ∧ m.DeletedAt = false then { m with Metadata := text } else m) =
      fun m : MediaItem => decide (m.ID = id ∧ m.UserID = u ∧ m.DeletedAt = false) := by
    funext m
    simp only [Function.comp]
    split <;> rfl
  rw [hfun, hx]
  simp [h1.2.2]

/-- What `AddMediaTags` does for a live media row whose metadata parses. -/
theorem AddMediaTags_of_parsed {json : JSONCodec} {db : DB} {x : MediaItem}
    {metadata : GoMap} (tags : List String)
    (hfirst : firstMediaItem db x.ID x.UserID = some x)
    (hparse : json.Unmarshal x.Metadata = some metadata) :
    AddMediaTags json db x.ID x.UserID tags =
      (updateMetadata db x (json.Marshal (taggedMetadata metadata tags)), none) := by
  unfold AddMediaTags GetMediaMetadata UpdateMediaMetadata
  simp only [hfirst, hparse]
  rfl

/-- C18: for every live media row `x` of its owner (ids being unique in
`media_items`) whose metadata text parses to a map with the tag list `T`,
all strings and without duplicates, and every list `A` of tags, the codec
reading back the map that is written: `AddMediaTags` succeeds and the metadata
read afterwards has the tag list `T` followed by the elements of `A` that are
not in `T`, each once, in the order of their first occurrence in `A`; this
list has no duplicates, a string is in it exactly when it is equal to an
element of `T` or of `A`, and every key other than `tags` has the value it
had. -/
theorem C18_add_tags_merges (json : JSONCodec) (db : DB) (x : MediaItem)
    (metadata : GoMap) (T A : List String)
    (hmedia : MediaKeyUnique db) (hx : x ∈ db.media_items) (hlive : x.DeletedAt = false)
    (hparse : json.Unmarshal x.Metadata = some metadata)
    (hT : existingTagsOf metadata = T.map JSONElem.string) (hnodup : T.Nodup)
    (hback : ReadsBack json (taggedMetadata metadata A)) :
    (AddMediaTags json db x.ID x.UserID A).2 = none ∧
    ∃ metadata',
      GetMediaMetadata json (AddMediaTags json db x.ID x.UserID A).1 x.ID x.UserID =
        .ok metadata' ∧
      existingTagsOf metadata' = (mergedTags T A).map JSONElem.string ∧
      (mergedTags T A).Nodup ∧
      (∀ t, t ∈ mergedTags T A ↔ t ∈ T ∨ t ∈ A) ∧
      (∀ k, k ≠ "tags" → GoMap.get metadata' k = GoMap.get metadata k) := by
  have hfirst := firstMediaItem_of_mem hmedia hx hlive
  rw [AddMediaTags_of_parsed A hfirst hparse]
  obtain ⟨metadata', hread, hsame⟩ := hback
  have hfirst' := firstMediaItem_updateMetadata
    (json.Marshal (taggedMetadata metadata A)) hfirst
  have htags : GoMap.get (taggedMetadata metadata A) "tags" =
      some (.array ((mergedTags T A).map JSONElem.string)) := by
    unfold taggedMetadata
    rw [get_mergeMetadata, GoMap.get_set_self]
    simp only [hT, tagMapOf_strings, addTagsLoop_eq, mergedTags, List.map_append]
  refine ⟨rfl, metadata', ?_, ?_, nodup_mergedTags A hnodup, mem_mergedTags T A, ?_⟩
  · simp only [GetMediaMetadata, hfirst', hread]
  · unfold existingTagsOf
    rw [hsame "tags", htags]
  · intro k hk
    rw [hsame k]
    unfold taggedMetadata
    rw [get_mergeMetadata, GoMap.get_set_of_ne _ _ hk]
    cases GoMap.get metadata k <;> rfl

/-- The merged tag list of the sample: `Dog` differs from `dog`, and `pet` is
taken once. -/
theorem mergedTags_sample :
    mergedTags ["dog"] ["Dog", "pet", "dog", "pet"] = ["dog", "Dog", "pet"] := by
  simp [mergedTags, firstOccurrences, List.filter_cons]

/-- C18 at the sample database: media item 5 carries `dog` and gets `Dog`,
`pet`, `dog`, `pet`. -/
theorem C18_add_tags_merges_witness :
    (AddMediaTags sampleJSON sampleTaggedDB 5 7 ["Dog", "pet", "dog", "pet"]).2 = none ∧
    ∃ metadata',
      GetMediaMetadata sampleJSON
        (AddMediaTags sampleJSON sampleTaggedDB 5 7 ["Dog", "pet", "dog", "pet"]).1 5 7 =
        .ok metadata' ∧
      existingTagsOf metadata' =
        (mergedTags ["dog"] ["Dog", "pet", "dog", "pet"]).map JSONElem.string ∧
      (mergedTags ["dog"] ["Dog", "pet", "dog", "pet"]).Nodup ∧
      (∀ t, t ∈ mergedTags ["dog"] ["Dog", "pet", "dog", "pet"] ↔
        t ∈ ["dog"] ∨ t ∈ ["Dog", "pet", "dog", "pet"]) ∧
      (∀ k, k ≠ "tags" → GoMap.get metadata' k = GoMap.get sampleMetadata k) :=
  C18_add_tags_merges sampleJSON sampleTaggedDB
    ⟨5, false, "dog.jpg", "u/5", "t/5", 1024, "image/jpeg", "image", 7, sampleMetadataText⟩
    sampleMetadata ["dog"] ["Dog", "pet", "dog", "pet"]
    (by decide) (by decide) rfl rfl rfl (by decide)
    ⟨sampleTagged, by decide, fun _ => rfl⟩

/-! ## Soft-deleted media and albums -/

/-- After a delete that goes through, the media row is still in `media_items`,
soft-deleted, and no membership row names it. -/
theorem after_delete_row_remains {db : DB} {x : MediaItem} (hx : x ∈ db.media_items)
    (hlive : x.DeletedAt = false) :
    ({ x with DeletedAt := true } : MediaItem) ∈
        (softDeleteMediaItem (deleteMediaRows db x.ID) x).media_items ∧
      ∀ a, ¬ InAlbum (softDeleteMediaItem (deleteMediaRows db x.ID) x) a x.ID := by
  constructor
  · unfold softDeleteMediaItem deleteMediaRows
    simp only [List.mem_map]
    exact ⟨x, hx, by simp [hlive]⟩
  · rintro a ⟨r, hr, _, hrm⟩
    have hr' : r ∈ db.album_media_items.filter (fun r => ¬ r.MediaItemID = x.ID) := hr
    have := (List.mem_filter.1 hr').2
    simp only [decide_eq_true_eq] at this
    exact this hrm

/-- Whatever the database, a media item that was deleted can be added to an
album of its owner again: the count on the bare table `media_items` finds the
soft-deleted row, the insert goes through, and `GetAlbumMedia` returns the
deleted item. -/
theorem add_after_delete_succeeds (db : DB) (fs : FileSystem) (x : MediaItem) (a : Nat)
    (hmedia : MediaKeyUnique db) (hx : x ∈ db.media_items) (hlive : x.DeletedAt = false)
    (halbum : OwnsAlbum db x.UserID a)
    (hfile : x.Path ∉ fs.locked) (hthumb : x.ThumbnailPath ∉ fs.locked) :
    (DeleteMediaItem db fs x.ID x.UserID).2.2 = none ∧
    GetMediaItem (DeleteMediaItem db fs x.ID x.UserID).1 x.ID x.UserID =
      .error .recordNotFound ∧
    (AddMediaToAlbum (DeleteMediaItem db fs x.ID x.UserID).1 a [x.ID] x.UserID).2 = none ∧
    InAlbum (AddMediaToAlbum (DeleteMediaItem db fs x.ID x.UserID).1 a [x.ID] x.UserID).1
      a x.ID ∧
    ∃ items,
      GetAlbumMedia
        (AddMediaToAlbum (DeleteMediaItem db fs x.ID x.UserID).1 a [x.ID] x.UserID).1
        a x.UserID = .ok items ∧
      ∃ y ∈ items, y.ID = x.ID ∧ y.DeletedAt = true := by
  obtain ⟨hdb, herr⟩ := DeleteMediaItem_of_removable fs hmedia hx hlive hfile hthumb
  rw [hdb]
  obtain ⟨hrow, hnot⟩ := after_delete_row_remains hx hlive
  have halbum₁ : OwnsAlbum (softDeleteMediaItem (deleteMediaRows db x.ID) x) x.UserID a :=
    halbum
  have hown : ∀ m ∈ [x.ID],
      OwnsMediaRow (softDeleteMediaItem (deleteMediaRows db x.ID) x) x.UserID m := by
    intro m hm
    rw [List.mem_singleton] at hm
    subst hm
    exact ⟨_, hrow, rfl, rfl⟩
  have hloop := (addMediaLoop_eq_ok_iff a x.UserID
    (maxDisplayOrder (softDeleteMediaItem (deleteMediaRows db x.ID) x) a) [x.ID] 0
    (softDeleteMediaItem (deleteMediaRows db x.ID) x) _).2
    ⟨⟨hown, List.nodup_singleton _, by
      intro m hm
      rw [List.mem_singleton] at hm
      subst hm
      exact hnot a⟩, rfl⟩
  have hadd := AddMediaToAlbum_of_owner [x.ID] halbum₁
  rw [Transaction_ok hloop] at hadd
  rw [hadd]
  obtain ⟨al, hal⟩ := firstAlbum_of_owns halbum₁
  have hmem : (⟨a, x.ID, wrapInt
      (maxDisplayOrder (softDeleteMediaItem (deleteMediaRows db x.ID) x) a +
        ((0 : Nat) : Int) + 1)⟩ : AlbumMediaItem) ∈
      (softDeleteMediaItem (deleteMediaRows db x.ID) x).album_media_items ++
        appendedRows a (maxDisplayOrder (softDeleteMediaItem (deleteMediaRows db x.ID) x) a)
          0 [x.ID] := by
    apply List.mem_append_right
    simp [appendedRows]
  have hal' : firstAlbum
      { softDeleteMediaItem (deleteMediaRows db x.ID) x with
        album_media_items :=
          (softDeleteMediaItem (deleteMediaRows db x.ID) x).album_media_items ++
            appendedRows a
              (maxDisplayOrder (softDeleteMediaItem (deleteMediaRows db x.ID) x) a) 0
              [x.ID] } a x.UserID = some al := hal
  have hget : GetAlbumMedia
      { softDeleteMediaItem (deleteMediaRows db x.ID) x with
        album_media_items :=
          (softDeleteMediaItem (deleteMediaRows db x.ID) x).album_media_items ++
            appendedRows a
              (maxDisplayOrder (softDeleteMediaItem (deleteMediaRows db x.ID) x) a) 0
              [x.ID] } a x.UserID =
      .ok (joinMediaItems (softDeleteMediaItem (deleteMediaRows db x.ID) x)
        (orderByDisplayOrder (albumRows
          { softDeleteMediaItem (deleteMediaRows db x.ID) x with
            album_media_items :=
              (softDeleteMediaItem (deleteMediaRows db x.ID) x).album_media_items ++
                appendedRows a
                  (maxDisplayOrder (softDeleteMediaItem (deleteMediaRows db x.ID) x) a) 0
                  [x.ID] } a))) := by
    simp only [GetAlbumMedia, hal']
    rfl
  have hitem : ({ x with DeletedAt := true } : MediaItem) ∈
      joinMediaItems (softDeleteMediaItem (deleteMediaRows db x.ID) x)
        (orderByDisplayOrder (albumRows
          { softDeleteMediaItem (deleteMediaRows db x.ID) x with
            album_media_items :=
              (softDeleteMediaItem (deleteMediaRows db x.ID) x).album_media_items ++
                appendedRows a
                  (maxDisplayOrder (softDeleteMediaItem (deleteMediaRows db x.ID) x) a) 0
                  [x.ID] } a)) := by
    unfold joinMediaItems
    rw [List.mem_flatMap]
    refine ⟨_, mem_orderByDisplayOrder.2 (mem_albumRows.2 ⟨hmem, rfl⟩), ?_⟩
    rw [List.mem_filter]
    exact ⟨hrow, by simp⟩
  refine ⟨herr, ?_, rfl, ⟨_, hmem, rfl, rfl⟩, _, hget, _, hitem, rfl, rfl⟩
  simp [GetMediaItem, firstMediaItem_softDeleteMediaItem]

/-- C21, the code at the failing input: in the sample database user 7 deletes
media item 1, which succeeds and makes `GetMediaItem(1, 7)` fail; the call
`AddMediaToAlbum(10, [1], 7)` that follows does not fail but inserts the row
`(10, 1)` at display order 4, and `GetAlbumMedia(10, 7)` then returns the
deleted item 1 after the live items 2 and 3. -/
theorem C21_deleted_media_can_be_added_again :
    (DeleteMediaItem sampleDB sampleFiles 1 7).2.2 = none ∧
    GetMediaItem (DeleteMediaItem sampleDB sampleFiles 1 7).1 1 7 = .error .recordNotFound ∧
    (AddMediaToAlbum (DeleteMediaItem sampleDB sampleFiles 1 7).1 10 [1] 7).2 = none ∧
    (AddMediaToAlbum (DeleteMediaItem sampleDB sampleFiles 1 7).1 10 [1] 7).1.album_media_items
      = [⟨10, 2, 1⟩, ⟨11, 4, 1⟩, ⟨10, 3, 3⟩, ⟨10, 1, 4⟩] ∧
    ∃ items,
      GetAlbumMedia (AddMediaToAlbum (DeleteMediaItem sampleDB sampleFiles 1 7).1 10 [1] 7).1
        10 7 = .ok items ∧
      items.map (fun m => (m.ID, m.DeletedAt)) = [(2, false), (3, false), (1, true)] :=
  ⟨by decide, rfl, by decide, by decide, _, rfl, by decide⟩

/-! ## Distinct display orders -/

/-- One update of the reorder loop on a row of the album: the ids stay, and the
row of the named media item gets the order of the position. -/
theorem reorderStep_spec (a m k : Nat) (r : AlbumMediaItem) (ha : r.AlbumID = a) :
    (if r.AlbumID = a ∧ r.MediaItemID = m then
        { r with DisplayOrder := (k : Int) + 1 } else r).AlbumID = a ∧
    (if r.AlbumID = a ∧ r.MediaItemID = m then
        { r with DisplayOrder := (k : Int) + 1 } else r).MediaItemID = r.MediaItemID ∧
    (r.MediaItemID = m →
      (if r.AlbumID = a ∧ r.MediaItemID = m then
        { r with DisplayOrder := (k : Int) + 1 } else r).DisplayOrder = (k : Int) + 1) := by
  refine ⟨by split <;> exact ha, by split <;> rfl, fun hm => ?_⟩
  rw [if_pos ⟨ha, hm⟩]

/-- A row of the album that the list names ends above the starting index. -/
theorem reorderedRow_order_gt (a : Nat) (L : List Nat) :
    ∀ (k : Nat) (r : AlbumMediaItem), r.AlbumID = a → r.MediaItemID ∈ L →
      (k : Int) < (reorderedRow a k L r).DisplayOrder := by
  induction L with
  | nil => intro k r _ h; simp at h
  | cons m rest ih =>
    intro k r ha hmem
    unfold reorderedRow
    have hstep := reorderStep_spec a m k r ha
    revert hstep
    generalize (if r.AlbumID = a ∧ r.MediaItemID = m then
      { r with DisplayOrder := (k : Int) + 1 } else r) = r'
    rintro ⟨ha', hid', hord'⟩
    by_cases hrest : r.MediaItemID ∈ rest
    · have := ih (k + 1) r' ha' (hid' ▸ hrest)
      push_cast at this
      omega
    · have hm : r.MediaItemID = m := by
        rcases List.mem_cons.1 hmem with h | h
        · exact h
        · exact absurd h hrest
      rw [reorderedRow_of_not_named a rest (k + 1) r' (fun _ => hid' ▸ hrest), hord' hm]
      omega

/-- Two rows of the album that the list names, for different media items, end
with different display orders. -/
theorem reorderedRow_order_ne (a : Nat) (L : List Nat) :
    ∀ (k : Nat) (r₁ r₂ : AlbumMediaItem), r₁.AlbumID = a → r₂.AlbumID = a →
      r₁.MediaItemID ∈ L → r₂.MediaItemID ∈ L → r₁.MediaItemID ≠ r₂.MediaItemID →
      (reorderedRow a k L r₁).DisplayOrder ≠ (reorderedRow a k L r₂).DisplayOrder := by
  induction L with
  | nil => intro k r₁ r₂ _ _ h; simp at h
  | cons m rest ih =>
    intro k r₁ r₂ ha₁ ha₂ hm₁ hm₂ hne
    unfold reorderedRow
    have hstep₁ := reorderStep_spec a m k r₁ ha₁
    have hstep₂ := reorderStep_spec a m k r₂ ha₂
    revert hstep₁ hstep₂
    generalize (if r₁.AlbumID = a ∧ r₁.MediaItemID = m then
      { r₁ with DisplayOrder := (k : Int) + 1 } else r₁) = r₁'
    generalize (if r₂.AlbumID = a ∧ r₂.MediaItemID = m then
      { r₂ with DisplayOrder := (k : Int) + 1 } else r₂) = r₂'
    rintro ⟨ha₁', hid₁', hord₁'⟩ ⟨ha₂', hid₂', hord₂'⟩
    by_cases h₁ : r₁.MediaItemID ∈ rest
    · by_cases h₂ : r₂.MediaItemID ∈ rest
      · exact ih (k + 1) r₁' r₂' ha₁' ha₂' (hid₁' ▸ h₁) (hid₂' ▸ h₂)
          (by rw [hid₁', hid₂']; exact hne)
      · have hm : r₂.MediaItemID = m := by
          rcases List.mem_cons.1 hm₂ with h | h
          · exact h
          · exact absurd h h₂
        have hgt := reorderedRow_order_gt a rest (k + 1) r₁' ha₁' (hid₁' ▸ h₁)
        rw [reorderedRow_of_not_named a rest (k + 1) r₂' (fun _ => hid₂' ▸ h₂), hord₂' hm]
        push_cast at hgt
        omega
    · have hm : r₁.MediaItemID = m := by
        rcases List.mem_cons.1 hm₁ with h | h
        · exact h
        · exact absurd h h₁
      have h₂ : r₂.MediaItemID ∈ rest := by
        rcases List.mem_cons.1 hm₂ with h | h
        · exact absurd (hm.trans h.symm) hne
        · exact h
      have hgt := reorderedRow_order_gt a rest (k + 1) r₂' ha₂' (hid₂' ▸ h₂)
      rw [reorderedRow_of_not_named a rest (k + 1) r₁' (fun _ => hid₁' ▸ h₁), hord₁' hm]
      push_cast at hgt
      omega

/-- In the sample database album 10 holds 2, 1, 3 at the display orders 1, 2, 3.
The reorder list `[3]`, which names only one member, succeeds and gives the row
of 3 the display order 1 of the row of 2; the list `[3, 3]`, which names it
twice, succeeds and gives it the display order 2 of the row of 1.  And when an
album holds rows at the largest and the smallest `int` display order, adding a
media item succeeds and wraps around onto the smallest one. -/
theorem C22_display_orders_collide_counterexample :
    DisplayOrdersDistinct sampleDB ∧
    (ReorderAlbumMedia sampleDB 10 [3] 7).2 = none ∧
    ¬ DisplayOrdersDistinct (ReorderAlbumMedia sampleDB 10 [3] 7).1 ∧
    (ReorderAlbumMedia sampleDB 10 [3, 3] 7).2 = none ∧
    ¬ DisplayOrdersDistinct (ReorderAlbumMedia sampleDB 10 [3, 3] 7).1 ∧
    DisplayOrdersDistinct sampleWrapOrder ∧
    (AddMediaToAlbum sampleWrapOrder 10 [1] 7).2 = none ∧
    ¬ DisplayOrdersDistinct (AddMediaToAlbum sampleWrapOrder 10 [1] 7).1 := by
  decide

/-- C22, amended: if no two membership rows of the same album have the same
display order, and the composite primary key holds, then this is still so after
`RemoveMediaFromAlbum`, after `AddMediaToAlbum` when the display orders
`M + 1, ..., M + n` above the maximum `M` of the album are values of a 64 bit
`int`, and after `ReorderAlbumMedia` with a list that names every member of the
album (a member may be named more than once); each for all other arguments and
whether the call succeeds or fails. -/
theorem C22_display_orders_stay_distinct (db : DB) (u : Nat)
    (a : Nat) (ids : List Nat) (M : Int) (b m : Nat) (c : Nat) (L : List Nat)
    (hkey : MembershipKeyUnique db) (hdistinct : DisplayOrdersDistinct db)
    (hM : IsMaxDisplayOrder db a M)
    (hlo : -9223372036854775808 ≤ M + 1)
    (hhi : M + (ids.length : Int) < 9223372036854775808)
    (hcover : ∀ x, InAlbum db c x → x ∈ L) :
    DisplayOrdersDistinct (AddMediaToAlbum db a ids u).1 ∧
    DisplayOrdersDistinct (RemoveMediaFromAlbum db b m u).1 ∧
    DisplayOrdersDistinct (ReorderAlbumMedia db c L u).1 := by
  refine ⟨?_, ?_, ?_⟩
  · rcases AddMediaToAlbum_cases db a u ids with ⟨e, he⟩ | ⟨_, _, _, _, he⟩
    · rw [he]; exact hdistinct
    · rw [he, maxDisplayOrder_eq hM]
      have hinc := appendedRows_increasing a M ids 0 (by simpa using hlo) (by simpa using hhi)
      have hold : ∀ o ∈ albumRows db a, o.DisplayOrder ≤ M := by
        rcases hM with ⟨hnil, _⟩ | ⟨_, hle⟩
        · intro o ho; rw [hnil] at ho; simp at ho
        · exact hle
      unfold DisplayOrdersDistinct
      simp only
      rw [List.pairwise_append]
      have hnew : (appendedRows a M 0 ids).Pairwise
          (fun r₁ r₂ => r₁.AlbumID = r₂.AlbumID → r₁.DisplayOrder ≠ r₂.DisplayOrder) := by
        refine List.Pairwise.imp ?_ hinc.1
        intro r₁ r₂ hlt _
        exact ne_of_lt hlt
      refine ⟨hdistinct, hnew, ?_⟩
      intro o ho n hn hsame
      have hna : n.AlbumID = a := appendedRows_albumID a M ids 0 n hn
      have h1 := hold o (mem_albumRows.2 ⟨ho, hsame.trans hna⟩)
      have h2 := hinc.2 n hn
      simp only [Nat.cast_zero, add_zero] at h2
      omega
  · rcases RemoveMediaFromAlbum_cases db b m u with ⟨he, _⟩ | ⟨he, _⟩ | ⟨he, _⟩
    · rw [he]; exact hdistinct
    · rw [he]; exact hdistinct
    · rw [he]
      exact List.Pairwise.sublist (List.filter_sublist _) hdistinct
  · rcases ReorderAlbumMedia_cases db c u L with ⟨e, he⟩ | he
    · rw [he]; exact hdistinct
    · rw [he]
      unfold DisplayOrdersDistinct
      simp only
      rw [List.pairwise_map]
      have hk : db.album_media_items.Pairwise
          (fun r₁ r₂ => (r₁.AlbumID, r₁.MediaItemID) ≠ (r₂.AlbumID, r₂.MediaItemID)) :=
        List.pairwise_map.1 hkey
      refine (hk.and hdistinct).imp_of_mem ?_
      rintro r₁ r₂ hr₁ hr₂ ⟨hne, hd⟩ hsame
      have hk₁ := reorderedRow_key c L 0 r₁
      have hk₂ := reorderedRow_key c L 0 r₂
      have hsame' : r₁.AlbumID = r₂.AlbumID := by rw [← hk₁.1, ← hk₂.1]; exact hsame
      by_cases hc : r₁.AlbumID = c
      · have hc₂ : r₂.AlbumID = c := hsame'.symm.trans hc
        have hmid : r₁.MediaItemID ≠ r₂.MediaItemID := by
          intro h
          exact hne (by rw [hsame', h])
        exact reorderedRow_order_ne c L 0 r₁ r₂ hc hc₂
          (hcover _ ⟨r₁, hr₁, hc, rfl⟩) (hcover _ ⟨r₂, hr₂, hc₂, rfl⟩) hmid
      · have hc₂ : ¬ r₂.AlbumID = c := fun h => hc (hsame'.trans h)
        rw [reorderedRow_of_not_named c L 0 r₁ (fun h => absurd h hc),
          reorderedRow_of_not_named c L 0 r₂ (fun h => absurd h hc₂)]
        exact hd hsame'

/-- C22, amended, at the sample database: 3 and 2 are added to album 12 above
its maximum 1, 1 is removed from album 10, and album 10 is reordered by
`[3, 1, 2, 3]`, which names its three members and 3 twice. -/
theorem C22_display_orders_stay_distinct_witness :
    DisplayOrdersDistinct (AddMediaToAlbum sampleDB 12 [3, 2] 7).1 ∧
    DisplayOrdersDistinct (RemoveMediaFromAlbum sampleDB 10 1 7).1 ∧
    DisplayOrdersDistinct (ReorderAlbumMedia sampleDB 10 [3, 1, 2, 3] 7).1 :=
  C22_display_orders_stay_distinct sampleDB 7 12 [3, 2] 1 10 1 10 [3, 1, 2, 3]
    (by decide) (by decide) (by decide) (by decide) (by decide) (by
      rintro x ⟨r, hr, hra, rfl⟩
      revert hra
      revert r
      decide)

end Pixelity
